import Mathlib

/-!
# Chat server (`main_server.cpp`): a shallow embedding

The server keeps a membership store (`clients`, `rooms`), a bounded message
ledger (`History`, a doubly linked list), an undo/redo manager (`UndoRedo`, two
stacks), an outgoing queue (`MessageQueue`) and a global id counter
(`messageCounter`).  Each definition below is a translation of the source
function of the same name.

Conventions of the embedding

* `Str` is a `std::string`: a list of characters, one per byte.
* `size_t` values are natural numbers below `2 ^ 64`; arithmetic on them is
  reduced modulo `2 ^ 64` where the source relies on it (`npos + 1`).
* The chain of `Node`s reached from `head` through `next` is the list `nodes`;
  `size` and `maxSize` stay separate `int` fields, as in the class.
* `std::stack` is a list whose head is the top; `std::queue` is a list whose
  head is the front; `std::map` and `std::set` are lists kept in key order,
  which is their iteration order.  `operator[]` and `insert` look the key up
  and add it at its ordered position when it is absent; `erase` removes every
  occurrence of the key.
* `INVALID_SOCKET` as the value of the local `targetSock` is `none`: `main`
  starts a handler only for a socket other than `INVALID_SOCKET`.
* `getCurrentTimeString()` reads the clock: every handler takes the readings
  in a `Clock`, where `clk.str k` is the string returned by the `k`-th call
  made while the handler runs (counted from 0).
* `send` is recorded: a handler returns the list of `(socket, bytes)` pairs it
  sent, in order.
* The global `int messageCounter` is a 32-bit two's complement integer: the
  value stored by `messageCounter++` is reduced by `wrapInt`, so the increment
  at `INT_MAX` stores `INT_MIN`.  `History::size` stays between 0 and
  `maxSize + 1` and is a plain integer.
* Threads interleave between atomic actions.  Every method of `History`,
  `UndoRedo` and `MessageQueue` locks the mutex of its object and is one
  action; every block that locks `clientsMtx` is one action;
  `messageCounter++` is under no mutex and is two actions, the load of the
  counter and the store of the incremented value.  `Sys` is the server at this
  grain.  `handleClient.command` is the turn of a handler that no other thread
  interrupts, and `Config` is the server whose turns run one at a time; every
  run of `Config` is a run of `Sys`.
-/

namespace ChatServer

/-- A `std::string`, one character per byte. -/
abbrev Str := List Char

/-- A Winsock `SOCKET` handle. -/
abbrev SOCKET := Nat

/-- The value `std::string::npos`, that is `size_t(-1)`. -/
def npos : Nat := 2 ^ 64 - 1

/-- What can end a handler abnormally: `std::out_of_range` thrown by
`std::string::substr` and caught nowhere. -/
inductive Fault where
  | outOfRange
  deriving DecidableEq, Repr

deriving instance DecidableEq for Except

/-! ## `std::string` operations used by the server -/

/-- The call `s.substr(pos, n)`: throws when `pos > s.size()`, otherwise the
characters from `pos`, at most `n` of them. -/
def substr (s : Str) (pos n : Nat) : Except Fault Str :=
  if pos > s.length then Except.error Fault.outOfRange
  else Except.ok ((s.drop pos).take n)

/-- The loop of `s.find(kw)`: the first position at or after `i` where `kw`
occurs, the argument list being the characters of `s` from `i` on. -/
def findFrom (kw : Str) : Str → Nat → Option Nat
  | [], i => if kw.isPrefixOf [] then some i else none
  | c :: cs, i => if kw.isPrefixOf (c :: cs) then some i else findFrom kw cs (i + 1)

/-- The call `s.find(kw)`; `none` stands for `npos`. -/
def find (s kw : Str) : Option Nat := findFrom kw s 0

/-- The `size_t` value of a `find` result. -/
def sizeT : Option Nat → Nat
  | none => npos
  | some i => i

/-- The test `msg.rfind(p, 0) == 0`: `msg` starts with `p`. -/
def startsWith (msg p : Str) : Bool := p.isPrefixOf msg

/-! ## Message -/

/-- The class `Message`. -/
structure Message where
  id : Int
  sender : Str
  text : Str
  timestamp : Nat
  deriving DecidableEq, Repr

/-- The body of `formatMessageWithTime`, the clock reading being `t`. -/
def formatMessageWithTime (t sender message : Str) : Str :=
  "[".toList ++ t ++ "][".toList ++ sender ++ "]: ".toList ++ message

/-- The method `Message::toString`, the clock reading being `t`. -/
def Message.toString (m : Message) (t : Str) : Str :=
  formatMessageWithTime t m.sender m.text

/-! ## History (linked list) -/

/-- The class `History`: the node chain from `head`, `size` and `maxSize`. -/
structure History where
  nodes : List Message
  size : Int
  maxSize : Int
  deriving DecidableEq, Repr

namespace History

/-- The constructor `History(maxSize)`. -/
def new (maxSize : Int) : History := { nodes := [], size := 0, maxSize := maxSize }

/-- The method `History::addMessage`: link the node at the tail, count it, and
unlink the head when the count exceeds `maxSize`. -/
def addMessage (h : History) (msg : Message) : History :=
  let nodes1 := h.nodes ++ [msg]
  let size1 := h.size + 1
  if size1 > h.maxSize then
    { h with nodes := nodes1.tail, size := size1 - 1 }
  else
    { h with nodes := nodes1, size := size1 }

/-- The loop of `History::removeMessage`: unlink the first node whose id is
`messageId`; the flag tells whether one was found. -/
def unlinkFirst (messageId : Int) : List Message → List Message × Bool
  | [] => ([], false)
  | m :: rest =>
    if m.id = messageId then (rest, true)
    else
      let r := unlinkFirst messageId rest
      (m :: r.1, r.2)

/-- The method `History::removeMessage`. -/
def removeMessage (h : History) (messageId : Int) : History :=
  let r := unlinkFirst messageId h.nodes
  if r.2 then { h with nodes := r.1, size := h.size - 1 } else h

/-- The loop of `History::getMessages`: `result.push_back` for every node. -/
def collect : List Message → List Message → List Message
  | [], result => result
  | m :: rest, result => collect rest (result ++ [m])

/-- The method `History::getMessages`. -/
def getMessages (h : History) : List Message := collect h.nodes []

/-- The loop of `History::searchMessages`. -/
def collectMatching (keyword : Str) : List Message → List Message → List Message
  | [], result => result
  | m :: rest, result =>
    if (find m.text keyword).isSome then collectMatching keyword rest (result ++ [m])
    else collectMatching keyword rest result

/-- The method `History::searchMessages`. -/
def searchMessages (h : History) (keyword : Str) : List Message :=
  collectMatching keyword h.nodes []

/-- The class invariant of `History`: `size` counts the nodes of the chain and
does not exceed `maxSize`. -/
def WF (h : History) : Prop := h.size = h.nodes.length ∧ h.size ≤ h.maxSize

end History

/-! ## Undo/Redo -/

/-- The class `UndoRedo`: two stacks, the head of each list being its top. -/
structure UndoRedo where
  undoStack : List Message
  redoStack : List Message
  deriving DecidableEq, Repr

namespace UndoRedo

/-- The loop `while (!redoStack.empty()) redoStack.pop();`. -/
def popAll : List Message → List Message
  | [] => []
  | _ :: rest => popAll rest

/-- The method `UndoRedo::addMessage`. -/
def addMessage (u : UndoRedo) (msg : Message) : UndoRedo :=
  { undoStack := msg :: u.undoStack, redoStack := popAll u.redoStack }

/-- The method `UndoRedo::undo`: `none` is the result `false`, otherwise the
message written to `msg` and the stacks afterwards. -/
def undo (u : UndoRedo) : Option (Message × UndoRedo) :=
  match u.undoStack with
  | [] => none
  | msg :: rest => some (msg, { undoStack := rest, redoStack := msg :: u.redoStack })

/-- The method `UndoRedo::redo`. -/
def redo (u : UndoRedo) : Option (Message × UndoRedo) :=
  match u.redoStack with
  | [] => none
  | msg :: rest => some (msg, { undoStack := msg :: u.undoStack, redoStack := rest })

end UndoRedo

/-! ## Message queue -/

/-- The class `MessageQueue`; the head of `messages` is the front. -/
structure MessageQueue where
  messages : List Message
  shutdown : Bool
  deriving DecidableEq, Repr

namespace MessageQueue

/-- The method `MessageQueue::push`. -/
def push (q : MessageQueue) (msg : Message) : MessageQueue :=
  { q with messages := q.messages ++ [msg] }

/-- The method `MessageQueue::pop`: `none` is the result `false`. -/
def pop (q : MessageQueue) : Option (Message × MessageQueue) :=
  match q.messages with
  | [] => none
  | msg :: rest => if q.shutdown then none else some (msg, { q with messages := rest })

end MessageQueue

/-! ## `std::set<SOCKET>` and `std::map` as ordered lists -/

/-- The position a new element `x` takes in a `std::set<SOCKET>`: before the
first greater element. -/
def insertSorted (x : SOCKET) : List SOCKET → List SOCKET
  | [] => [x]
  | y :: rest => if x < y then x :: y :: rest else y :: insertSorted x rest

/-- The call `s.insert(x)` on a `std::set<SOCKET>`: nothing happens when `x`
is an element already. -/
def setInsert (x : SOCKET) (s : List SOCKET) : List SOCKET :=
  if x ∈ s then s else insertSorted x s

/-- The call `s.erase(x)` on a `std::set<SOCKET>`: every element equal to `x`
goes. -/
def setErase (x : SOCKET) (s : List SOCKET) : List SOCKET :=
  s.filter (fun y => decide (y ≠ x))

/-- The order of `std::string` keys: lexicographic on the bytes. -/
def strLt : Str → Str → Bool
  | [], [] => false
  | [], _ :: _ => true
  | _ :: _, [] => false
  | a :: as, b :: bs =>
    if a.toNat < b.toNat then true
    else if b.toNat < a.toNat then false
    else strLt as bs

/-- The order of `SOCKET` keys. -/
def sockLt (a b : SOCKET) : Bool := decide (a < b)

/-- The call `m.find(k)`: the mapped value, `none` for `m.end()`. -/
def mapFind {K V : Type} [DecidableEq K] : List (K × V) → K → Option V
  | [], _ => none
  | (k1, v) :: rest, k => if k1 = k then some v else mapFind rest k

/-- The position a new key `k` takes in a `std::map`: before the first
greater key. -/
def mapInsertSorted {K V : Type} (lt : K → K → Bool) (k : K) (v : V) :
    List (K × V) → List (K × V)
  | [] => [(k, v)]
  | (k1, v1) :: rest =>
    if lt k k1 then (k, v) :: (k1, v1) :: rest
    else (k1, v1) :: mapInsertSorted lt k v rest

/-- The update `f` applied to the value mapped to `k`. -/
def mapUpdate {K V : Type} [DecidableEq K] (f : V → V) : List (K × V) → K → List (K × V)
  | [], _ => []
  | (k1, v) :: rest, k =>
    if k1 = k then (k1, f v) :: rest else (k1, v) :: mapUpdate f rest k

/-- The access `m[k]` followed by an update `f` of the referenced value: an
absent key is first inserted, in key order, with the default value `d`. -/
def mapModify {K V : Type} [DecidableEq K] (lt : K → K → Bool) (d : V) (f : V → V)
    (m : List (K × V)) (k : K) : List (K × V) :=
  match mapFind m k with
  | some _ => mapUpdate f m k
  | none => mapInsertSorted lt k (f d) m

/-- The call `m.erase(k)`: every entry with key `k` goes. -/
def mapErase {K V : Type} [DecidableEq K] (m : List (K × V)) (k : K) : List (K × V) :=
  m.filter (fun p => decide (p.1 ≠ k))

/-! ## Server data -/

/-- The global data of the server: `clients`, `rooms`, `roomHistory`,
`undoRedo`, `messageQueue`, `messageCounter`. -/
structure State where
  clients : List (SOCKET × Str)
  rooms : List (Str × List SOCKET)
  roomHistory : History
  undoRedo : UndoRedo
  messageQueue : MessageQueue
  messageCounter : Int
  deriving DecidableEq, Repr

/-- The constant `MAX_MESSAGE_HISTORY`. -/
def MAX_MESSAGE_HISTORY : Int := 1000

/-- The globals as initialised at program start. -/
def State.init : State :=
  { clients := []
    rooms := []
    roomHistory := History.new MAX_MESSAGE_HISTORY
    undoRedo := { undoStack := [], redoStack := [] }
    messageQueue := { messages := [], shutdown := false }
    messageCounter := 0 }

/-- The member set `rooms[room]` read after the entry is known to exist. -/
def membersOf (rooms : List (Str × List SOCKET)) (room : Str) : List SOCKET :=
  (mapFind rooms room).getD []

/-- The locals of one `handleClient` thread after registration. -/
structure Session where
  clientSock : SOCKET
  username : Str
  currentRoom : Str
  deriving DecidableEq, Repr

/-- The clock as one handler run sees it: `str k` is what the `k`-th call of
`getCurrentTimeString()` returns, `time` what `time(nullptr)` returns. -/
structure Clock where
  str : Nat → Str
  time : Nat

/-- One `send(sock, bytes)`. -/
abbrev Send := SOCKET × Str

/-- The notice `"[" + getCurrentTimeString() + "] " + body`. -/
def stamped (t body : Str) : Str := "[".toList ++ t ++ "] ".toList ++ body

/-! ## Broadcast worker -/

/-- The inner loop of the room search: `targetRoom = room.first; break;` at the
first member registered under `sender`. -/
def scanMembers (clients : List (SOCKET × Str)) (sender name : Str) :
    List SOCKET → Str → Str
  | [], targetRoom => targetRoom
  | client :: rest, targetRoom =>
    if mapFind clients client = some sender then name
    else scanMembers clients sender name rest targetRoom

/-- The outer loop of the room search, left as soon as `targetRoom` is not
empty. -/
def findTargetRoom (clients : List (SOCKET × Str)) (sender : Str) :
    List (Str × List SOCKET) → Str → Str
  | [], targetRoom => targetRoom
  | (name, members) :: rest, targetRoom =>
    let targetRoom1 := scanMembers clients sender name members targetRoom
    if targetRoom1 ≠ [] then targetRoom1
    else findTargetRoom clients sender rest targetRoom1

/-- The fan-out loop over `rooms[targetRoom]`. -/
def fanOut (clients : List (SOCKET × Str)) (sender fullMsg senderTimeMsg : Str) :
    List SOCKET → List Send
  | [] => []
  | clientSock :: rest =>
    match mapFind clients clientSock with
    | some name =>
      (if name = sender then (clientSock, senderTimeMsg) else (clientSock, fullMsg)) ::
        fanOut clients sender fullMsg senderTimeMsg rest
    | none => fanOut clients sender fullMsg senderTimeMsg rest

/-- The room the worker resolves for `msg`: the result of the search loops,
started with the empty string. -/
def targetRoomOf (clients : List (SOCKET × Str)) (rooms : List (Str × List SOCKET))
    (msg : Message) : Str :=
  findTargetRoom clients msg.sender rooms []

/-- The body of `broadcastWorker` for one dequeued message: what is sent. -/
def dispatch (clk : Clock) (clients : List (SOCKET × Str))
    (rooms : List (Str × List SOCKET)) (msg : Message) : List Send :=
  let fullMsg := msg.toString (clk.str 0) ++ "\n".toList
  let senderTimeMsg := "[".toList ++ clk.str 1 ++ "] ".toList ++ "\n".toList
  let targetRoom := targetRoomOf clients rooms msg
  if targetRoom = [] ∨ mapFind rooms targetRoom = none then []
  else fanOut clients msg.sender fullMsg senderTimeMsg (membersOf rooms targetRoom)

/-- One turn of the loop of `broadcastWorker`: nothing happens when `pop`
fails, otherwise the message is dequeued and dispatched. -/
def broadcastWorker (clk : Clock) (st : State) : State × List Send :=
  match st.messageQueue.pop with
  | none => (st, [])
  | some (msg, q) => ({ st with messageQueue := q }, dispatch clk st.clients st.rooms msg)

/-! ## Handle client -/

/-- The string built by `string(buffer)` after `recv` stored `payload`: at most
`sizeof(buffer) - 1` bytes, cut at the first NUL. -/
def recvString (payload : Str) : Str :=
  (payload.take 1023).takeWhile (fun c => decide (c.toNat ≠ 0))

/-- The lookup loop of `/pm` and `/reply` over `clients`: the socket of the
first entry registered as `targetName`.  `none` is `INVALID_SOCKET`, which
`main` never hands to a handler. -/
def findUser (targetName : Str) : List (SOCKET × Str) → Option SOCKET → Option SOCKET
  | [], targetSock => targetSock
  | (sock, name) :: rest, targetSock =>
    if name = targetName then some sock else findUser targetName rest targetSock

/-- The lines `msg.toString() + "\n"` appended for each message of a listing,
the first of them using clock reading `k`. -/
def formatAll (clk : Clock) : List Message → Nat → Str
  | [], _ => []
  | m :: rest, k => m.toString (clk.str k) ++ "\n".toList ++ formatAll clk rest (k + 1)

/-- The text sent by `/help`, after the time stamp. -/
def helpBody : Str :=
  ("Available commands:\n" ++
   "/join <room>           - Join or create a chat room\n" ++
   "/pm <user> <message>   - Send private message to a user\n" ++
   "/reply <user> <msg>    - Reply publicly to a specific user in the room\n" ++
   "/undo                  - Undo your last message\n" ++
   "/redo                  - Redo your last undone message\n" ++
   "/history               - Show message history for current room\n" ++
   "/search <keyword>      - Search for messages containing keyword\n" ++
   "/quit                  - Exit the chat application\n" ++
   "/help                  - Show this help message\n").toList

/-- The constant `INT_MAX`. -/
def INT_MAX : Int := 2 ^ 31 - 1

/-- The value an `int` holds after the arithmetic result `x` is stored in it:
32 bits, two's complement. -/
def wrapInt (x : Int) : Int := (x + 2 ^ 31) % 2 ^ 32 - 2 ^ 31

/-- A send that no other thread interrupts: `messageCounter++` builds the
message, then `roomHistory.addMessage`, `undoRedo.addMessage` and
`messageQueue.push` take it. -/
def postMessage (clk : Clock) (st : State) (sender text : Str) : State :=
  let msgObj : Message :=
    { id := st.messageCounter, sender := sender, text := text, timestamp := clk.time }
  { st with
    messageCounter := wrapInt (st.messageCounter + 1)
    roomHistory := st.roomHistory.addMessage msgObj
    undoRedo := st.undoRedo.addMessage msgObj
    messageQueue := st.messageQueue.push msgObj }

namespace handleClient

/-- Registration: the username is stored, the socket enters `"chatroom"`, the
welcome goes to the caller and the join notice to the others in the room. -/
def register (clk : Clock) (st : State) (clientSock : SOCKET) (username : Str) :
    State × Session × List Send :=
  let currentRoom := "chatroom".toList
  let clients1 := mapModify sockLt [] (fun _ => username) st.clients clientSock
  let rooms1 := mapModify strLt [] (setInsert clientSock) st.rooms currentRoom
  let welcome := stamped (clk.str 0) ("Connected as '".toList ++ username ++
    "' to chat server. You are in room: ".toList ++ currentRoom ++ "\n".toList)
  let joinNotice := stamped (clk.str 1) (username ++ " joined the room\n".toList)
  ({ st with clients := clients1, rooms := rooms1 },
   { clientSock := clientSock, username := username, currentRoom := currentRoom },
   (clientSock, welcome) ::
     ((membersOf rooms1 currentRoom).filter (fun o => decide (o ≠ clientSock))).map
       (fun o => (o, joinNotice)))

/-- The branch `valread <= 0` of the loop: the connection leaves. -/
def disconnect (clk : Clock) (st : State) (se : Session) : State × List Send :=
  let rooms1 := mapModify strLt [] (setErase se.clientSock) st.rooms se.currentRoom
  let leaveNotice := stamped (clk.str 0) (se.username ++ " left the room\n".toList)
  ({ st with rooms := rooms1, clients := mapErase st.clients se.clientSock },
   (membersOf rooms1 se.currentRoom).map (fun o => (o, leaveNotice)))

/-- The branch `/join`. -/
def join (clk : Clock) (st : State) (se : Session) (msg : Str) :
    Except Fault (State × Session × List Send) := do
  let room ← substr msg 6 npos
  let oldRoom := se.currentRoom
  let rooms1 := mapModify strLt [] (setErase se.clientSock) st.rooms oldRoom
  let leaveNotice := stamped (clk.str 0) (se.username ++ " left the room\n".toList)
  let out1 := (membersOf rooms1 oldRoom).map (fun o => (o, leaveNotice))
  let rooms2 := mapModify strLt [] (setInsert se.clientSock) rooms1 room
  let joinNotice := stamped (clk.str 1) (se.username ++ " joined the room\n".toList)
  let out2 := ((membersOf rooms2 room).filter (fun o => decide (o ≠ se.clientSock))).map
    (fun o => (o, joinNotice))
  let notice := stamped (clk.str 2) ("You joined room: ".toList ++ room ++ "\n".toList)
  pure ({ st with rooms := rooms2 }, { se with currentRoom := room },
    out1 ++ out2 ++ [(se.clientSock, notice)])

/-- The branch `/pm`. -/
def pm (clk : Clock) (st : State) (se : Session) (msg : Str) :
    Except Fault (State × Session × List Send) := do
  let rest ← substr msg 4 npos
  let targetName ← substr rest 0 (sizeT (find rest " ".toList))
  let text ← substr rest ((sizeT (find rest " ".toList) + 1) % 2 ^ 64) npos
  match findUser targetName st.clients none with
  | some targetSock =>
    let pmToReceiver := "[".toList ++ clk.str 0 ++ "][PM from ".toList ++ se.username ++
      "]: ".toList ++ text ++ "\n".toList
    let pmToSender := "[".toList ++ clk.str 1 ++ "][PM to ".toList ++ targetName ++
      "]: ".toList ++ text ++ "\n".toList
    pure (st, se, [(targetSock, pmToReceiver), (se.clientSock, pmToSender)])
  | none =>
    let err := stamped (clk.str 0) "User not found.\n".toList
    pure (st, se, [(se.clientSock, err)])

/-- The branch `/undo`. -/
def undo (clk : Clock) (st : State) (se : Session) :
    Except Fault (State × Session × List Send) :=
  match st.undoRedo.undo with
  | some (lastMsg, u) =>
    let notice := stamped (clk.str 0) "Last message undone.\n".toList
    pure ({ st with undoRedo := u, roomHistory := st.roomHistory.removeMessage lastMsg.id },
      se, [(se.clientSock, notice)])
  | none =>
    let notice := stamped (clk.str 0) "No message to undo.\n".toList
    pure (st, se, [(se.clientSock, notice)])

/-- The branch `/help`. -/
def help (clk : Clock) (st : State) (se : Session) :
    Except Fault (State × Session × List Send) :=
  pure (st, se, [(se.clientSock, stamped (clk.str 0) helpBody)])

/-- The branch `/reply`. -/
def reply (clk : Clock) (st : State) (se : Session) (msg : Str) :
    Except Fault (State × Session × List Send) := do
  let rest ← substr msg 7 npos
  let targetName ← substr rest 0 (sizeT (find rest " ".toList))
  let text ← substr rest ((sizeT (find rest " ".toList) + 1) % 2 ^ 64) npos
  match findUser targetName st.clients none with
  | some _ =>
    pure (postMessage clk st se.username ("-> ".toList ++ targetName ++ ": ".toList ++ text),
      se, [])
  | none =>
    let err := stamped (clk.str 0) ("User '".toList ++ targetName ++ "' not found.\n".toList)
    pure (st, se, [(se.clientSock, err)])

/-- The branch `/search`. -/
def search (clk : Clock) (st : State) (se : Session) (msg : Str) :
    Except Fault (State × Session × List Send) :=
  if msg.length ≤ 8 then
    let err := stamped (clk.str 0) "Usage: /search <keyword>\n".toList
    pure (st, se, [(se.clientSock, err)])
  else do
    let keyword ← substr msg 8 npos
    let searchResults := st.roomHistory.searchMessages keyword
    if searchResults = [] then
      let result := stamped (clk.str 0)
        ("No messages found containing: '".toList ++ keyword ++ "'\n".toList)
      pure (st, se, [(se.clientSock, result)])
    else
      let result := stamped (clk.str 0) ("Found ".toList ++ (Nat.repr searchResults.length).toList ++
        " message(s) containing '".toList ++ keyword ++ "':\n".toList) ++
        formatAll clk searchResults 1
      pure (st, se, [(se.clientSock, result)])

/-- The branch `/redo`. -/
def redo (clk : Clock) (st : State) (se : Session) :
    Except Fault (State × Session × List Send) :=
  match st.undoRedo.redo with
  | some (redoMsg, u) =>
    let notice := stamped (clk.str 0) "Message redone.\n".toList
    pure ({ st with
            undoRedo := u
            roomHistory := st.roomHistory.addMessage redoMsg
            messageQueue := st.messageQueue.push redoMsg },
      se, [(se.clientSock, notice)])
  | none =>
    let notice := stamped (clk.str 0) "Nothing to redo.\n".toList
    pure (st, se, [(se.clientSock, notice)])

/-- The branch `/history`. -/
def history (clk : Clock) (st : State) (se : Session) :
    Except Fault (State × Session × List Send) :=
  let messages := st.roomHistory.getMessages
  let historyText := stamped (clk.str 0) "Message history:\n".toList ++ formatAll clk messages 1
  let historyText1 :=
    if messages = [] then stamped (clk.str 1) "No message history available.\n".toList
    else historyText
  pure (st, se, [(se.clientSock, historyText1)])

/-- The fall-through of the loop: a normal message. -/
def chat (clk : Clock) (st : State) (se : Session) (msg : Str) :
    Except Fault (State × Session × List Send) :=
  pure (postMessage clk st se.username msg, se, [])

/-- Whether `msg` reaches the fall-through: none of the command tests holds. -/
def isChat (msg : Str) : Bool :=
  !startsWith msg "/join".toList && !startsWith msg "/pm".toList &&
  !decide (msg = "/undo".toList) && !decide (msg = "/help".toList) &&
  !startsWith msg "/reply".toList && !startsWith msg "/search".toList &&
  !decide (msg = "/redo".toList) && !decide (msg = "/history".toList)

/-- One turn of the loop of `handleClient` on the received string `msg`:
the chain of command tests, in the order of the source.  An error is an
exception that leaves the handler. -/
def command (clk : Clock) (st : State) (se : Session) (msg : Str) :
    Except Fault (State × Session × List Send) :=
  if startsWith msg "/join".toList then join clk st se msg
  else if startsWith msg "/pm".toList then pm clk st se msg
  else if msg = "/undo".toList then undo clk st se
  else if msg = "/help".toList then help clk st se
  else if startsWith msg "/reply".toList then reply clk st se msg
  else if startsWith msg "/search".toList then search clk st se msg
  else if msg = "/redo".toList then redo clk st se
  else if msg = "/history".toList then history clk st se
  else chat clk st se msg

end handleClient

/-! ## The server as a transition system -/

/-- The server between two handler turns when the turns run one at a time:
the globals and the locals of the `handleClient` threads. -/
structure Config where
  st : State
  sessions : List Session
  deriving DecidableEq, Repr

/-- The configuration at program start. -/
def Config.init : Config := { st := State.init, sessions := [] }

/-- What the server reacts to.  `accept` is a new connection whose first
`recv` stored `payload`; `recv` is a later `recv` of the thread of `sock`
(an empty payload is `valread <= 0`); `worker` is one turn of the broadcast
worker. -/
inductive Event where
  | accept (clk : Clock) (sock : SOCKET) (payload : Str)
  | recv (clk : Clock) (sock : SOCKET) (payload : Str)
  | worker (clk : Clock)

/-- The thread serving `sock`, if any. -/
def sessionOf (sessions : List Session) (sock : SOCKET) : Option Session :=
  sessions.find? (fun se => decide (se.clientSock = sock))

/-- The effect of one event, a handler turn being run from its `recv` to its
end with no other thread in between.  `none` means that the event cannot
happen (a socket handle in use is not handed out again, a closed socket
receives nothing) or that an exception has ended the process. -/
def Config.step (c : Config) : Event → Option Config
  | Event.accept clk sock payload =>
    match sessionOf c.sessions sock with
    | some _ => none
    | none =>
      if payload = [] then some c
      else
        let r := handleClient.register clk c.st sock (recvString payload)
        some { st := r.1, sessions := r.2.1 :: c.sessions }
  | Event.recv clk sock payload =>
    match sessionOf c.sessions sock with
    | none => none
    | some se =>
      if payload = [] then
        some { st := (handleClient.disconnect clk c.st se).1,
               sessions := c.sessions.filter (fun x => decide (x.clientSock ≠ sock)) }
      else
        match handleClient.command clk c.st se (recvString payload) with
        | Except.error _ => none
        | Except.ok r =>
          some { st := r.1,
                 sessions := c.sessions.map
                   (fun x => if x.clientSock = sock then r.2.1 else x) }
  | Event.worker clk => some { c with st := (broadcastWorker clk c.st).1 }

/-- The configuration after a sequence of events. -/
def Config.run : Config → List Event → Option Config
  | c, [] => some c
  | c, e :: rest => (c.step e).bind (fun c1 => Config.run c1 rest)

/-- The configurations the server can be in when the handler turns run one
at a time. -/
def Reachable (c : Config) : Prop := ∃ evs, Config.init.run evs = some c

/-- The state a handler run ends in; the state is lost when the run faults. -/
def stateAfter (st : State) (r : Except Fault (State × Session × List Send)) : State :=
  match r with
  | Except.ok r1 => r1.1
  | Except.error _ => st

/-! ## The server with its threads interleaved

Between two atomic actions of one handler thread any other thread may run.
The actions of a turn are: a block under `clientsMtx`; one method of
`History`, `UndoRedo` or `MessageQueue`; the load of `messageCounter`; the
store of its incremented value. -/

/-- What a handler thread has still to do in the turn it is in, named by its
next action.
* `load text`: `/reply` has found its target; next `messageCounter++` loads
  the counter for the message with this text.
* `store msgObj`: the counter was loaded as `msgObj.id`; next the incremented
  value is stored.
* `ledgerAdd msgObj`: next `roomHistory.addMessage(msgObj)`, then the undo
  stack and the queue.
* `undoAdd msgObj`: next `undoRedo.addMessage(msgObj)`, then the queue.
* `queuePush msgObj`: next `messageQueue.push(msgObj)`, which ends the turn.
* `undoRemove lastMsg`: `undoRedo.undo(lastMsg)` has returned `true`; next
  `roomHistory.removeMessage(lastMsg.id)` and the notice.
* `redoAdd redoMsg`: `undoRedo.redo(redoMsg)` has returned `true`; next
  `roomHistory.addMessage(redoMsg)`, then the queue.
* `redoPush redoMsg`: next `messageQueue.push(redoMsg)` and the notice. -/
inductive Pending where
  | load (text : Str)
  | store (msgObj : Message)
  | ledgerAdd (msgObj : Message)
  | undoAdd (msgObj : Message)
  | queuePush (msgObj : Message)
  | undoRemove (lastMsg : Message)
  | redoAdd (redoMsg : Message)
  | redoPush (redoMsg : Message)
  deriving DecidableEq, Repr

/-- The next action of the thread of `se`: the globals afterwards, what is
left of the turn, and what was sent. -/
def Pending.step (clk : Clock) (se : Session) (st : State) :
    Pending → State × Option Pending × List Send
  | Pending.load text =>
    (st, some (Pending.store { id := st.messageCounter, sender := se.username, text := text,
                               timestamp := clk.time }), [])
  | Pending.store msgObj =>
    ({ st with messageCounter := wrapInt (msgObj.id + 1) }, some (Pending.ledgerAdd msgObj), [])
  | Pending.ledgerAdd msgObj =>
    ({ st with roomHistory := st.roomHistory.addMessage msgObj }, some (Pending.undoAdd msgObj), [])
  | Pending.undoAdd msgObj =>
    ({ st with undoRedo := st.undoRedo.addMessage msgObj }, some (Pending.queuePush msgObj), [])
  | Pending.queuePush msgObj =>
    ({ st with messageQueue := st.messageQueue.push msgObj }, none, [])
  | Pending.undoRemove lastMsg =>
    ({ st with roomHistory := st.roomHistory.removeMessage lastMsg.id }, none,
     [(se.clientSock, stamped (clk.str 0) "Last message undone.\n".toList)])
  | Pending.redoAdd redoMsg =>
    ({ st with roomHistory := st.roomHistory.addMessage redoMsg },
     some (Pending.redoPush redoMsg), [])
  | Pending.redoPush redoMsg =>
    ({ st with messageQueue := st.messageQueue.push redoMsg }, none,
     [(se.clientSock, stamped (clk.str 0) "Message redone.\n".toList)])

/-- The number of actions a turn has still to run. -/
def Pending.rank : Pending → Nat
  | Pending.load _ => 5
  | Pending.store _ => 4
  | Pending.ledgerAdd _ => 3
  | Pending.undoAdd _ => 2
  | Pending.queuePush _ => 1
  | Pending.undoRemove _ => 1
  | Pending.redoAdd _ => 2
  | Pending.redoPush _ => 1

/-- The rest of a turn run to its end with no other thread in between (at most
`fuel` actions): the globals afterwards and what was sent. -/
def Pending.finish (clk : Clock) (se : Session) :
    Nat → State → Option Pending → State × List Send
  | _, st, none => (st, [])
  | 0, st, some _ => (st, [])
  | fuel + 1, st, some p =>
    let r := p.step clk se st
    let f := Pending.finish clk se fuel r.1 r.2.1
    (f.1, r.2.2 ++ f.2)

namespace handleClient

/-- A branch that is one action: nothing of the turn is left. -/
def whole (r : Except Fault (State × Session × List Send)) :
    Except Fault (State × Session × List Send × Option Pending) :=
  r.map (fun x => (x.1, x.2.1, x.2.2, none))

/-- The first action of the branch `/undo`: `undoRedo.undo(lastMsg)`. -/
def undoStart (clk : Clock) (st : State) (se : Session) :
    Except Fault (State × Session × List Send × Option Pending) :=
  match st.undoRedo.undo with
  | some (lastMsg, u) =>
    pure ({ st with undoRedo := u }, se, [], some (Pending.undoRemove lastMsg))
  | none =>
    let notice := stamped (clk.str 0) "No message to undo.\n".toList
    pure (st, se, [(se.clientSock, notice)], none)

/-- The first action of the branch `/redo`: `undoRedo.redo(redoMsg)`. -/
def redoStart (clk : Clock) (st : State) (se : Session) :
    Except Fault (State × Session × List Send × Option Pending) :=
  match st.undoRedo.redo with
  | some (redoMsg, u) =>
    pure ({ st with undoRedo := u }, se, [], some (Pending.redoAdd redoMsg))
  | none =>
    let notice := stamped (clk.str 0) "Nothing to redo.\n".toList
    pure (st, se, [(se.clientSock, notice)], none)

/-- The first action of the branch `/reply`: the lookup of the target under
`clientsMtx`. -/
def replyStart (clk : Clock) (st : State) (se : Session) (msg : Str) :
    Except Fault (State × Session × List Send × Option Pending) := do
  let rest ← substr msg 7 npos
  let targetName ← substr rest 0 (sizeT (find rest " ".toList))
  let text ← substr rest ((sizeT (find rest " ".toList) + 1) % 2 ^ 64) npos
  match findUser targetName st.clients none with
  | some _ =>
    pure (st, se, [], some (Pending.load ("-> ".toList ++ targetName ++ ": ".toList ++ text)))
  | none =>
    let err := stamped (clk.str 0) ("User '".toList ++ targetName ++ "' not found.\n".toList)
    pure (st, se, [(se.clientSock, err)], none)

/-- The first action of the fall-through: `messageCounter++` loads the
counter. -/
def chatStart (clk : Clock) (st : State) (se : Session) (msg : Str) :
    Except Fault (State × Session × List Send × Option Pending) :=
  pure (st, se, [],
    some (Pending.store { id := st.messageCounter, sender := se.username, text := msg,
                          timestamp := clk.time }))

/-- The first action of one turn of the loop on the received string `msg`, and
what is left of the turn. -/
def start (clk : Clock) (st : State) (se : Session) (msg : Str) :
    Except Fault (State × Session × List Send × Option Pending) :=
  if startsWith msg "/join".toList then whole (join clk st se msg)
  else if startsWith msg "/pm".toList then whole (pm clk st se msg)
  else if msg = "/undo".toList then undoStart clk st se
  else if msg = "/help".toList then whole (help clk st se)
  else if startsWith msg "/reply".toList then replyStart clk st se msg
  else if startsWith msg "/search".toList then whole (search clk st se msg)
  else if msg = "/redo".toList then redoStart clk st se
  else if msg = "/history".toList then whole (history clk st se)
  else chatStart clk st se msg

/-- One turn of the loop run action by action with no other thread in
between. -/
def uninterrupted (clk : Clock) (st : State) (se : Session) (msg : Str) :
    Except Fault (State × Session × List Send) :=
  (start clk st se msg).map (fun r =>
    ((Pending.finish clk r.2.1 5 r.1 r.2.2.2).1, r.2.1,
     r.2.2.1 ++ (Pending.finish clk r.2.1 5 r.1 r.2.2.2).2))

end handleClient

/-- A `handleClient` thread: its locals and what is left of the turn it is
in (`none` when it waits in `recv`). -/
structure Thread where
  session : Session
  pending : Option Pending
  deriving DecidableEq, Repr

/-- The server with its threads interleaved: the globals and the handler
threads. -/
structure Sys where
  st : State
  threads : List Thread
  deriving DecidableEq, Repr

/-- The server at program start. -/
def Sys.init : Sys := { st := State.init, threads := [] }

/-- What happens next in the server.  `accept`, `recv` and `worker` are as in
`Event`, a `recv` being the return of `recv` in a waiting thread together with
the first action of the turn; `resume` is the next action of the thread of
`sock`, which is inside a turn. -/
inductive SysEvent where
  | accept (clk : Clock) (sock : SOCKET) (payload : Str)
  | recv (clk : Clock) (sock : SOCKET) (payload : Str)
  | resume (clk : Clock) (sock : SOCKET)
  | worker (clk : Clock)

/-- The thread serving `sock`, if any. -/
def threadOf (threads : List Thread) (sock : SOCKET) : Option Thread :=
  threads.find? (fun t => decide (t.session.clientSock = sock))

/-- The threads after the thread of `sock` went on to `t`. -/
def setThread (threads : List Thread) (sock : SOCKET) (t : Thread) : List Thread :=
  threads.map (fun x => if x.session.clientSock = sock then t else x)

/-- The effect of one event.  `none` means that the event cannot happen (a
socket handle in use is not handed out again, a closed socket receives
nothing, a thread inside a turn is not in `recv`, a thread in `recv` has no
next action) or that an exception has ended the process. -/
def Sys.step (s : Sys) : SysEvent → Option Sys
  | SysEvent.accept clk sock payload =>
    match threadOf s.threads sock with
    | some _ => none
    | none =>
      if payload = [] then some s
      else
        let r := handleClient.register clk s.st sock (recvString payload)
        some { st := r.1, threads := { session := r.2.1, pending := none } :: s.threads }
  | SysEvent.recv clk sock payload =>
    match threadOf s.threads sock with
    | none => none
    | some t =>
      match t.pending with
      | some _ => none
      | none =>
        if payload = [] then
          some { st := (handleClient.disconnect clk s.st t.session).1,
                 threads := s.threads.filter (fun x => decide (x.session.clientSock ≠ sock)) }
        else
          match handleClient.start clk s.st t.session (recvString payload) with
          | Except.error _ => none
          | Except.ok r =>
            some { st := r.1,
                   threads := setThread s.threads sock { session := r.2.1, pending := r.2.2.2 } }
  | SysEvent.resume clk sock =>
    match threadOf s.threads sock with
    | none => none
    | some t =>
      match t.pending with
      | none => none
      | some p =>
        let r := p.step clk t.session s.st
        some { st := r.1,
               threads := setThread s.threads sock { session := t.session, pending := r.2.1 } }
  | SysEvent.worker clk => some { s with st := (broadcastWorker clk s.st).1 }

/-- The server after a sequence of events. -/
def Sys.run : Sys → List SysEvent → Option Sys
  | s, [] => some s
  | s, e :: rest => (s.step e).bind (fun s1 => Sys.run s1 rest)

/-- The states the server can be in. -/
def Sys.Reachable (s : Sys) : Prop := ∃ evs, Sys.init.run evs = some s

/-- A configuration of the server whose turns run one at a time, as a state of
the interleaved server: every thread waits in `recv`. -/
def Config.toSys (c : Config) : Sys :=
  { st := c.st, threads := c.sessions.map (fun se => { session := se, pending := none }) }

/-- The events of the interleaved server that make up one event of the server
whose turns run one at a time: a `recv` is followed by the actions of its turn
(as many `resume` as the turn has actions left after the first). -/
def Config.sysEvents (c : Config) : Event → List SysEvent
  | Event.accept clk sock payload => [SysEvent.accept clk sock payload]
  | Event.recv clk sock payload =>
    match sessionOf c.sessions sock with
    | none => [SysEvent.recv clk sock payload]
    | some se =>
      if payload = [] then [SysEvent.recv clk sock payload]
      else
        match handleClient.start clk c.st se (recvString payload) with
        | Except.ok (_, _, _, some p) =>
          SysEvent.recv clk sock payload :: List.replicate p.rank (SysEvent.resume clk sock)
        | _ => [SysEvent.recv clk sock payload]
  | Event.worker clk => [SysEvent.worker clk]

/-- The number of messages created by a sequence of turns run one at a time:
the turns that stored a new value in `messageCounter`. -/
def Config.created : Config → List Event → Nat
  | _, [] => 0
  | c, e :: rest =>
    match c.step e with
    | none => 0
    | some c1 =>
      (if c1.st.messageCounter = c.st.messageCounter then 0 else 1) + Config.created c1 rest

/-! ## Invariants -/

/-- The invariant of the ledger: it satisfies its class invariant and has the
capacity the global `roomHistory` was built with. -/
def State.LedgerInv (st : State) : Prop :=
  st.roomHistory.WF ∧ st.roomHistory.maxSize = MAX_MESSAGE_HISTORY

/-- The message data of `st1` are those of `st`: ledger, stacks, queue and
counter. -/
def State.SameLedger (st st1 : State) : Prop :=
  st1.roomHistory = st.roomHistory ∧ st1.undoRedo = st.undoRedo ∧
  st1.messageQueue = st.messageQueue ∧ st1.messageCounter = st.messageCounter

/-- The membership invariant of a configuration: the handler threads serve
distinct sockets; each of them is a member of its current room and of no
other; every member of a room and every registered socket has a thread; a
thread's socket is registered under its username; member sets have no
repetition. -/
def Config.MemInv (c : Config) : Prop :=
  (c.sessions.map Session.clientSock).Nodup ∧
  (∀ se ∈ c.sessions, ∀ r, se.clientSock ∈ membersOf c.st.rooms r ↔ r = se.currentRoom) ∧
  (∀ r sock, sock ∈ membersOf c.st.rooms r → ∃ se ∈ c.sessions, se.clientSock = sock) ∧
  (∀ se ∈ c.sessions, mapFind c.st.clients se.clientSock = some se.username) ∧
  (∀ sock, mapFind c.st.clients sock ≠ none → ∃ se ∈ c.sessions, se.clientSock = sock) ∧
  (∀ r, (membersOf c.st.rooms r).Nodup)

/-- The rooms after `/join`: the socket erased from `rooms[oldRoom]`, then
inserted into `rooms[room]`. -/
def joinRooms (rooms : List (Str × List SOCKET)) (sock : SOCKET) (oldRoom room : Str) :
    List (Str × List SOCKET) :=
  mapModify strLt [] (setInsert sock) (mapModify strLt [] (setErase sock) rooms oldRoom) room

/-! ## Scenarios used as concrete inputs -/

/-- The messages of scenario B: 1001 messages with the ids `0, 1, ..., 1000`. -/
def scenarioB : List Message :=
  (List.range 1001).map
    (fun (i : Nat) =>
      { id := Int.ofNat i, sender := "X".toList, text := (Nat.repr i).toList, timestamp := 0 })

/-- A clock that always reads `12:00:00`. -/
def noon : Clock := { str := fun _ => "12:00:00".toList, time := 0 }

/-- The state of scenario C: seven messages with the ids `0, ..., 6`, then
`"m1"` sent by `X`, which gets id 7. -/
def scenarioC : State :=
  postMessage noon
    ((List.range 7).foldl (fun st _ => postMessage noon st "X".toList "hello".toList) State.init)
    "X".toList "m1".toList

/-- The session of `X` in the scenarios. -/
def sessionX : Session :=
  { clientSock := 1, username := "X".toList, currentRoom := "chatroom".toList }

/-- The session of `Y` in the scenarios. -/
def sessionY : Session :=
  { clientSock := 2, username := "Y".toList, currentRoom := "chatroom".toList }

/-- The events leading to scenario D: `X` (socket 1) joins `R1`, `Y` (socket 2)
joins `R2`, and nine messages are sent, which take the ids `0, ..., 8`. -/
def scenarioDEvents : List Event :=
  [Event.accept noon 1 "X".toList, Event.accept noon 2 "Y".toList,
   Event.recv noon 1 "/join R1".toList, Event.recv noon 2 "/join R2".toList] ++
  List.replicate 9 (Event.recv noon 2 "hey".toList)

/-- The configuration of scenario D. -/
def scenarioD : Config := (Config.init.run scenarioDEvents).getD Config.init

/-- The session of `X` in scenario D. -/
def sessionXD : Session := { clientSock := 1, username := "X".toList, currentRoom := "R1".toList }

/-- The session of `Y` in scenario D. -/
def sessionYD : Session := { clientSock := 2, username := "Y".toList, currentRoom := "R2".toList }

/-- The events of the namesake scenario: two connections register as `bob`,
then the first one (socket 1) sends `hi`. -/
def namesakeEvents : List Event :=
  [Event.accept noon 1 "bob".toList, Event.accept noon 2 "bob".toList,
   Event.recv noon 1 "hi".toList]

/-- The configuration of the namesake scenario. -/
def scenarioNamesake : Config :=
  { st :=
      { clients := [(1, "bob".toList), (2, "bob".toList)]
        rooms := [("chatroom".toList, [1, 2])]
        roomHistory :=
          { nodes := [{ id := 0, sender := "bob".toList, text := "hi".toList, timestamp := 0 }]
            size := 1
            maxSize := 1000 }
        undoRedo :=
          { undoStack := [{ id := 0, sender := "bob".toList, text := "hi".toList, timestamp := 0 }]
            redoStack := [] }
        messageQueue :=
          { messages := [{ id := 0, sender := "bob".toList, text := "hi".toList, timestamp := 0 }]
            shutdown := false }
        messageCounter := 1 }
    sessions :=
      [{ clientSock := 2, username := "bob".toList, currentRoom := "chatroom".toList },
       { clientSock := 1, username := "bob".toList, currentRoom := "chatroom".toList }] }

/-- The events of scenario A: `X` (socket 1) and `Y` (socket 2) join room
`general`, then `X` sends `hi`. -/
def scenarioAEvents : List Event :=
  [Event.accept noon 1 "X".toList, Event.accept noon 2 "Y".toList,
   Event.recv noon 1 "/join general".toList, Event.recv noon 2 "/join general".toList,
   Event.recv noon 1 "hi".toList]

/-- The configuration of scenario A. -/
def scenarioA : Config := (Config.init.run scenarioAEvents).getD Config.init

/-- The message queued in scenario A. -/
def messageA : Message := { id := 0, sender := "X".toList, text := "hi".toList, timestamp := 0 }

/-- The events of the empty-room scenario: `X` (socket 1) connects, sends
`/join ` (a room name of length zero) and then `hi`. -/
def emptyRoomEvents : List Event :=
  [Event.accept noon 1 "X".toList, Event.recv noon 1 "/join ".toList,
   Event.recv noon 1 "hi".toList]

/-- The configuration of the empty-room scenario. -/
def scenarioEmptyRoom : Config :=
  { st :=
      { clients := [(1, "X".toList)]
        rooms := [([], [1]), ("chatroom".toList, [])]
        roomHistory := { nodes := [messageA], size := 1, maxSize := 1000 }
        undoRedo := { undoStack := [messageA], redoStack := [] }
        messageQueue := { messages := [messageA], shutdown := false }
        messageCounter := 1 }
    sessions := [{ clientSock := 1, username := "X".toList, currentRoom := [] }] }

/-! ## The stacks as one timeline -/

/-- The messages of both stacks in one list: the undo stack from bottom to
top, then the redo stack from top to bottom. -/
def UndoRedo.timeline (u : UndoRedo) : List Message :=
  u.undoStack.reverse ++ u.redoStack

/-- The globals at program start when the ledger is built with capacity `C`
(the source has `C = MAX_MESSAGE_HISTORY`). -/
def State.initWith (C : Int) : State :=
  { State.init with roomHistory := History.new C }

/-- The configuration at program start with ledger capacity `C`. -/
def Config.initWith (C : Int) : Config := { st := State.initWith C, sessions := [] }

/-- The invariant of the stacks: along the timeline the ids increase
strictly, and all of them are below `bound`. -/
def UndoRedo.Ordered (u : UndoRedo) (bound : Int) : Prop :=
  (u.timeline.map Message.id).Pairwise (· < ·) ∧ ∀ m ∈ u.timeline, m.id < bound

/-- The invariant tying the ledger to the stacks when `k` messages have been
created, `k` at most `2 ^ 31`: the ledger satisfies its class invariant with a
capacity of at least 1, the timeline of the stacks is ordered with all ids
below `k`, the ledger's node chain is a suffix of the undo stack read from
bottom to top, and the counter holds `k` as an `int`. -/
def State.StackInv (st : State) (k : Nat) : Prop :=
  st.roomHistory.WF ∧ 1 ≤ st.roomHistory.maxSize ∧
  st.undoRedo.Ordered k ∧
  st.roomHistory.nodes <:+ st.undoRedo.undoStack.reverse ∧
  st.messageCounter = wrapInt k ∧ k ≤ 2147483648

/-- The events of the small-ledger scenario: with capacity 2, `X` sends `a`,
`b` and `c`. -/
def smallLedgerEvents : List Event :=
  [Event.accept noon 1 "X".toList, Event.recv noon 1 "a".toList,
   Event.recv noon 1 "b".toList, Event.recv noon 1 "c".toList]

/-- The configuration of the small-ledger scenario. -/
def scenarioSmallLedger : Config :=
  ((Config.initWith 2).run smallLedgerEvents).getD (Config.initWith 2)

/-- One round of the long run: `X` sends `a`, the worker dispatches it, and `X`
undoes it. -/
def pumpRound : List Event :=
  [Event.recv noon 1 "a".toList, Event.worker noon, Event.recv noon 1 "/undo".toList]

/-- The long run: `n` rounds. -/
def pumpEvents : Nat → List Event
  | 0 => []
  | n + 1 => pumpRound ++ pumpEvents n

/-- The configuration after `X` (socket 1) has connected and `j + 1` rounds
have run: the ledger, the undo stack and the queue are empty, the redo stack
holds the last message, whose id is `j`, and the counter holds `j + 1`. -/
def pumped (j : Nat) : Config :=
  { st :=
      { clients := [(1, "X".toList)]
        rooms := [("chatroom".toList, [1])]
        roomHistory := { nodes := [], size := 0, maxSize := 1000 }
        undoRedo :=
          { undoStack := []
            redoStack := [{ id := Int.ofNat j, sender := "X".toList, text := "a".toList,
                            timestamp := 0 }] }
        messageQueue := { messages := [], shutdown := false }
        messageCounter := Int.ofNat j + 1 }
    sessions := [sessionX] }

/-- The events of the wrap scenario: `X` connects, `2 ^ 31 - 1` rounds bring
the counter to `INT_MAX`, then `X` sends `a` and `b`. -/
def wrapEvents : List Event :=
  [Event.accept noon 1 "X".toList] ++ pumpRound ++ pumpEvents 2147483646 ++
  [Event.recv noon 1 "a".toList, Event.recv noon 1 "b".toList]

/-- The message `a` of the wrap scenario: its id is `INT_MAX`. -/
def wrapA : Message :=
  { id := 2147483647, sender := "X".toList, text := "a".toList, timestamp := 0 }

/-- The message `b` of the wrap scenario: its id is `INT_MIN`. -/
def wrapB : Message :=
  { id := -2147483648, sender := "X".toList, text := "b".toList, timestamp := 0 }

/-- The configuration of the wrap scenario. -/
def wrapConfig : Config :=
  { st :=
      { clients := [(1, "X".toList)]
        rooms := [("chatroom".toList, [1])]
        roomHistory := { nodes := [wrapA, wrapB], size := 2, maxSize := 1000 }
        undoRedo := { undoStack := [wrapB, wrapA], redoStack := [] }
        messageQueue := { messages := [wrapA, wrapB], shutdown := false }
        messageCounter := -2147483647 }
    sessions := [sessionX] }

/-- The events of the racing sends: `A` (socket 1) and `B` (socket 2) connect
and each sends one line; the thread of `A` loads the counter, the thread of `B`
loads it too, then `A` runs the rest of its turn (store, ledger, undo stack,
queue) and `B` the rest of its own. -/
def raceEvents : List SysEvent :=
  [SysEvent.accept noon 1 "A".toList, SysEvent.accept noon 2 "B".toList,
   SysEvent.recv noon 1 "a".toList, SysEvent.recv noon 2 "b".toList,
   SysEvent.resume noon 1, SysEvent.resume noon 1, SysEvent.resume noon 1,
   SysEvent.resume noon 1,
   SysEvent.resume noon 2, SysEvent.resume noon 2, SysEvent.resume noon 2,
   SysEvent.resume noon 2]

/-- The message of `A` in the racing sends. -/
def raceA : Message := { id := 0, sender := "A".toList, text := "a".toList, timestamp := 0 }

/-- The message of `B` in the racing sends. -/
def raceB : Message := { id := 0, sender := "B".toList, text := "b".toList, timestamp := 0 }

/-- The threads of `A` and `B`, both waiting in `recv`. -/
def raceThreads : List Thread :=
  [{ session := { clientSock := 2, username := "B".toList, currentRoom := "chatroom".toList },
     pending := none },
   { session := { clientSock := 1, username := "A".toList, currentRoom := "chatroom".toList },
     pending := none }]

/-- The server after the racing sends. -/
def raceSys : Sys :=
  { st :=
      { clients := [(1, "A".toList), (2, "B".toList)]
        rooms := [("chatroom".toList, [1, 2])]
        roomHistory := { nodes := [raceA, raceB], size := 2, maxSize := 1000 }
        undoRedo := { undoStack := [raceB, raceA], redoStack := [] }
        messageQueue := { messages := [raceA, raceB], shutdown := false }
        messageCounter := 1 }
    threads := raceThreads }

/-- The same two lines with the turns run one at a time. -/
def raceEventsInTurn : List Event :=
  [Event.accept noon 1 "A".toList, Event.accept noon 2 "B".toList,
   Event.recv noon 1 "a".toList, Event.recv noon 2 "b".toList]

/-- The events of the late store: `A` (socket 1), `B` (socket 2), `X`
(socket 3) and `Y` (socket 4) connect; the thread of `A` loads the counter
(0) for its line `a`; `B` sends `b1` and `b2`, whole turns, which take the ids
0 and 1; then `A` runs the rest of its turn, which stores 1 in the counter. -/
def staleEvents : List SysEvent :=
  [SysEvent.accept noon 1 "A".toList, SysEvent.accept noon 2 "B".toList,
   SysEvent.accept noon 3 "X".toList, SysEvent.accept noon 4 "Y".toList,
   SysEvent.recv noon 1 "a".toList,
   SysEvent.recv noon 2 "b1".toList,
   SysEvent.resume noon 2, SysEvent.resume noon 2, SysEvent.resume noon 2,
   SysEvent.resume noon 2,
   SysEvent.recv noon 2 "b2".toList,
   SysEvent.resume noon 2, SysEvent.resume noon 2, SysEvent.resume noon 2,
   SysEvent.resume noon 2,
   SysEvent.resume noon 1, SysEvent.resume noon 1, SysEvent.resume noon 1,
   SysEvent.resume noon 1]

/-- The first message of `B` in the late store. -/
def staleB1 : Message := { id := 0, sender := "B".toList, text := "b1".toList, timestamp := 0 }

/-- The second message of `B` in the late store. -/
def staleB2 : Message := { id := 1, sender := "B".toList, text := "b2".toList, timestamp := 0 }

/-- The message of `A` in the late store. -/
def staleA : Message := { id := 0, sender := "A".toList, text := "a".toList, timestamp := 0 }

/-- The message `X` sends after the late store. -/
def staleX : Message := { id := 1, sender := "X".toList, text := "x".toList, timestamp := 0 }

/-- The session of `X` in the late store. -/
def sessionX3 : Session :=
  { clientSock := 3, username := "X".toList, currentRoom := "chatroom".toList }

/-- The session of `Y` in the late store. -/
def sessionY4 : Session :=
  { clientSock := 4, username := "Y".toList, currentRoom := "chatroom".toList }

/-- The four threads of the late store, all waiting in `recv`. -/
def staleThreads : List Thread :=
  [{ session := sessionY4, pending := none }, { session := sessionX3, pending := none },
   { session := { clientSock := 2, username := "B".toList, currentRoom := "chatroom".toList },
     pending := none },
   { session := { clientSock := 1, username := "A".toList, currentRoom := "chatroom".toList },
     pending := none }]

/-- The server after the late store: the counter holds 1, and the ledger holds
`b2`, whose id is 1. -/
def staleSys : Sys :=
  { st :=
      { clients := [(1, "A".toList), (2, "B".toList), (3, "X".toList), (4, "Y".toList)]
        rooms := [("chatroom".toList, [1, 2, 3, 4])]
        roomHistory := { nodes := [staleB1, staleB2, staleA], size := 3, maxSize := 1000 }
        undoRedo := { undoStack := [staleA, staleB2, staleB1], redoStack := [] }
        messageQueue := { messages := [staleB1, staleB2, staleA], shutdown := false }
        messageCounter := 1 }
    threads := staleThreads }

/-- The globals after `X` has sent `x` and `Y` has sent `/undo`, in the late
store. -/
def staleUndone : State :=
  { clients := [(1, "A".toList), (2, "B".toList), (3, "X".toList), (4, "Y".toList)]
    rooms := [("chatroom".toList, [1, 2, 3, 4])]
    roomHistory := { nodes := [staleB1, staleA, staleX], size := 3, maxSize := 1000 }
    undoRedo := { undoStack := [staleA, staleB2, staleB1], redoStack := [staleX] }
    messageQueue := { messages := [staleB1, staleB2, staleA, staleX], shutdown := false }
    messageCounter := 2 }

/-- The events of the overlapping sends: `A` (socket 1) sends `a` and its
thread runs as far as `roomHistory.addMessage`; `B` (socket 2) sends `b`, a
whole turn; then `A` runs `undoRedo.addMessage` and `messageQueue.push`. -/
def overlapEvents : List SysEvent :=
  [SysEvent.accept noon 1 "A".toList, SysEvent.accept noon 2 "B".toList,
   SysEvent.recv noon 1 "a".toList, SysEvent.resume noon 1, SysEvent.resume noon 1,
   SysEvent.recv noon 2 "b".toList,
   SysEvent.resume noon 2, SysEvent.resume noon 2, SysEvent.resume noon 2,
   SysEvent.resume noon 2,
   SysEvent.resume noon 1, SysEvent.resume noon 1]

/-- The message of `B` in the overlapping sends. -/
def overlapB : Message := { id := 1, sender := "B".toList, text := "b".toList, timestamp := 0 }

/-- The server after the overlapping sends. -/
def overlapSys : Sys :=
  { st :=
      { clients := [(1, "A".toList), (2, "B".toList)]
        rooms := [("chatroom".toList, [1, 2])]
        roomHistory := { nodes := [raceA, overlapB], size := 2, maxSize := 1000 }
        undoRedo := { undoStack := [raceA, overlapB], redoStack := [] }
        messageQueue := { messages := [overlapB, raceA], shutdown := false }
        messageCounter := 2 }
    threads := raceThreads }

/-- The events of the two-room namesake scenario: two connections register as
`bob` (sockets 1 and 2), `al` (socket 3) and `cy` (socket 4) connect; socket 2
and `al` join room `zoo`; then socket 2 sends `hi`. -/
def twoRoomEvents : List Event :=
  [Event.accept noon 1 "bob".toList, Event.accept noon 2 "bob".toList,
   Event.accept noon 3 "al".toList, Event.accept noon 4 "cy".toList,
   Event.recv noon 2 "/join zoo".toList, Event.recv noon 3 "/join zoo".toList,
   Event.recv noon 2 "hi".toList]

/-- The message queued in the namesake scenarios. -/
def messageBob : Message :=
  { id := 0, sender := "bob".toList, text := "hi".toList, timestamp := 0 }

/-- The configuration of the two-room namesake scenario. -/
def scenarioTwoRooms : Config :=
  { st :=
      { clients := [(1, "bob".toList), (2, "bob".toList), (3, "al".toList), (4, "cy".toList)]
        rooms := [("chatroom".toList, [1, 4]), ("zoo".toList, [2, 3])]
        roomHistory := { nodes := [messageBob], size := 1, maxSize := 1000 }
        undoRedo := { undoStack := [messageBob], redoStack := [] }
        messageQueue := { messages := [messageBob], shutdown := false }
        messageCounter := 1 }
    sessions :=
      [{ clientSock := 4, username := "cy".toList, currentRoom := "chatroom".toList },
       { clientSock := 3, username := "al".toList, currentRoom := "zoo".toList },
       { clientSock := 2, username := "bob".toList, currentRoom := "zoo".toList },
       { clientSock := 1, username := "bob".toList, currentRoom := "chatroom".toList }] }

/-- The session of `A` in the racing and the overlapping sends. -/
def sessionA : Session :=
  { clientSock := 1, username := "A".toList, currentRoom := "chatroom".toList }

/-! # Theorems -/

/-! ## `std::string::find` -/

theorem findFrom_isSome (kw s : Str) (i : Nat) :
    (findFrom kw s i).isSome = true ↔ kw <:+: s := by
  induction s generalizing i with
  | nil => simp [findFrom]
  | cons c cs ih =>
    rw [List.infix_cons_iff]
    by_cases hp : kw.isPrefixOf (c :: cs) = true
    · have hp2 : kw <+: c :: cs := List.isPrefixOf_iff_prefix.mp hp
      simp [findFrom, hp, hp2]
    · have hp2 : ¬ kw <+: c :: cs := fun h => hp (List.isPrefixOf_iff_prefix.mpr h)
      simp only [findFrom, hp, hp2, false_or]
      exact ih (i + 1)

theorem find_isSome (s kw : Str) : (find s kw).isSome = true ↔ kw <:+: s :=
  findFrom_isSome kw s 0

/-! ## The ledger -/

namespace History

theorem collect_eq (l acc : List Message) : collect l acc = acc ++ l := by
  induction l generalizing acc with
  | nil => simp [collect]
  | cons m rest ih => simp [collect, ih]

theorem getMessages_eq (h : History) : h.getMessages = h.nodes := by
  simp [getMessages, collect_eq]

theorem collectMatching_eq (kw : Str) (l acc : List Message) :
    collectMatching kw l acc = acc ++ l.filter (fun m => (find m.text kw).isSome) := by
  induction l generalizing acc with
  | nil => simp [collectMatching]
  | cons m rest ih =>
    by_cases hm : (find m.text kw).isSome = true
    · simp [collectMatching, ih, hm]
    · simp [collectMatching, ih, hm]

theorem searchMessages_eq (h : History) (kw : Str) :
    h.searchMessages kw = h.nodes.filter (fun m => decide (kw <:+: m.text)) := by
  simp only [searchMessages, collectMatching_eq, List.nil_append]
  apply List.filter_congr
  intro m _
  by_cases hk : kw <:+: m.text
  · simp [hk, (find_isSome m.text kw).mpr hk]
  · have : ¬ (find m.text kw).isSome = true := fun h1 => hk ((find_isSome m.text kw).mp h1)
    simp [hk, this]

theorem addMessage_maxSize (h : History) (m : Message) :
    (h.addMessage m).maxSize = h.maxSize := by
  simp only [addMessage]; split <;> rfl

theorem addMessage_nodes (h : History) (m : Message) (hwf : h.WF) (hC : 1 ≤ h.maxSize) :
    (h.addMessage m).nodes =
      (if h.nodes.length < h.maxSize.toNat then h.nodes ++ [m] else h.nodes.tail ++ [m]) ∧
    (h.addMessage m).WF := by
  obtain ⟨hs, hle⟩ := hwf
  have hne : ¬ h.nodes.length < h.maxSize.toNat → h.nodes ≠ [] := by
    intro hlt hnil
    rw [hnil] at hlt
    simp at hlt
    omega
  simp only [addMessage, WF]
  by_cases hfull : h.size + 1 > h.maxSize
  · have hlt : ¬ h.nodes.length < h.maxSize.toNat := by omega
    have htail : (h.nodes ++ [m]).tail = h.nodes.tail ++ [m] :=
      List.tail_append_of_ne_nil (hne hlt)
    simp only [hfull, if_true, hlt, if_false, htail]
    refine ⟨trivial, ?_, ?_⟩
    · have := List.length_pos.mpr (hne hlt)
      simp; omega
    · omega
  · have hlt : h.nodes.length < h.maxSize.toNat := by omega
    simp only [hfull, if_false, hlt, if_true]
    refine ⟨trivial, ?_, ?_⟩
    · simp; omega
    · omega

theorem foldl_addMessage (C : Int) (hC : 1 ≤ C) (ms : List Message) :
    (ms.foldl addMessage (new C)).nodes = ms.drop (ms.length - C.toNat) ∧
    (ms.foldl addMessage (new C)).WF ∧ (ms.foldl addMessage (new C)).maxSize = C := by
  induction ms using List.reverseRecOn with
  | nil => simp [new, WF]; omega
  | append_singleton ms m ih =>
    obtain ⟨hn, hwf, hmax⟩ := ih
    rw [List.foldl_append, List.foldl_cons, List.foldl_nil]
    have h1 := addMessage_nodes _ m hwf (by rw [hmax]; exact hC)
    refine ⟨?_, h1.2, by rw [addMessage_maxSize, hmax]⟩
    rw [h1.1, hn, hmax]
    by_cases hlt : ms.length < C.toNat
    · have a : ms.length - C.toNat = 0 := by omega
      have c : ms.length + 1 - C.toNat = 0 := by omega
      simp [a, c, hlt]
    · have hl : ¬ (List.drop (ms.length - C.toNat) ms).length < C.toNat := by
        simp; omega
      have c : (ms ++ [m]).length - C.toNat = (ms.length - C.toNat) + 1 := by simp; omega
      rw [if_neg hl, c, List.tail_drop, List.drop_append_of_le_length (by omega)]

end History

/-- C1: with capacity `C ≥ 1`, after appending the messages `ms` to an empty
ledger with `History::addMessage`, `getMessages()` is exactly the last
`min(n, C)` of them in append order; its length is `min(n, C)`, hence at most
`C`; and when `n > C` the listing lies within the messages appended after the
first one, so that the first message's id is absent when ids are distinct. -/
theorem C1_ledger_keeps_most_recent (C : Int) (hC : 1 ≤ C) (ms : List Message) :
    (ms.foldl History.addMessage (History.new C)).getMessages
        = ms.drop (ms.length - min ms.length C.toNat) ∧
    (ms.foldl History.addMessage (History.new C)).getMessages.length
        = min ms.length C.toNat ∧
    ((ms.foldl History.addMessage (History.new C)).getMessages.length : Int) ≤ C ∧
    (C < (ms.length : Int) →
      (ms.foldl History.addMessage (History.new C)).getMessages <:+ ms.tail ∧
      ((ms.map Message.id).Nodup → ∀ first ∈ ms.head?,
        first.id ∉ (ms.foldl History.addMessage (History.new C)).getMessages.map Message.id)) := by
  have hfold := (History.foldl_addMessage C hC ms).1
  have hmin : ms.length - min ms.length C.toNat = ms.length - C.toNat := by omega
  rw [History.getMessages_eq, hfold, hmin]
  refine ⟨rfl, by simp; omega, by simp; omega, ?_⟩
  intro hlt
  cases ms with
  | nil => simp at hlt; omega
  | cons a rest =>
    have hpos : (a :: rest).length - C.toNat = (rest.length - C.toNat) + 1 := by
      simp only [List.length_cons] at hlt ⊢
      omega
    have hsuf : List.drop ((a :: rest).length - C.toNat) (a :: rest) <:+ rest := by
      rw [hpos, List.drop_succ_cons]
      exact List.drop_suffix _ _
    refine ⟨hsuf, ?_⟩
    intro hnd first hfirst hmem
    simp only [List.head?_cons, Option.mem_def, Option.some.injEq] at hfirst
    subst hfirst
    simp only [List.map_cons, List.nodup_cons] at hnd
    exact hnd.1 (List.Sublist.subset (List.Sublist.map Message.id hsuf.sublist) hmem)

/-- C1 at scenario B: capacity 1000 and 1001 messages with distinct ids give a
ledger of length 1000 that does not list the id of the first message. -/
theorem C1_ledger_keeps_most_recent_witness :
    (1 : Int) ≤ 1000 ∧
    (scenarioB.foldl History.addMessage (History.new 1000)).getMessages.length = 1000 ∧
    (0 : Int) ∉ (scenarioB.foldl History.addMessage (History.new 1000)).getMessages.map
      Message.id := by
  have h := C1_ledger_keeps_most_recent 1000 (by decide) scenarioB
  have hlen : scenarioB.length = 1001 := by
    rw [scenarioB, List.length_map, List.length_range]
  refine ⟨by decide, ?_, ?_⟩
  · rw [h.2.1, hlen]; rfl
  · have hnd : (scenarioB.map Message.id).Nodup := by
      have e : scenarioB.map Message.id = (List.range 1001).map Int.ofNat := by
        rw [scenarioB, List.map_map]; rfl
      rw [e]
      exact List.Nodup.map (fun a b hab => Int.ofNat.inj hab) (List.nodup_range 1001)
    have hlt : (1000 : Int) < (scenarioB.length : Int) := by rw [hlen]; norm_num
    have hhead : ({ id := 0, sender := "X".toList, text := (Nat.repr 0).toList, timestamp := 0 }
        : Message) ∈ scenarioB.head? := by
      rw [scenarioB, List.range_succ_eq_map]
      simp only [List.map_cons, List.head?_cons, Option.mem_def]
      rfl
    exact (h.2.2.2 hlt).2 hnd _ hhead

/-- C2: `searchMessages(kw)` is exactly the listing `getMessages()` filtered by
"the text contains `kw` as a substring", hence a subsequence of it in the same
order. -/
theorem C2_search_is_filtered_listing (h : History) (kw : Str) :
    h.searchMessages kw = h.getMessages.filter (fun m => decide (kw <:+: m.text)) ∧
    List.Sublist (h.searchMessages kw) h.getMessages := by
  have e : h.searchMessages kw = h.getMessages.filter (fun m => decide (kw <:+: m.text)) := by
    rw [History.searchMessages_eq, History.getMessages_eq]
  exact ⟨e, e ▸ List.filter_sublist _⟩

/-! ## Undo/redo and the command handler -/

namespace UndoRedo
theorem popAll_eq (l : List Message) : popAll l = [] := by
  induction l with
  | nil => rfl
  | cons _ _ ih => simpa [popAll] using ih
end UndoRedo

namespace handleClient

theorem command_undo (clk : Clock) (st : State) (se : Session) :
    command clk st se "/undo".toList = undo clk st se := rfl

theorem command_redo (clk : Clock) (st : State) (se : Session) :
    command clk st se "/redo".toList = redo clk st se := rfl

theorem command_chat (clk : Clock) (st : State) (se : Session) (msg : Str)
    (h : isChat msg = true) : command clk st se msg = chat clk st se msg := by
  simp only [isChat, Bool.and_eq_true, Bool.not_eq_true', decide_eq_false_iff_not] at h
  obtain ⟨⟨⟨⟨⟨⟨⟨h1, h2⟩, h3⟩, h4⟩, h5⟩, h6⟩, h7⟩, h8⟩ := h
  simp only [command, h1, h2, h3, h4, h5, h6, h7, h8, if_false, Bool.false_eq_true]

end handleClient

namespace History

theorem unlinkFirst_length (i : Int) (l : List Message) :
    ((unlinkFirst i l).2 = true → (unlinkFirst i l).1.length + 1 = l.length) ∧
    ((unlinkFirst i l).2 = false → (unlinkFirst i l).1 = l) := by
  induction l with
  | nil => simp [unlinkFirst]
  | cons m rest ih =>
    by_cases hm : m.id = i
    · simp [unlinkFirst, hm]
    · simp only [unlinkFirst, hm, if_false, List.length_cons]
      refine ⟨fun h => ?_, fun h => ?_⟩
      · rw [ih.1 h]
      · rw [ih.2 h]

theorem unlinkFirst_sublist (i : Int) (l : List Message) :
    List.Sublist (unlinkFirst i l).1 l := by
  induction l with
  | nil => simp [unlinkFirst]
  | cons m rest ih =>
    by_cases hm : m.id = i
    · simp [unlinkFirst, hm]
    · simp only [unlinkFirst, hm, if_false]
      exact ih.cons₂ m

theorem removeMessage_WF (h : History) (i : Int) (hwf : h.WF) : (h.removeMessage i).WF := by
  obtain ⟨hs, hle⟩ := hwf
  have hl := unlinkFirst_length i h.nodes
  simp only [removeMessage, WF]
  by_cases hf : (unlinkFirst i h.nodes).2 = true
  · have := hl.1 hf
    simp only [hf, if_true]
    constructor <;> omega
  · simp only [hf]
    exact ⟨hs, hle⟩

theorem removeMessage_maxSize (h : History) (i : Int) :
    (h.removeMessage i).maxSize = h.maxSize := by
  simp only [removeMessage]; split <;> rfl

theorem removeMessage_nodes (h : History) (i : Int) :
    (h.removeMessage i).nodes = (unlinkFirst i h.nodes).1 := by
  simp only [removeMessage]
  split
  · rfl
  · rename_i hf
    exact ((unlinkFirst_length i h.nodes).2 (by simpa using hf)).symm

end History

namespace handleClient

theorem join_frame (clk : Clock) (st : State) (se : Session) (msg : Str)
    (r : State × Session × List Send) (h : join clk st se msg = Except.ok r) :
    st.SameLedger r.1 ∧ r.1.clients = st.clients := by
  simp only [join, bind, Except.bind] at h
  split at h
  · cases h
  · simp only [pure, Except.pure, Except.ok.injEq] at h
    subst h
    exact ⟨⟨rfl, rfl, rfl, rfl⟩, rfl⟩

theorem pm_frame (clk : Clock) (st : State) (se : Session) (msg : Str)
    (r : State × Session × List Send) (h : pm clk st se msg = Except.ok r) :
    r.1 = st ∧ r.2.1 = se := by
  simp only [pm, bind, Except.bind] at h
  split at h
  · cases h
  · split at h
    · cases h
    · split at h
      · cases h
      · split at h <;>
        · simp only [pure, Except.pure, Except.ok.injEq] at h
          subst h
          exact ⟨rfl, rfl⟩

theorem search_frame (clk : Clock) (st : State) (se : Session) (msg : Str)
    (r : State × Session × List Send) (h : search clk st se msg = Except.ok r) :
    r.1 = st ∧ r.2.1 = se := by
  simp only [search, bind, Except.bind] at h
  split at h
  · simp only [pure, Except.pure, Except.ok.injEq] at h
    subst h
    exact ⟨rfl, rfl⟩
  · split at h
    · cases h
    · split at h <;>
      · simp only [pure, Except.pure, Except.ok.injEq] at h
        subst h
        exact ⟨rfl, rfl⟩

theorem reply_cases (clk : Clock) (st : State) (se : Session) (msg : Str)
    (r : State × Session × List Send) (h : reply clk st se msg = Except.ok r) :
    (r.1 = st ∨ ∃ text, r.1 = postMessage clk st se.username text) ∧ r.2.1 = se := by
  simp only [reply, bind, Except.bind] at h
  split at h
  · cases h
  · split at h
    · cases h
    · split at h
      · cases h
      · split at h <;>
        · simp only [pure, Except.pure, Except.ok.injEq] at h
          subst h
          first
            | exact ⟨Or.inl rfl, rfl⟩
            | exact ⟨Or.inr ⟨_, rfl⟩, rfl⟩

end handleClient

namespace History

theorem addMessage_subset (h : History) (m x : Message) (hx : x ∈ (h.addMessage m).nodes) :
    x ∈ h.nodes ∨ x = m := by
  simp only [addMessage] at hx
  split at hx
  · have := List.mem_of_mem_tail hx
    simpa using this
  · simpa using hx

theorem unlinkFirst_append_last (i : Int) (l : List Message) (m : Message)
    (hl : ∀ x ∈ l, x.id ≠ i) (hm : m.id = i) : unlinkFirst i (l ++ [m]) = (l, true) := by
  induction l with
  | nil => simp [unlinkFirst, hm]
  | cons a rest ih =>
    have ha : a.id ≠ i := hl a (List.mem_cons_self _ _)
    have hr := ih (fun x hx => hl x (List.mem_cons_of_mem _ hx))
    simp [unlinkFirst, ha, hr]

end History

theorem broadcastWorker_ledger (clk : Clock) (st : State) :
    (broadcastWorker clk st).1.roomHistory = st.roomHistory ∧
    (broadcastWorker clk st).1.undoRedo = st.undoRedo ∧
    (broadcastWorker clk st).1.messageCounter = st.messageCounter ∧
    (broadcastWorker clk st).1.clients = st.clients ∧
    (broadcastWorker clk st).1.rooms = st.rooms := by
  simp only [broadcastWorker]
  split <;> exact ⟨rfl, rfl, rfl, rfl, rfl⟩

theorem Reachable.induction (P : Config → Prop) (h0 : P Config.init)
    (hstep : ∀ c e c1, P c → c.step e = some c1 → P c1) :
    ∀ c, Reachable c → P c := by
  have key : ∀ evs c c1, P c → Config.run c evs = some c1 → P c1 := by
    intro evs
    induction evs with
    | nil =>
      intro c c1 hc hrun
      simp only [Config.run, Option.some.injEq] at hrun
      subst hrun; exact hc
    | cons e rest ih =>
      intro c c1 hc hrun
      simp only [Config.run] at hrun
      cases hs : c.step e with
      | none => rw [hs] at hrun; cases hrun
      | some c2 =>
        rw [hs] at hrun
        exact ih c2 c1 (hstep c e c2 hc hs) hrun
  intro c ⟨evs, hrun⟩
  exact key evs _ _ h0 hrun

/-- C4: after `UndoRedo::addMessage(m)` the redo stack is empty, `m` is on top
of the undo stack and `redo()` returns `false`; and for every server state,
`/undo` followed by a chat message and then `/redo` answers "Nothing to redo."
and leaves the whole state (both stacks, the ledger, the queue) as it was. -/
theorem C4_recordSend_clears_redo (u : UndoRedo) (m : Message) :
    (u.addMessage m).redoStack = [] ∧
    (u.addMessage m).undoStack = m :: u.undoStack ∧
    (u.addMessage m).redo = none ∧
    (∀ (clk1 clk2 clk3 : Clock) (st : State) (x y z : Session) (msg : Str),
      handleClient.isChat msg = true →
      ∃ st1 out1 st2,
        handleClient.command clk1 st x "/undo".toList = Except.ok (st1, x, out1) ∧
        handleClient.command clk2 st1 y msg = Except.ok (st2, y, []) ∧
        st2.undoRedo.redoStack = [] ∧
        st2.undoRedo.undoStack.head? =
          some { id := st1.messageCounter, sender := y.username, text := msg,
                 timestamp := clk2.time } ∧
        handleClient.command clk3 st2 z "/redo".toList =
          Except.ok (st2, z, [(z.clientSock, stamped (clk3.str 0) "Nothing to redo.\n".toList)])) := by
  refine ⟨UndoRedo.popAll_eq _, rfl, ?_, ?_⟩
  · simp [UndoRedo.redo, UndoRedo.addMessage, UndoRedo.popAll_eq]
  · intro clk1 clk2 clk3 st x y z msg hchat
    have hundo : ∃ st1 out1, handleClient.command clk1 st x "/undo".toList = Except.ok (st1, x, out1) := by
      rw [handleClient.command_undo]
      simp only [handleClient.undo]
      split
      · exact ⟨_, _, rfl⟩
      · exact ⟨_, _, rfl⟩
    obtain ⟨st1, out1, h1⟩ := hundo
    refine ⟨st1, out1, postMessage clk2 st1 y.username msg, h1, ?_, ?_, ?_, ?_⟩
    · rw [handleClient.command_chat _ _ _ _ hchat]; rfl
    · exact UndoRedo.popAll_eq _
    · rfl
    · rw [handleClient.command_redo]
      simp [handleClient.redo, UndoRedo.redo, postMessage, UndoRedo.addMessage, UndoRedo.popAll_eq]
      rfl

/-- C4 at scenario C: `/undo` by `X`, then `Y` sends `"m2"`, then `/redo` by
`X` is answered "Nothing to redo." and changes nothing. -/
theorem C4_recordSend_clears_redo_witness :
    handleClient.isChat "m2".toList = true ∧
    ∃ st1 out1 st2,
      handleClient.command noon scenarioC sessionX "/undo".toList
        = Except.ok (st1, sessionX, out1) ∧
      handleClient.command noon st1 sessionY "m2".toList = Except.ok (st2, sessionY, []) ∧
      st2.undoRedo.redoStack = [] ∧
      st2.undoRedo.undoStack.head? =
        some { id := st1.messageCounter, sender := sessionY.username, text := "m2".toList,
               timestamp := noon.time } ∧
      handleClient.command noon st2 sessionX "/redo".toList =
        Except.ok (st2, sessionX, [(sessionX.clientSock,
          stamped (noon.str 0) "Nothing to redo.\n".toList)]) :=
  ⟨by decide,
   (C4_recordSend_clears_redo scenarioC.undoRedo
      { id := 8, sender := "Y".toList, text := "m2".toList, timestamp := 0 }).2.2.2
      noon noon noon scenarioC sessionX sessionY sessionX "m2".toList (by decide)⟩

theorem History.addMessage_last (h : History) (m : Message) (hwf : h.WF) (hC : 1 ≤ h.maxSize) :
    ∃ l, (h.addMessage m).nodes = l ++ [m] := by
  rw [(History.addMessage_nodes h m hwf hC).1]
  split
  · exact ⟨_, rfl⟩
  · exact ⟨_, rfl⟩

theorem mem_searchMessages_self (h : History) (m : Message) (hm : m ∈ h.nodes) :
    m ∈ h.searchMessages m.text := by
  rw [History.searchMessages_eq]
  exact List.mem_filter.mpr ⟨hm, by simp⟩

/-- C3: in every server state whose ledger satisfies its class invariant (with
capacity at least 1) and whose undo stack is not empty, `/undo` followed by
`/redo` succeeds twice; `redo` returns the very message `undo` returned (same
id, sender and text), the stacks are back as they were, and the message is
the last entry of the listing afterwards, so that a search for its text
finds it. -/
theorem C3_undo_then_redo_restores (clk1 clk2 : Clock) (st : State) (x y : Session)
    (hwf : st.roomHistory.WF) (hC : 1 ≤ st.roomHistory.maxSize)
    (hne : st.undoRedo.undoStack ≠ []) :
    ∃ m u1 st1 st2,
      st.undoRedo.undo = some (m, u1) ∧
      handleClient.command clk1 st x "/undo".toList =
        Except.ok (st1, x, [(x.clientSock, stamped (clk1.str 0) "Last message undone.\n".toList)]) ∧
      st1.undoRedo = u1 ∧
      u1.redo = some (m, st.undoRedo) ∧
      handleClient.command clk2 st1 y "/redo".toList =
        Except.ok (st2, y, [(y.clientSock, stamped (clk2.str 0) "Message redone.\n".toList)]) ∧
      st2.undoRedo = st.undoRedo ∧
      st2.roomHistory.getMessages.getLast? = some m ∧
      m ∈ st2.roomHistory.getMessages ∧
      m ∈ st2.roomHistory.searchMessages m.text := by
  cases hstack : st.undoRedo.undoStack with
  | nil => exact absurd hstack hne
  | cons m rest =>
    have hundo : st.undoRedo.undo =
        some (m, { undoStack := rest, redoStack := m :: st.undoRedo.redoStack }) := by
      simp only [UndoRedo.undo, hstack]
    have hwf1 := History.removeMessage_WF st.roomHistory m.id hwf
    have hC1 : 1 ≤ (st.roomHistory.removeMessage m.id).maxSize := by
      rw [History.removeMessage_maxSize]; exact hC
    obtain ⟨l, hl⟩ := History.addMessage_last _ m hwf1 hC1
    have hu : ({ undoStack := m :: rest, redoStack := st.undoRedo.redoStack } : UndoRedo)
        = st.undoRedo := by
      rw [← hstack]
    refine ⟨m, { undoStack := rest, redoStack := m :: st.undoRedo.redoStack },
      { st with undoRedo := { undoStack := rest, redoStack := m :: st.undoRedo.redoStack },
                roomHistory := st.roomHistory.removeMessage m.id },
      { st with undoRedo := st.undoRedo,
                roomHistory := (st.roomHistory.removeMessage m.id).addMessage m,
                messageQueue := st.messageQueue.push m },
      hundo, ?_, rfl, ?_, ?_, rfl, ?_, ?_, ?_⟩
    · rw [handleClient.command_undo]
      simp only [handleClient.undo, hundo]
      rfl
    · simp only [UndoRedo.redo, hu]
    · rw [handleClient.command_redo]
      simp only [handleClient.redo, UndoRedo.redo, hu]
      rfl
    · rw [History.getMessages_eq, hl]; simp
    · rw [History.getMessages_eq, hl]; simp
    · exact mem_searchMessages_self _ _ (by rw [hl]; simp)

/-- C3 at scenario C: `"m1"` has id 7; after `/undo` a search for `"m1"` is
empty, after `/redo` it returns the one entry with id 7. -/
theorem C3_undo_then_redo_restores_witness :
    (scenarioC.roomHistory.WF ∧ 1 ≤ scenarioC.roomHistory.maxSize ∧
      scenarioC.undoRedo.undoStack ≠ []) ∧
    (∃ m u1 st1 st2,
      scenarioC.undoRedo.undo = some (m, u1) ∧
      handleClient.command noon scenarioC sessionX "/undo".toList =
        Except.ok (st1, sessionX,
          [(sessionX.clientSock, stamped (noon.str 0) "Last message undone.\n".toList)]) ∧
      st1.undoRedo = u1 ∧
      u1.redo = some (m, scenarioC.undoRedo) ∧
      handleClient.command noon st1 sessionY "/redo".toList =
        Except.ok (st2, sessionY,
          [(sessionY.clientSock, stamped (noon.str 0) "Message redone.\n".toList)]) ∧
      st2.undoRedo = scenarioC.undoRedo ∧
      st2.roomHistory.getMessages.getLast? = some m ∧
      m ∈ st2.roomHistory.getMessages ∧
      m ∈ st2.roomHistory.searchMessages m.text) ∧
    (stateAfter scenarioC
        (handleClient.command noon scenarioC sessionX "/undo".toList)).roomHistory.searchMessages
      "m1".toList = [] ∧
    (stateAfter scenarioC (handleClient.command noon
        (stateAfter scenarioC (handleClient.command noon scenarioC sessionX "/undo".toList))
        sessionX "/redo".toList)).roomHistory.searchMessages "m1".toList =
      [{ id := 7, sender := "X".toList, text := "m1".toList, timestamp := 0 }] :=
  ⟨⟨⟨by decide, by decide⟩, by decide, by decide⟩,
   C3_undo_then_redo_restores noon noon scenarioC sessionX sessionY
     ⟨by decide, by decide⟩ (by decide) (by decide),
   by decide, by decide⟩

theorem scenarioD_reachable : Reachable scenarioD := ⟨scenarioDEvents, by decide⟩

/-! ## Sets and maps -/

theorem mem_insertSorted (x y : SOCKET) (l : List SOCKET) :
    y ∈ insertSorted x l ↔ y = x ∨ y ∈ l := by
  induction l with
  | nil => simp [insertSorted]
  | cons a rest ih =>
    simp only [insertSorted]
    split
    · simp
    · simp only [List.mem_cons, ih]
      tauto

theorem nodup_insertSorted (x : SOCKET) (l : List SOCKET) (hx : x ∉ l) (hl : l.Nodup) :
    (insertSorted x l).Nodup := by
  induction l with
  | nil => simp [insertSorted]
  | cons a rest ih =>
    simp only [List.mem_cons, not_or] at hx
    simp only [List.nodup_cons] at hl
    simp only [insertSorted]
    split
    · simp only [List.nodup_cons, List.mem_cons, not_or]
      exact ⟨⟨hx.1, hx.2⟩, hl.1, hl.2⟩
    · simp only [List.nodup_cons, mem_insertSorted, not_or]
      exact ⟨⟨fun h => hx.1 h.symm, hl.1⟩, ih hx.2 hl.2⟩

theorem mem_setInsert (x y : SOCKET) (l : List SOCKET) :
    y ∈ setInsert x l ↔ y = x ∨ y ∈ l := by
  simp only [setInsert]
  split
  · rename_i h
    constructor
    · exact Or.inr
    · rintro (rfl | h1)
      · exact h
      · exact h1
  · exact mem_insertSorted x y l

theorem nodup_setInsert (x : SOCKET) (l : List SOCKET) (hl : l.Nodup) :
    (setInsert x l).Nodup := by
  simp only [setInsert]
  split
  · exact hl
  · rename_i h
    exact nodup_insertSorted x l h hl

theorem mem_setErase (x y : SOCKET) (l : List SOCKET) :
    y ∈ setErase x l ↔ y ≠ x ∧ y ∈ l := by
  simp only [setErase, List.mem_filter, decide_eq_true_eq]
  tauto

theorem nodup_setErase (x : SOCKET) (l : List SOCKET) (hl : l.Nodup) :
    (setErase x l).Nodup := hl.filter _

theorem mapFind_mapUpdate {K V : Type} [DecidableEq K] (f : V → V) (m : List (K × V))
    (k k1 : K) :
    mapFind (mapUpdate f m k) k1 = if k1 = k then (mapFind m k).map f else mapFind m k1 := by
  induction m with
  | nil => simp [mapUpdate, mapFind]
  | cons p rest ih =>
    obtain ⟨a, v⟩ := p
    by_cases ha : a = k
    · subst ha
      by_cases hk : k1 = a
      · subst hk; simp [mapUpdate, mapFind]
      · have hk2 : ¬ a = k1 := fun h => hk h.symm
        simp [mapUpdate, mapFind, hk, hk2]
    · by_cases hk : k1 = k
      · subst hk
        simp [mapUpdate, mapFind, ha, ih]
      · by_cases hak : a = k1
        · simp [mapUpdate, mapFind, ha, hk, hak]
        · simp [mapUpdate, mapFind, ha, hk, hak, ih]

theorem mapFind_mapInsertSorted {K V : Type} [DecidableEq K] (lt : K → K → Bool) (v : V)
    (m : List (K × V)) (k k1 : K) (hk : mapFind m k = none) :
    mapFind (mapInsertSorted lt k v m) k1 = if k1 = k then some v else mapFind m k1 := by
  induction m with
  | nil =>
    by_cases h : k1 = k
    · subst h; simp [mapInsertSorted, mapFind]
    · have h2 : ¬ k = k1 := fun e => h e.symm
      simp [mapInsertSorted, mapFind, h, h2]
  | cons p rest ih =>
    obtain ⟨a, w⟩ := p
    have hak : a ≠ k := by
      intro e; subst e; simp [mapFind] at hk
    have hrest : mapFind rest k = none := by
      simpa [mapFind, hak] using hk
    simp only [mapInsertSorted]
    split
    · by_cases h : k1 = k
      · subst h; simp [mapFind]
      · have h2 : ¬ k = k1 := fun e => h e.symm
        simp [mapFind, h, h2]
    · by_cases h : k1 = k
      · subst h
        simp [mapFind, hak, ih hrest]
      · by_cases h3 : a = k1
        · simp [mapFind, h3, h]
        · simp [mapFind, h3, h, ih hrest]

theorem mapFind_mapModify {K V : Type} [DecidableEq K] (lt : K → K → Bool) (d : V)
    (f : V → V) (m : List (K × V)) (k k1 : K) :
    mapFind (mapModify lt d f m k) k1 =
      if k1 = k then some (f ((mapFind m k).getD d)) else mapFind m k1 := by
  simp only [mapModify]
  cases h : mapFind m k with
  | none => simp only [mapFind_mapInsertSorted lt _ m k k1 h, Option.getD_none]
  | some v => simp only [mapFind_mapUpdate, h, Option.map_some', Option.getD_some]

theorem mapFind_mapErase {K V : Type} [DecidableEq K] (m : List (K × V)) (k k1 : K) :
    mapFind (mapErase m k) k1 = if k1 = k then none else mapFind m k1 := by
  induction m with
  | nil => simp [mapErase, mapFind]
  | cons p rest ih =>
    obtain ⟨a, w⟩ := p
    simp only [mapErase] at ih ⊢
    rw [List.filter_cons]
    by_cases ha : a = k
    · have hd : decide ((a, w).1 ≠ k) = false := by simp [ha]
      rw [hd]
      simp only [Bool.false_eq_true, if_false, ih]
      by_cases h : k1 = k
      · simp [h]
      · have h2 : ¬ a = k1 := fun e => h (e.symm.trans ha)
        simp [mapFind, h, h2]
    · have hd : decide ((a, w).1 ≠ k) = true := by simp [ha]
      rw [hd]
      simp only [if_true, mapFind, ih]
      by_cases h3 : a = k1
      · have h : ¬ k1 = k := fun e => ha (h3.trans e)
        simp [h3, h]
      · simp [h3]

theorem membersOf_mapModify (f : List SOCKET → List SOCKET) (rooms : List (Str × List SOCKET))
    (k r : Str) :
    membersOf (mapModify strLt [] f rooms k) r =
      if r = k then f (membersOf rooms k) else membersOf rooms r := by
  simp only [membersOf, mapFind_mapModify]
  split <;> simp
/-! ## Membership -/

theorem sessionOf_some (sessions : List Session) (sock : SOCKET) (se : Session)
    (h : sessionOf sessions sock = some se) : se ∈ sessions ∧ se.clientSock = sock := by
  simp only [sessionOf] at h
  exact ⟨List.mem_of_find?_eq_some h, by simpa using List.find?_some h⟩

theorem sessionOf_none (sessions : List Session) (sock : SOCKET)
    (h : sessionOf sessions sock = none) : ∀ se ∈ sessions, se.clientSock ≠ sock := by
  simp only [sessionOf, List.find?_eq_none] at h
  intro se hse
  simpa using h se hse

theorem membersOf_joinRooms (rooms : List (Str × List SOCKET)) (sock : SOCKET)
    (oldRoom room r : Str) :
    membersOf (joinRooms rooms sock oldRoom room) r =
      if r = room then
        setInsert sock (if room = oldRoom then setErase sock (membersOf rooms oldRoom)
                        else membersOf rooms room)
      else if r = oldRoom then setErase sock (membersOf rooms oldRoom)
      else membersOf rooms r := by
  simp only [joinRooms, membersOf_mapModify]

theorem joinRooms_self (rooms : List (Str × List SOCKET)) (sock : SOCKET)
    (oldRoom room : Str) (h : ∀ r, sock ∈ membersOf rooms r ↔ r = oldRoom) (r : Str) :
    sock ∈ membersOf (joinRooms rooms sock oldRoom room) r ↔ r = room := by
  rw [membersOf_joinRooms]
  by_cases hr : r = room
  · simp [hr, mem_setInsert]
  · simp only [hr, if_false, iff_false]
    by_cases ho : r = oldRoom
    · simp [ho, mem_setErase]
    · simp only [ho, if_false]
      exact fun hm => ho ((h r).mp hm)

theorem joinRooms_other (rooms : List (Str × List SOCKET)) (sock y : SOCKET)
    (oldRoom room r : Str) (hy : y ≠ sock) :
    y ∈ membersOf (joinRooms rooms sock oldRoom room) r ↔ y ∈ membersOf rooms r := by
  rw [membersOf_joinRooms]
  by_cases hr : r = room
  · by_cases ho : room = oldRoom
    · simp [hr, ho, mem_setInsert, mem_setErase, hy]
    · simp [hr, ho, mem_setInsert, hy]
  · by_cases ho : r = oldRoom
    · subst ho
      simp [hr, mem_setErase, hy]
    · simp [hr, ho]

theorem joinRooms_nodup (rooms : List (Str × List SOCKET)) (sock : SOCKET)
    (oldRoom room : Str) (h : ∀ r, (membersOf rooms r).Nodup) (r : Str) :
    (membersOf (joinRooms rooms sock oldRoom room) r).Nodup := by
  rw [membersOf_joinRooms]
  split
  · apply nodup_setInsert
    split
    · exact nodup_setErase _ _ (h _)
    · exact h _
  · split
    · exact nodup_setErase _ _ (h _)
    · exact h _

theorem joinRooms_unchanged (rooms : List (Str × List SOCKET)) (sock : SOCKET)
    (oldRoom room r : Str) (h1 : r ≠ oldRoom) (h2 : r ≠ room) :
    membersOf (joinRooms rooms sock oldRoom room) r = membersOf rooms r := by
  rw [membersOf_joinRooms]; simp [h1, h2]

namespace handleClient

theorem join_ok (clk : Clock) (st : State) (se : Session) (msg : Str)
    (r : State × Session × List Send) (h : join clk st se msg = Except.ok r) :
    ∃ room, substr msg 6 npos = Except.ok room ∧
      r.1 = { st with rooms := joinRooms st.rooms se.clientSock se.currentRoom room } ∧
      r.2.1 = { se with currentRoom := room } := by
  simp only [join, bind, Except.bind] at h
  split at h
  · cases h
  · rename_i room hroom
    simp only [pure, Except.pure, Except.ok.injEq] at h
    subst h
    exact ⟨room, hroom, rfl, rfl⟩

theorem undo_membership (clk : Clock) (st : State) (se : Session)
    (r : State × Session × List Send) (h : undo clk st se = Except.ok r) :
    r.1.rooms = st.rooms ∧ r.1.clients = st.clients ∧ r.2.1 = se := by
  simp only [undo] at h
  split at h <;>
  · simp only [pure, Except.pure, Except.ok.injEq] at h
    subst h
    exact ⟨rfl, rfl, rfl⟩

theorem redo_membership (clk : Clock) (st : State) (se : Session)
    (r : State × Session × List Send) (h : redo clk st se = Except.ok r) :
    r.1.rooms = st.rooms ∧ r.1.clients = st.clients ∧ r.2.1 = se := by
  simp only [redo] at h
  split at h <;>
  · simp only [pure, Except.pure, Except.ok.injEq] at h
    subst h
    exact ⟨rfl, rfl, rfl⟩

theorem command_membership (clk : Clock) (st : State) (se : Session) (msg : Str)
    (r : State × Session × List Send) (hr : command clk st se msg = Except.ok r) :
    (r.1.rooms = st.rooms ∧ r.1.clients = st.clients ∧ r.2.1 = se) ∨
    (∃ room, r.1.rooms = joinRooms st.rooms se.clientSock se.currentRoom room ∧
      r.1.clients = st.clients ∧ r.2.1 = { se with currentRoom := room }) := by
  simp only [command] at hr
  split at hr
  · obtain ⟨room, _, h1, h2⟩ := join_ok clk st se msg r hr
    exact Or.inr ⟨room, by rw [h1], by rw [h1], h2⟩
  left
  split at hr
  · obtain ⟨h1, h2⟩ := pm_frame clk st se msg r hr
    exact ⟨by rw [h1], by rw [h1], h2⟩
  split at hr
  · exact undo_membership clk st se r hr
  split at hr
  · simp only [help, pure, Except.pure, Except.ok.injEq] at hr
    subst hr; exact ⟨rfl, rfl, rfl⟩
  split at hr
  · obtain ⟨h1, h2⟩ := reply_cases clk st se msg r hr
    rcases h1 with h1 | ⟨text, h1⟩
    · exact ⟨by rw [h1], by rw [h1], h2⟩
    · exact ⟨by rw [h1]; rfl, by rw [h1]; rfl, h2⟩
  split at hr
  · obtain ⟨h1, h2⟩ := search_frame clk st se msg r hr
    exact ⟨by rw [h1], by rw [h1], h2⟩
  split at hr
  · exact redo_membership clk st se r hr
  split at hr
  · simp only [history, pure, Except.pure, Except.ok.injEq] at hr
    subst hr; exact ⟨rfl, rfl, rfl⟩
  · simp only [chat, pure, Except.pure, Except.ok.injEq] at hr
    subst hr; exact ⟨rfl, rfl, rfl⟩

end handleClient
theorem mem_replaceSession (sessions : List Session) (sock : SOCKET) (se1 x : Session) :
    x ∈ sessions.map (fun y => if y.clientSock = sock then se1 else y) ↔
      (x = se1 ∧ ∃ y ∈ sessions, y.clientSock = sock) ∨ (x ∈ sessions ∧ x.clientSock ≠ sock) := by
  simp only [List.mem_map]
  constructor
  · rintro ⟨y, hy, hxy⟩
    by_cases h : y.clientSock = sock
    · rw [if_pos h] at hxy
      exact Or.inl ⟨hxy.symm, y, hy, h⟩
    · rw [if_neg h] at hxy
      subst hxy
      exact Or.inr ⟨hy, h⟩
  · rintro (⟨rfl, y, hy, h⟩ | ⟨hx, h⟩)
    · exact ⟨y, hy, by rw [if_pos h]⟩
    · exact ⟨x, hx, by rw [if_neg h]⟩

theorem map_sock_replaceSession (sessions : List Session) (sock : SOCKET) (se1 : Session)
    (h : se1.clientSock = sock) :
    (sessions.map (fun y => if y.clientSock = sock then se1 else y)).map Session.clientSock =
      sessions.map Session.clientSock := by
  rw [List.map_map]
  apply List.map_congr_left
  intro y _
  simp only [Function.comp]
  split
  · rename_i hy; rw [h, hy]
  · rfl

theorem eq_of_sock_eq (sessions : List Session) (a b : Session)
    (hnd : (sessions.map Session.clientSock).Nodup) (ha : a ∈ sessions) (hb : b ∈ sessions)
    (h : a.clientSock = b.clientSock) : a = b :=
  List.inj_on_of_nodup_map hnd ha hb h

theorem Config.init_memInv : Config.init.MemInv := by
  refine ⟨by simp [Config.init], ?_, ?_, ?_, ?_, ?_⟩
  · intro se hse; simp [Config.init] at hse
  · intro r sock h; simp [Config.init, State.init, membersOf, mapFind] at h
  · intro se hse; simp [Config.init] at hse
  · intro sock h; simp [Config.init, State.init, mapFind] at h
  · intro r; simp [Config.init, State.init, membersOf, mapFind]

theorem register_memInv (c : Config) (clk : Clock) (sock : SOCKET) (username : Str)
    (h : c.MemInv) (hfresh : ∀ se ∈ c.sessions, se.clientSock ≠ sock) :
    Config.MemInv { st := (handleClient.register clk c.st sock username).1,
                    sessions := (handleClient.register clk c.st sock username).2.1 :: c.sessions } := by
  obtain ⟨h1, h2, h3, h4, h5, h6⟩ := h
  have hnot : ∀ r, sock ∉ membersOf c.st.rooms r := by
    intro r hm
    obtain ⟨se, hse, hs⟩ := h3 r sock hm
    exact hfresh se hse hs
  have hrooms : ∀ r, membersOf (handleClient.register clk c.st sock username).1.rooms r =
      if r = "chatroom".toList then setInsert sock (membersOf c.st.rooms "chatroom".toList)
      else membersOf c.st.rooms r := by
    intro r
    simp only [handleClient.register, membersOf_mapModify]
  have hclients : ∀ k, mapFind (handleClient.register clk c.st sock username).1.clients k =
      if k = sock then some username else mapFind c.st.clients k := by
    intro k
    simp only [handleClient.register, mapFind_mapModify]
  have hnew : (handleClient.register clk c.st sock username).2.1 =
      { clientSock := sock, username := username, currentRoom := "chatroom".toList } := rfl
  rw [hnew]
  refine ⟨?_, ?_, ?_, ?_, ?_, ?_⟩
  · simp only [List.map_cons, List.nodup_cons, List.mem_map, not_exists, not_and]
    exact ⟨fun se hse => hfresh se hse, h1⟩
  · intro se hse r
    simp only [hrooms]
    simp only [List.mem_cons] at hse
    rcases hse with rfl | hse
    · by_cases hr : r = "chatroom".toList
      · simp [hr, mem_setInsert]
      · simp only [hr, if_false, iff_false]
        exact hnot r
    · have hne := hfresh se hse
      rw [← h2 se hse r]
      split
      · rename_i hr
        simp [mem_setInsert, hne, hr]
      · rfl
  · intro r y hy
    simp only [hrooms] at hy
    split at hy
    · rcases (mem_setInsert _ _ _).mp hy with rfl | hy
      · exact ⟨_, List.mem_cons_self _ _, rfl⟩
      · obtain ⟨se, hse, hs⟩ := h3 _ y hy
        exact ⟨se, List.mem_cons_of_mem _ hse, hs⟩
    · obtain ⟨se, hse, hs⟩ := h3 _ y hy
      exact ⟨se, List.mem_cons_of_mem _ hse, hs⟩
  · intro se hse
    simp only [hclients]
    simp only [List.mem_cons] at hse
    rcases hse with rfl | hse
    · simp
    · simp only [hfresh se hse, if_false]
      exact h4 se hse
  · intro k hk
    simp only [hclients] at hk
    split at hk
    · rename_i hks
      exact ⟨_, List.mem_cons_self _ _, hks.symm⟩
    · obtain ⟨se, hse, hs⟩ := h5 k hk
      exact ⟨se, List.mem_cons_of_mem _ hse, hs⟩
  · intro r
    simp only [hrooms]
    split
    · exact nodup_setInsert _ _ (h6 _)
    · exact h6 _

theorem disconnect_memInv (c : Config) (clk : Clock) (se : Session)
    (h : c.MemInv) (hse : se ∈ c.sessions) :
    Config.MemInv { st := (handleClient.disconnect clk c.st se).1,
                    sessions := c.sessions.filter (fun x => decide (x.clientSock ≠ se.clientSock)) } := by
  obtain ⟨h1, h2, h3, h4, h5, h6⟩ := h
  have hrooms : ∀ r, membersOf (handleClient.disconnect clk c.st se).1.rooms r =
      if r = se.currentRoom then setErase se.clientSock (membersOf c.st.rooms se.currentRoom)
      else membersOf c.st.rooms r := by
    intro r
    simp only [handleClient.disconnect, membersOf_mapModify]
  have hclients : ∀ k, mapFind (handleClient.disconnect clk c.st se).1.clients k =
      if k = se.clientSock then none else mapFind c.st.clients k := by
    intro k
    simp only [handleClient.disconnect, mapFind_mapErase]
  have hmemf : ∀ x, x ∈ c.sessions.filter (fun x => decide (x.clientSock ≠ se.clientSock)) ↔
      x ∈ c.sessions ∧ x.clientSock ≠ se.clientSock := by
    intro x; simp [List.mem_filter]
  refine ⟨?_, ?_, ?_, ?_, ?_, ?_⟩
  · exact (List.Nodup.sublist (List.Sublist.map _ (List.filter_sublist _)) h1)
  · intro x hx r
    obtain ⟨hx1, hx2⟩ := (hmemf x).mp hx
    simp only [hrooms]
    rw [← h2 x hx1 r]
    split
    · rename_i hr
      simp [mem_setErase, hx2, hr]
    · rfl
  · intro r y hy
    simp only [hrooms] at hy
    have hy2 : y ≠ se.clientSock ∧ y ∈ membersOf c.st.rooms r := by
      split at hy
      · rename_i hr
        rw [hr]; exact (mem_setErase _ _ _).mp hy
      · rename_i hr
        refine ⟨?_, hy⟩
        rintro rfl
        exact hr ((h2 se hse r).mp hy)
    obtain ⟨x, hx, hs⟩ := h3 r y hy2.2
    exact ⟨x, (hmemf x).mpr ⟨hx, by rw [hs]; exact hy2.1⟩, hs⟩
  · intro x hx
    obtain ⟨hx1, hx2⟩ := (hmemf x).mp hx
    simp only [hclients, hx2, if_false]
    exact h4 x hx1
  · intro k hk
    simp only [hclients] at hk
    split at hk
    · exact absurd rfl hk
    · rename_i hks
      obtain ⟨x, hx, hs⟩ := h5 k hk
      exact ⟨x, (hmemf x).mpr ⟨hx, by rw [hs]; exact hks⟩, hs⟩
  · intro r
    simp only [hrooms]
    split
    · exact nodup_setErase _ _ (h6 _)
    · exact h6 _
theorem command_memInv (c : Config) (clk : Clock) (se : Session) (msg : Str)
    (r : State × Session × List Send) (h : c.MemInv) (hse : se ∈ c.sessions)
    (hr : handleClient.command clk c.st se msg = Except.ok r) :
    Config.MemInv { st := r.1,
                    sessions := c.sessions.map
                      (fun x => if x.clientSock = se.clientSock then r.2.1 else x) } := by
  obtain ⟨h1, h2, h3, h4, h5, h6⟩ := h
  rcases handleClient.command_membership clk c.st se msg r hr with
    ⟨e1, e2, e3⟩ | ⟨room, e1, e2, e3⟩
  · have hsame : c.sessions.map (fun x => if x.clientSock = se.clientSock then r.2.1 else x)
        = c.sessions := by
      rw [e3]
      conv_rhs => rw [← List.map_id c.sessions]
      apply List.map_congr_left
      intro x hx
      split
      · rename_i hxs
        exact (eq_of_sock_eq c.sessions x se h1 hx hse hxs).symm
      · rfl
    rw [hsame]
    simp only [Config.MemInv, e1, e2]
    exact ⟨h1, h2, h3, h4, h5, h6⟩
  · have hsock : r.2.1.clientSock = se.clientSock := by rw [e3]
    have hmem := mem_replaceSession c.sessions se.clientSock r.2.1
    refine ⟨?_, ?_, ?_, ?_, ?_, ?_⟩
    · show (List.map Session.clientSock (c.sessions.map _)).Nodup
      rw [map_sock_replaceSession c.sessions se.clientSock r.2.1 hsock]
      exact h1
    · intro x hx k
      show x.clientSock ∈ membersOf r.1.rooms k ↔ k = x.currentRoom
      rw [e1]
      rcases (hmem x).mp hx with ⟨rfl, _⟩ | ⟨hx1, hx2⟩
      · rw [e3]
        exact joinRooms_self c.st.rooms se.clientSock se.currentRoom room (h2 se hse) k
      · rw [joinRooms_other _ _ _ _ _ _ hx2]
        exact h2 x hx1 k
    · intro k y hy
      change y ∈ membersOf r.1.rooms k at hy
      rw [e1] at hy
      by_cases hys : y = se.clientSock
      · exact ⟨r.2.1, (hmem _).mpr (Or.inl ⟨rfl, se, hse, rfl⟩), by rw [hsock, hys]⟩
      · rw [joinRooms_other _ _ _ _ _ _ hys] at hy
        obtain ⟨x, hx, hs⟩ := h3 k y hy
        exact ⟨x, (hmem x).mpr (Or.inr ⟨hx, by rw [hs]; exact hys⟩), hs⟩
    · intro x hx
      show mapFind r.1.clients x.clientSock = some x.username
      rw [e2]
      rcases (hmem x).mp hx with ⟨rfl, _⟩ | ⟨hx1, _⟩
      · rw [e3]; exact h4 se hse
      · exact h4 x hx1
    · intro k hk
      change mapFind r.1.clients k ≠ none at hk
      rw [e2] at hk
      obtain ⟨x, hx, hs⟩ := h5 k hk
      by_cases hks : k = se.clientSock
      · exact ⟨r.2.1, (hmem _).mpr (Or.inl ⟨rfl, se, hse, rfl⟩), by rw [hsock, hks]⟩
      · exact ⟨x, (hmem x).mpr (Or.inr ⟨hx, by rw [hs]; exact hks⟩), hs⟩
    · intro k
      show (membersOf r.1.rooms k).Nodup
      rw [e1]
      exact joinRooms_nodup _ _ _ _ h6 k

theorem step_memInv (c : Config) (e : Event) (c1 : Config) (h : c.MemInv)
    (hs : c.step e = some c1) : c1.MemInv := by
  cases e with
  | accept clk sock payload =>
    simp only [Config.step] at hs
    split at hs
    · cases hs
    · rename_i hnone
      split at hs
      · cases hs; exact h
      · cases hs
        exact register_memInv c clk sock _ h (sessionOf_none _ _ hnone)
  | recv clk sock payload =>
    simp only [Config.step] at hs
    split at hs
    · cases hs
    · rename_i se hsome
      obtain ⟨hse, hsock⟩ := sessionOf_some _ _ _ hsome
      subst hsock
      split at hs
      · cases hs
        exact disconnect_memInv c clk se h hse
      · split at hs
        · cases hs
        · rename_i r hr
          cases hs
          exact command_memInv c clk se _ r h hse hr
  | worker clk =>
    simp only [Config.step, Option.some.injEq] at hs
    subst hs
    obtain ⟨_, _, _, h4, h5⟩ := broadcastWorker_ledger clk c.st
    simpa only [Config.MemInv, h4, h5] using h

theorem Reachable.memInv (c : Config) (hc : Reachable c) : c.MemInv :=
  Reachable.induction (fun c => c.MemInv) Config.init_memInv
    (fun c e c1 h hs => step_memInv c e c1 h hs) c hc

theorem take_npos (s : Str) (h : s.length < 2 ^ 64) : s.take npos = s :=
  List.take_of_length_le (by unfold npos; omega)

theorem substr_append (pre s : Str) (h : (pre ++ s).length < 2 ^ 64) :
    substr (pre ++ s) pre.length npos = Except.ok s := by
  have hs : s.length < 2 ^ 64 := by
    simp only [List.length_append] at h; omega
  simp only [substr, List.length_append]
  rw [if_neg (by omega), List.drop_left, take_npos s hs]

namespace handleClient

theorem command_join (clk : Clock) (st : State) (se : Session) (R : Str) :
    command clk st se ("/join ".toList ++ R) = join clk st se ("/join ".toList ++ R) := rfl

end handleClient

/-- C6: when a connection is a member of exactly its session's current room,
`/join R` succeeds, the session's current room becomes `R`, the connection is
a member of `R` and of no other room, the member sets of all rooms other than
the old one and `R` are unchanged, and no other connection moves; hence in
every reachable configuration a registered connection is a member of exactly
one room. -/
theorem C6_join_exactly_one_room :
    (∀ (clk : Clock) (st : State) (se : Session) (R : Str),
      ("/join ".toList ++ R).length < 2 ^ 64 →
      (∀ r, se.clientSock ∈ membersOf st.rooms r ↔ r = se.currentRoom) →
      ∃ st1 out,
        handleClient.command clk st se ("/join ".toList ++ R) =
          Except.ok (st1, { se with currentRoom := R }, out) ∧
        se.clientSock ∈ membersOf st1.rooms R ∧
        (∀ r, r ≠ R → se.clientSock ∉ membersOf st1.rooms r) ∧
        (∀ r, r ≠ se.currentRoom → r ≠ R → membersOf st1.rooms r = membersOf st.rooms r) ∧
        (∀ r y, y ≠ se.clientSock → (y ∈ membersOf st1.rooms r ↔ y ∈ membersOf st.rooms r)) ∧
        st1.clients = st.clients) ∧
    (∀ c, Reachable c → ∀ sock, mapFind c.st.clients sock ≠ none →
      ∃! r, sock ∈ membersOf c.st.rooms r) := by
  constructor
  · intro clk st se R hlen hmem
    have hsub : substr ("/join ".toList ++ R) 6 npos = Except.ok R :=
      substr_append "/join ".toList R hlen
    have hjoin : ∃ out, handleClient.join clk st se ("/join ".toList ++ R) =
        Except.ok ({ st with rooms := joinRooms st.rooms se.clientSock se.currentRoom R },
          { se with currentRoom := R }, out) := by
      simp only [handleClient.join, hsub, bind, Except.bind, pure, Except.pure]
      exact ⟨_, rfl⟩
    obtain ⟨out, hout⟩ := hjoin
    refine ⟨{ st with rooms := joinRooms st.rooms se.clientSock se.currentRoom R }, out, ?_,
      ?_, ?_, ?_, ?_, rfl⟩
    · rw [handleClient.command_join]
      exact hout
    · exact (joinRooms_self st.rooms se.clientSock se.currentRoom R hmem R).mpr rfl
    · intro r hr hin
      exact hr ((joinRooms_self st.rooms se.clientSock se.currentRoom R hmem r).mp hin)
    · intro r h1 h2
      exact joinRooms_unchanged _ _ _ _ _ h1 h2
    · intro r y hy
      exact joinRooms_other _ _ _ _ _ _ hy
  · intro c hc sock hreg
    obtain ⟨_, h2, _, _, h5, _⟩ := Reachable.memInv c hc
    obtain ⟨se, hse, hs⟩ := h5 sock hreg
    subst hs
    exact ⟨se.currentRoom, (h2 se hse _).mpr rfl, fun r hr => (h2 se hse r).mp hr⟩

/-- C6 at scenario D: `X`, a member of `R1` only, sends `/join R2`; and socket
1 is in exactly one room of scenario D. -/
theorem C6_join_exactly_one_room_witness :
    (("/join ".toList ++ "R2".toList).length < 2 ^ 64 ∧
      (∀ r, sessionXD.clientSock ∈ membersOf scenarioD.st.rooms r ↔ r = sessionXD.currentRoom) ∧
      Reachable scenarioD ∧ mapFind scenarioD.st.clients 1 ≠ none) ∧
    (∃ st1 out,
        handleClient.command noon scenarioD.st sessionXD ("/join ".toList ++ "R2".toList) =
          Except.ok (st1, { sessionXD with currentRoom := "R2".toList }, out) ∧
        sessionXD.clientSock ∈ membersOf st1.rooms "R2".toList ∧
        (∀ r, r ≠ "R2".toList → sessionXD.clientSock ∉ membersOf st1.rooms r) ∧
        (∀ r, r ≠ sessionXD.currentRoom → r ≠ "R2".toList →
          membersOf st1.rooms r = membersOf scenarioD.st.rooms r) ∧
        (∀ r y, y ≠ sessionXD.clientSock →
          (y ∈ membersOf st1.rooms r ↔ y ∈ membersOf scenarioD.st.rooms r)) ∧
        st1.clients = scenarioD.st.clients) ∧
    (∃! r, (1 : SOCKET) ∈ membersOf scenarioD.st.rooms r) := by
  have hmem : ∀ r, sessionXD.clientSock ∈ membersOf scenarioD.st.rooms r ↔
      r = sessionXD.currentRoom :=
    (Reachable.memInv scenarioD scenarioD_reachable).2.1 sessionXD (by decide)
  exact ⟨⟨by decide, hmem, scenarioD_reachable, by decide⟩,
    C6_join_exactly_one_room.1 noon scenarioD.st sessionXD "R2".toList (by decide) hmem,
    C6_join_exactly_one_room.2 scenarioD scenarioD_reachable 1 (by decide)⟩

/-! ## The broadcast worker -/

theorem mapFind_of_mem {K V : Type} [DecidableEq K] (m : List (K × V)) (k : K) (v : V)
    (h : (k, v) ∈ m) : mapFind m k ≠ none := by
  induction m with
  | nil => cases h
  | cons p rest ih =>
    obtain ⟨a, w⟩ := p
    by_cases ha : a = k
    · simp [mapFind, ha]
    · simp only [mapFind, ha, if_false]
      rcases List.mem_cons.mp h with h1 | h1
      · exact absurd (Prod.mk.inj h1).1.symm ha
      · exact ih h1

theorem scanMembers_cases (clients : List (SOCKET × Str)) (sender name : Str)
    (members : List SOCKET) (acc : Str) :
    scanMembers clients sender name members acc = acc ∨
    scanMembers clients sender name members acc = name := by
  induction members with
  | nil => exact Or.inl rfl
  | cons c rest ih =>
    simp only [scanMembers]
    split
    · exact Or.inr rfl
    · exact ih

theorem findTargetRoom_cases (clients : List (SOCKET × Str)) (sender : Str)
    (rooms : List (Str × List SOCKET)) (acc : Str) :
    findTargetRoom clients sender rooms acc = acc ∨
    ∃ members, (findTargetRoom clients sender rooms acc, members) ∈ rooms := by
  induction rooms generalizing acc with
  | nil => exact Or.inl rfl
  | cons p rest ih =>
    obtain ⟨name, members⟩ := p
    simp only [findTargetRoom]
    rcases scanMembers_cases clients sender name members acc with h | h
    · rw [h]
      split
      · exact Or.inl rfl
      · rcases ih acc with h1 | ⟨mem, h1⟩
        · exact Or.inl h1
        · exact Or.inr ⟨mem, List.mem_cons_of_mem _ h1⟩
    · rw [h]
      split
      · exact Or.inr ⟨members, List.mem_cons_self _ _⟩
      · rcases ih name with h1 | ⟨mem, h1⟩
        · rw [h1]; exact Or.inr ⟨members, List.mem_cons_self _ _⟩
        · exact Or.inr ⟨mem, List.mem_cons_of_mem _ h1⟩

theorem dispatch_of_resolved (clk : Clock) (clients : List (SOCKET × Str))
    (rooms : List (Str × List SOCKET)) (msg : Message)
    (h : targetRoomOf clients rooms msg ≠ []) :
    dispatch clk clients rooms msg =
      fanOut clients msg.sender (msg.toString (clk.str 0) ++ "\n".toList)
        ("[".toList ++ clk.str 1 ++ "] ".toList ++ "\n".toList)
        (membersOf rooms (targetRoomOf clients rooms msg)) := by
  have hfound : mapFind rooms (targetRoomOf clients rooms msg) ≠ none := by
    rcases findTargetRoom_cases clients msg.sender rooms [] with h1 | ⟨mem, h1⟩
    · exact absurd h1 h
    · exact mapFind_of_mem _ _ _ h1
  simp only [dispatch]
  rw [if_neg (by simp only [not_or]; exact ⟨h, hfound⟩)]

theorem fanOut_filter (clients : List (SOCKET × Str)) (sender fullMsg echo : Str)
    (l : List SOCKET) (hnd : l.Nodup) (c : SOCKET) :
    (fanOut clients sender fullMsg echo l).filter (fun s => decide (s.1 = c)) =
      if c ∈ l then
        match mapFind clients c with
        | some name => [if name = sender then (c, echo) else (c, fullMsg)]
        | none => []
      else [] := by
  induction l with
  | nil => simp [fanOut]
  | cons a rest ih =>
    simp only [List.nodup_cons] at hnd
    have ih1 := ih hnd.2
    by_cases hac : a = c
    · subst hac
      have hnot : a ∉ rest := hnd.1
      simp only [hnot, if_false] at ih1
      simp only [fanOut, List.mem_cons, true_or, if_true]
      cases hf : mapFind clients a with
      | none => simpa using ih1
      | some name =>
        simp only [List.filter_cons, ih1]
        split <;> simp
    · have hca : ¬ c = a := fun e => hac e.symm
      simp only [fanOut, List.mem_cons, hca, false_or]
      cases hf : mapFind clients a with
      | none => simpa using ih1
      | some name =>
        simp only [List.filter_cons]
        have : decide ((if name = sender then (a, echo) else (a, fullMsg)).1 = c) = false := by
          split <;> simp [hac]
        rw [this]
        simpa using ih1

theorem findFrom_space (pre post : Str) (i : Nat) (h : ' ' ∉ pre) :
    findFrom " ".toList (pre ++ ' ' :: post) i = some (i + pre.length) := by
  induction pre generalizing i with
  | nil => simp [findFrom]
  | cons c cs ih =>
    simp only [List.mem_cons, not_or] at h
    have hc : ¬ c = ' ' := fun e => h.1 e.symm
    have hp : List.isPrefixOf " ".toList (c :: (cs ++ ' ' :: post)) = false := by
      simp [List.isPrefixOf, hc, h.1]
    rw [List.cons_append, findFrom, if_neg (by rw [hp]; simp), ih (i + 1) h.2, List.length_cons,
      Option.some.injEq]
    omega

theorem findUser_first (targetName : Str) (clients : List (SOCKET × Str))
    (h : ∃ c, (c, targetName) ∈ clients) :
    ∃ target before after, clients = before ++ (target, targetName) :: after ∧
      (∀ p ∈ before, p.2 ≠ targetName) ∧ findUser targetName clients none = some target := by
  induction clients with
  | nil => obtain ⟨c, hc⟩ := h; cases hc
  | cons p rest ih =>
    obtain ⟨s, name⟩ := p
    by_cases hn : name = targetName
    · subst hn
      refine ⟨s, [], rest, rfl, ?_, ?_⟩
      · intro p hp; cases hp
      · simp only [findUser, if_true]
    · have h1 : ∃ c, (c, targetName) ∈ rest := by
        obtain ⟨c, hc⟩ := h
        rcases List.mem_cons.mp hc with e | e
        · exact absurd (Prod.mk.inj e).2.symm hn
        · exact ⟨c, e⟩
      obtain ⟨target, before, after, e1, e2, e3⟩ := ih h1
      refine ⟨target, (s, name) :: before, after, by rw [e1]; rfl, ?_, ?_⟩
      · intro p hp
        rcases List.mem_cons.mp hp with e | e
        · rw [e]; exact hn
        · exact e2 p e
      · simp only [findUser, hn, if_false]; exact e3

namespace handleClient

theorem command_pm (clk : Clock) (st : State) (se : Session) (rest : Str) :
    command clk st se ("/pm ".toList ++ rest) = pm clk st se ("/pm ".toList ++ rest) := rfl

end handleClient

/-- C8: when some connection is registered under `Y` (a name without spaces),
`/pm Y text` from session `se` sends `[t][PM from X]: text\n` to the first
connection registered as `Y` in the iteration order of `clients`, then
`[t][PM to Y]: text\n` to the caller's own connection, sends nothing else and
leaves the whole state (membership, ledger, stacks, queue, counter) as it
was.  The two time stamps are two readings of the clock. -/
theorem C8_pm_delivery (clk : Clock) (st : State) (se : Session) (Y text : Str)
    (hY : ' ' ∉ Y)
    (hlen : ("/pm ".toList ++ Y ++ " ".toList ++ text).length < 2 ^ 64)
    (hreg : ∃ c, (c, Y) ∈ st.clients) :
    ∃ target before after,
      st.clients = before ++ (target, Y) :: after ∧
      (∀ p ∈ before, p.2 ≠ Y) ∧
      handleClient.command clk st se ("/pm ".toList ++ Y ++ " ".toList ++ text) =
        Except.ok (st, se,
          [(target, "[".toList ++ clk.str 0 ++ "][PM from ".toList ++ se.username ++
              "]: ".toList ++ text ++ "\n".toList),
           (se.clientSock, "[".toList ++ clk.str 1 ++ "][PM to ".toList ++ Y ++
              "]: ".toList ++ text ++ "\n".toList)]) := by
  obtain ⟨target, before, after, e1, e2, e3⟩ := findUser_first Y st.clients hreg
  refine ⟨target, before, after, e1, e2, ?_⟩
  have hmsg : "/pm ".toList ++ Y ++ " ".toList ++ text = "/pm ".toList ++ (Y ++ ' ' :: text) := by
    simp
  rw [hmsg] at hlen ⊢
  have hl : (Y ++ ' ' :: text).length < 2 ^ 64 := by
    simp only [List.length_append, List.length_cons] at hlen ⊢; omega
  have hYl : Y.length + 1 + text.length < 2 ^ 64 := by
    simp only [List.length_append, List.length_cons] at hl; omega
  have hrest : substr ("/pm ".toList ++ (Y ++ ' ' :: text)) 4 npos = Except.ok (Y ++ ' ' :: text) :=
    substr_append "/pm ".toList _ hlen
  have hfind : find (Y ++ ' ' :: text) " ".toList = some Y.length := by
    rw [find, findFrom_space Y text 0 hY, Nat.zero_add]
  have hname : substr (Y ++ ' ' :: text) 0 (sizeT (some Y.length)) = Except.ok Y := by
    simp [substr, sizeT]
  have hpos : (sizeT (some Y.length) + 1) % 2 ^ 64 = Y.length + 1 := by
    simp only [sizeT]; exact Nat.mod_eq_of_lt (by omega)
  have htext : substr (Y ++ ' ' :: text) (Y.length + 1) npos = Except.ok text := by
    have := substr_append (Y ++ [' ']) text (by simp; omega)
    simpa using this
  rw [handleClient.command_pm]
  simp only [handleClient.pm, hrest, hfind, hname, hpos, htext, bind, Except.bind, e3,
    pure, Except.pure]

/-- C8 at scenario E: in scenario D, `X` sends `/pm Y secret`. -/
theorem C8_pm_delivery_witness :
    (' ' ∉ "Y".toList ∧
      ("/pm ".toList ++ "Y".toList ++ " ".toList ++ "secret".toList).length < 2 ^ 64 ∧
      ∃ c, (c, "Y".toList) ∈ scenarioD.st.clients) ∧
    (∃ target before after,
      scenarioD.st.clients = before ++ (target, "Y".toList) :: after ∧
      (∀ p ∈ before, p.2 ≠ "Y".toList) ∧
      handleClient.command noon scenarioD.st sessionXD
          ("/pm ".toList ++ "Y".toList ++ " ".toList ++ "secret".toList) =
        Except.ok (scenarioD.st, sessionXD,
          [(target, "[".toList ++ noon.str 0 ++ "][PM from ".toList ++ sessionXD.username ++
              "]: ".toList ++ "secret".toList ++ "\n".toList),
           (sessionXD.clientSock, "[".toList ++ noon.str 1 ++ "][PM to ".toList ++ "Y".toList ++
              "]: ".toList ++ "secret".toList ++ "\n".toList)])) ∧
    handleClient.command noon scenarioD.st sessionXD "/pm Y secret".toList =
      Except.ok (scenarioD.st, sessionXD,
        [(2, "[12:00:00][PM from X]: secret\n".toList),
         (1, "[12:00:00][PM to Y]: secret\n".toList)]) :=
  ⟨⟨by decide, by decide, 2, by decide⟩,
   C8_pm_delivery noon scenarioD.st sessionXD "Y".toList "secret".toList (by decide) (by decide)
     ⟨2, by decide⟩,
   by decide⟩

/-- C9 fails on the code: the bare commands `/pm` and `/reply` end the handler
with `std::out_of_range` whatever the state; `/pm Y` delivers the private
message `Y` to `Y`, and `/reply Y` appends `-> Y: Y` to the ledger, instead of
an error reply.  `/search` has the guard the other two lack: the bare command
and the command followed by a space are answered with the usage line.  `/pm `
and `/reply ` are answered "not found" when nobody is registered under the
empty name. -/
theorem C9_missing_arguments_fault :
    (∀ (clk : Clock) (st : State) (se : Session),
      handleClient.command clk st se "/pm".toList = Except.error Fault.outOfRange) ∧
    (∀ (clk : Clock) (st : State) (se : Session),
      handleClient.command clk st se "/reply".toList = Except.error Fault.outOfRange) ∧
    handleClient.command noon scenarioD.st sessionXD "/pm Y".toList =
      Except.ok (scenarioD.st, sessionXD,
        [(2, "[12:00:00][PM from X]: Y\n".toList), (1, "[12:00:00][PM to Y]: Y\n".toList)]) ∧
    handleClient.command noon scenarioD.st sessionXD "/reply Y".toList =
      Except.ok (postMessage noon scenarioD.st "X".toList "-> Y: Y".toList, sessionXD, []) ∧
    (postMessage noon scenarioD.st "X".toList "-> Y: Y".toList).roomHistory.getMessages.getLast? =
      some { id := 9, sender := "X".toList, text := "-> Y: Y".toList, timestamp := 0 } ∧
    (∀ (clk : Clock) (st : State) (se : Session),
      handleClient.command clk st se "/search".toList =
        Except.ok (st, se, [(se.clientSock, stamped (clk.str 0) "Usage: /search <keyword>\n".toList)])) ∧
    (∀ (clk : Clock) (st : State) (se : Session),
      handleClient.command clk st se "/search ".toList =
        Except.ok (st, se, [(se.clientSock, stamped (clk.str 0) "Usage: /search <keyword>\n".toList)])) ∧
    handleClient.command noon scenarioD.st sessionXD "/pm ".toList =
      Except.ok (scenarioD.st, sessionXD, [(1, "[12:00:00] User not found.\n".toList)]) ∧
    handleClient.command noon scenarioD.st sessionXD "/reply ".toList =
      Except.ok (scenarioD.st, sessionXD, [(1, "[12:00:00] User '' not found.\n".toList)]) :=
  ⟨fun _ _ _ => rfl, fun _ _ _ => rfl, by decide, by decide, by decide,
   fun _ _ _ => rfl, fun _ _ _ => rfl, by decide, by decide⟩

/-- C10 fails on the code: in the empty-room scenario (reached by `/join `
followed by `hi`), the room with the empty name has the member 1, registered
under the sender's name `X`, yet the search ends with `targetRoom` empty, which
the worker reads as "no room found": the message is dropped and nothing is
sent, not even the echo. -/
theorem C10_empty_room_name_drops :
    Config.init.run emptyRoomEvents = some scenarioEmptyRoom ∧
    scenarioEmptyRoom.st.messageQueue.pop = some (messageA, { messages := [], shutdown := false }) ∧
    membersOf scenarioEmptyRoom.st.rooms [] = [1] ∧
    mapFind scenarioEmptyRoom.st.clients 1 = some messageA.sender ∧
    targetRoomOf scenarioEmptyRoom.st.clients scenarioEmptyRoom.st.rooms messageA = [] ∧
    dispatch noon scenarioEmptyRoom.st.clients scenarioEmptyRoom.st.rooms messageA = [] ∧
    (broadcastWorker noon scenarioEmptyRoom.st).2 = [] := by
  refine ⟨by decide, by decide, by decide, by decide, by decide, by decide, by decide⟩

theorem scanMembers_eq (clients : List (SOCKET × Str)) (sender name : Str)
    (members : List SOCKET) (acc : Str) :
    scanMembers clients sender name members acc =
      if ∃ c ∈ members, mapFind clients c = some sender then name else acc := by
  induction members with
  | nil => simp [scanMembers]
  | cons c rest ih =>
    simp only [scanMembers]
    by_cases hc : mapFind clients c = some sender
    · simp [hc]
    · simp only [hc, if_false, ih, List.mem_cons, exists_eq_or_imp, false_or]

theorem findTargetRoom_ne_nil (clients : List (SOCKET × Str)) (sender : Str)
    (rooms : List (Str × List SOCKET)) :
    (findTargetRoom clients sender rooms [] ≠ [] ↔
      ∃ p ∈ rooms, p.1 ≠ [] ∧ ∃ c ∈ p.2, mapFind clients c = some sender) ∧
    (findTargetRoom clients sender rooms [] ≠ [] →
      ∃ members, (findTargetRoom clients sender rooms [], members) ∈ rooms ∧
        ∃ c ∈ members, mapFind clients c = some sender) := by
  induction rooms with
  | nil => simp [findTargetRoom]
  | cons p rest ih =>
    obtain ⟨name, members⟩ := p
    simp only [findTargetRoom, scanMembers_eq]
    by_cases hs : ∃ c ∈ members, mapFind clients c = some sender
    · by_cases hn : name = []
      · subst hn
        simp only [hs, if_true, ne_eq, not_true_eq_false, if_false, List.mem_cons,
          exists_eq_or_imp, false_and, false_or]
        refine ⟨ih.1, fun h => ?_⟩
        obtain ⟨mem, h1, h2⟩ := ih.2 h
        exact ⟨mem, Or.inr h1, h2⟩
      · simp only [hs, if_true, ne_eq, hn, not_false_eq_true, List.mem_cons, exists_eq_or_imp,
          true_and, true_or, true_iff, forall_true_left]
        exact ⟨members, Or.inl rfl, hs⟩
    · simp only [hs, if_false, ne_eq, not_true_eq_false, List.mem_cons, exists_eq_or_imp,
        and_false, false_or]
      refine ⟨ih.1, fun h => ?_⟩
      obtain ⟨mem, h1, h2⟩ := ih.2 h
      exact ⟨mem, Or.inr h1, h2⟩

theorem mapFind_of_mem_nodup {K V : Type} [DecidableEq K] (m : List (K × V)) (k : K) (v : V)
    (hnd : (m.map Prod.fst).Nodup) (h : (k, v) ∈ m) : mapFind m k = some v := by
  induction m with
  | nil => cases h
  | cons p rest ih =>
    obtain ⟨a, w⟩ := p
    simp only [List.map_cons, List.nodup_cons, List.mem_map, not_exists, not_and] at hnd
    rcases List.mem_cons.mp h with h1 | h1
    · obtain ⟨e1, e2⟩ := Prod.mk.inj h1
      subst e1 e2
      simp [mapFind]
    · have hak : a ≠ k := fun e => hnd.1 (k, v) h1 e.symm
      simp only [mapFind, hak, if_false]
      exact ih hnd.2 h1

theorem fanOut_ne_nil (clients : List (SOCKET × Str)) (sender fullMsg echo : Str)
    (l : List SOCKET) (h : ∃ c ∈ l, mapFind clients c = some sender) :
    fanOut clients sender fullMsg echo l ≠ [] := by
  induction l with
  | nil => obtain ⟨c, hc, _⟩ := h; cases hc
  | cons a rest ih =>
    simp only [fanOut]
    cases hf : mapFind clients a with
    | some name => simp
    | none =>
      simp only
      apply ih
      obtain ⟨c, hc, h1⟩ := h
      rcases List.mem_cons.mp hc with e | e
      · subst e; rw [hf] at h1; cases h1
      · exact ⟨c, e, h1⟩

/-- What the worker does instead of C10: with distinct room keys, a dequeued
message is dropped exactly when no room with a non-empty name has a member
registered under the sender's name. -/
theorem dispatch_eq_nil_iff (clk : Clock) (clients : List (SOCKET × Str))
    (rooms : List (Str × List SOCKET)) (msg : Message)
    (hkeys : (rooms.map Prod.fst).Nodup) :
    dispatch clk clients rooms msg = [] ↔
      ¬ ∃ p ∈ rooms, p.1 ≠ [] ∧ ∃ c ∈ p.2, mapFind clients c = some msg.sender := by
  obtain ⟨h1, h2⟩ := findTargetRoom_ne_nil clients msg.sender rooms
  rw [← h1]
  by_cases ht : targetRoomOf clients rooms msg = []
  · have ht1 : findTargetRoom clients msg.sender rooms [] = [] := ht
    simp [dispatch, ht, ht1]
  · have ht1 : findTargetRoom clients msg.sender rooms [] ≠ [] := ht
    obtain ⟨mem, hm1, hm2⟩ := h2 ht1
    have hmem : membersOf rooms (targetRoomOf clients rooms msg) = mem := by
      simp only [membersOf, targetRoomOf, mapFind_of_mem_nodup rooms _ mem hkeys hm1,
        Option.getD_some]
    rw [dispatch_of_resolved clk clients rooms msg ht, hmem]
    simp only [ne_eq, ht1, not_false_eq_true, not_true_eq_false, iff_false]
    exact fanOut_ne_nil _ _ _ _ _ hm2

/-! ## What a command does to the message data -/

namespace handleClient

theorem undo_effect (clk : Clock) (st : State) (se : Session)
    (r : State × Session × List Send) (h : undo clk st se = Except.ok r) :
    r.1 = st ∨ ∃ m u, st.undoRedo.undo = some (m, u) ∧
      r.1 = { st with undoRedo := u, roomHistory := st.roomHistory.removeMessage m.id } := by
  simp only [undo] at h
  split at h
  · rename_i m u heq
    simp only [pure, Except.pure, Except.ok.injEq] at h
    subst h
    exact Or.inr ⟨m, u, heq, rfl⟩
  · simp only [pure, Except.pure, Except.ok.injEq] at h
    subst h
    exact Or.inl rfl

theorem redo_effect (clk : Clock) (st : State) (se : Session)
    (r : State × Session × List Send) (h : redo clk st se = Except.ok r) :
    r.1 = st ∨ ∃ m u, st.undoRedo.redo = some (m, u) ∧
      r.1 = { st with undoRedo := u, roomHistory := st.roomHistory.addMessage m,
                      messageQueue := st.messageQueue.push m } := by
  simp only [redo] at h
  split at h
  · rename_i m u heq
    simp only [pure, Except.pure, Except.ok.injEq] at h
    subst h
    exact Or.inr ⟨m, u, heq, rfl⟩
  · simp only [pure, Except.pure, Except.ok.injEq] at h
    subst h
    exact Or.inl rfl

/-- A successful turn of the loop does one of four things to the message
data: nothing, a post of a new message, an undo, or a redo. -/
theorem command_effect (clk : Clock) (st : State) (se : Session) (msg : Str)
    (r : State × Session × List Send) (hr : command clk st se msg = Except.ok r) :
    st.SameLedger r.1 ∨
    (∃ text, r.1 = postMessage clk st se.username text) ∨
    (∃ m u, st.undoRedo.undo = some (m, u) ∧
      r.1 = { st with undoRedo := u, roomHistory := st.roomHistory.removeMessage m.id }) ∨
    (∃ m u, st.undoRedo.redo = some (m, u) ∧
      r.1 = { st with undoRedo := u, roomHistory := st.roomHistory.addMessage m,
                      messageQueue := st.messageQueue.push m }) := by
  have same : ∀ {s : State}, s = st → st.SameLedger s := by
    intro s hs; subst hs; exact ⟨rfl, rfl, rfl, rfl⟩
  simp only [command] at hr
  split at hr
  · exact Or.inl (join_frame clk st se msg r hr).1
  split at hr
  · exact Or.inl (same (pm_frame clk st se msg r hr).1)
  split at hr
  · rcases undo_effect clk st se r hr with h | h
    · exact Or.inl (same h)
    · exact Or.inr (Or.inr (Or.inl h))
  split at hr
  · simp only [help, pure, Except.pure, Except.ok.injEq] at hr
    subst hr; exact Or.inl ⟨rfl, rfl, rfl, rfl⟩
  split at hr
  · rcases (reply_cases clk st se msg r hr).1 with h | h
    · exact Or.inl (same h)
    · exact Or.inr (Or.inl h)
  split at hr
  · exact Or.inl (same (search_frame clk st se msg r hr).1)
  split at hr
  · rcases redo_effect clk st se r hr with h | h
    · exact Or.inl (same h)
    · exact Or.inr (Or.inr (Or.inr h))
  split at hr
  · simp only [history, pure, Except.pure, Except.ok.injEq] at hr
    subst hr; exact Or.inl ⟨rfl, rfl, rfl, rfl⟩
  · simp only [chat, pure, Except.pure, Except.ok.injEq] at hr
    subst hr; exact Or.inr (Or.inl ⟨msg, rfl⟩)

end handleClient

/-! ## Undo and redo stacks -/

namespace UndoRedo

theorem undo_timeline (u u1 : UndoRedo) (m : Message) (h : u.undo = some (m, u1)) :
    u.undoStack = m :: u1.undoStack ∧ u1.redoStack = m :: u.redoStack ∧
    u1.timeline = u.timeline := by
  simp only [undo] at h
  split at h
  · cases h
  · rename_i a rest hstack
    simp only [Option.some.injEq, Prod.mk.injEq] at h
    obtain ⟨h1, h2⟩ := h
    subst h1 h2
    refine ⟨hstack, rfl, ?_⟩
    simp [timeline, hstack]

theorem redo_timeline (u u1 : UndoRedo) (m : Message) (h : u.redo = some (m, u1)) :
    u.redoStack = m :: u1.redoStack ∧ u1.undoStack = m :: u.undoStack ∧
    u1.timeline = u.timeline := by
  simp only [redo] at h
  split at h
  · cases h
  · rename_i a rest hstack
    simp only [Option.some.injEq, Prod.mk.injEq] at h
    obtain ⟨h1, h2⟩ := h
    subst h1 h2
    refine ⟨hstack, rfl, ?_⟩
    simp [timeline, hstack]

end UndoRedo

/-! ## The ledger and the undo stack -/

theorem suffix_concat_of_suffix {α : Type} (l xs : List α) (a : α) (h : l <:+ xs) :
    l ++ [a] <:+ xs ++ [a] := by
  obtain ⟨t, ht⟩ := h
  exact ⟨t, by rw [← ht, List.append_assoc]⟩

theorem History.addMessage_suffix (h : History) (m : Message) (xs : List Message)
    (hwf : h.WF) (hC : 1 ≤ h.maxSize) (hs : h.nodes <:+ xs) :
    (h.addMessage m).nodes <:+ xs ++ [m] := by
  rw [(History.addMessage_nodes h m hwf hC).1]
  split
  · exact suffix_concat_of_suffix _ _ _ hs
  · exact suffix_concat_of_suffix _ _ _ ((List.tail_suffix _).trans hs)

/-! ## The counter as an `int` -/

theorem wrapInt_eq (x : Int) : wrapInt x = (x + 2147483648) % 4294967296 - 2147483648 := by
  simp only [wrapInt]; norm_num

theorem wrapInt_of_range (x : Int) (h1 : -2147483648 ≤ x) (h2 : x < 2147483648) :
    wrapInt x = x := by
  rw [wrapInt_eq]; omega

theorem wrapInt_succ_ne (x : Int) : wrapInt (x + 1) ≠ x := by
  rw [wrapInt_eq]; omega

/-! ## A turn run alone, and the interleaved server -/

namespace handleClient

theorem whole_map (clk : Clock) (r : Except Fault (State × Session × List Send)) :
    (whole r).map (fun r =>
      ((Pending.finish clk r.2.1 5 r.1 r.2.2.2).1, r.2.1,
       r.2.2.1 ++ (Pending.finish clk r.2.1 5 r.1 r.2.2.2).2)) = r := by
  cases r with
  | error e => rfl
  | ok x =>
    obtain ⟨a, b, c⟩ := x
    simp [whole, Except.map, Pending.finish]

/-- A turn that no other thread interrupts is the turn run action by action. -/
theorem command_eq_uninterrupted (clk : Clock) (st : State) (se : Session) (msg : Str) :
    command clk st se msg = uninterrupted clk st se msg := by
  simp only [command, uninterrupted, start]
  split
  · rw [whole_map]
  split
  · rw [whole_map]
  split
  · simp only [undo, undoStart]
    cases h : st.undoRedo.undo with
    | none => rfl
    | some p => rfl
  split
  · rw [whole_map]
  split
  · simp only [reply, replyStart, bind, Except.bind]
    cases substr msg 7 npos with
    | error e => rfl
    | ok rest =>
      simp only
      cases substr rest 0 (sizeT (find rest " ".toList)) with
      | error e => rfl
      | ok targetName =>
        simp only
        cases substr rest ((sizeT (find rest " ".toList) + 1) % 2 ^ 64) npos with
        | error e => rfl
        | ok text =>
          simp only
          cases findUser targetName st.clients none with
          | none => rfl
          | some s => rfl
  split
  · rw [whole_map]
  split
  · simp only [redo, redoStart]
    cases h : st.undoRedo.redo with
    | none => rfl
    | some p => rfl
  split
  · rw [whole_map]
  · rfl

end handleClient

theorem threadOf_map (sessions : List Session) (sock : SOCKET) :
    threadOf (sessions.map (fun se => ({ session := se, pending := none } : Thread))) sock =
      (sessionOf sessions sock).map (fun se => { session := se, pending := none }) := by
  induction sessions with
  | nil => rfl
  | cons a rest ih =>
    simp only [threadOf, sessionOf, List.map_cons, List.find?_cons] at ih ⊢
    by_cases h : a.clientSock = sock
    · simp [h]
    · simp only [h, decide_False]
      exact ih

theorem threadOf_sock (threads : List Thread) (sock : SOCKET) (t : Thread)
    (h : threadOf threads sock = some t) : t.session.clientSock = sock := by
  have := List.find?_some h
  simpa using this

theorem threadOf_setThread (threads : List Thread) (sock : SOCKET) (t0 t : Thread)
    (h : threadOf threads sock = some t0) (ht : t.session.clientSock = sock) :
    threadOf (setThread threads sock t) sock = some t := by
  induction threads with
  | nil => cases h
  | cons a rest ih =>
    simp only [threadOf, setThread, List.map_cons, List.find?_cons] at h ih ⊢
    by_cases ha : a.session.clientSock = sock
    · simp [ha, ht]
    · simp only [ha, if_false, decide_False] at h ⊢
      exact ih h

theorem setThread_setThread (threads : List Thread) (sock : SOCKET) (t t2 : Thread)
    (ht : t.session.clientSock = sock) :
    setThread (setThread threads sock t) sock t2 = setThread threads sock t2 := by
  simp only [setThread, List.map_map]
  apply List.map_congr_left
  intro x _
  simp only [Function.comp]
  by_cases hx : x.session.clientSock = sock
  · simp [hx, ht]
  · simp [hx]

theorem Pending.step_rank (clk : Clock) (se : Session) (st : State) (p : Pending) :
    ((p.step clk se st).2.1 = none ∧ p.rank = 1) ∨
    (∃ p1, (p.step clk se st).2.1 = some p1 ∧ p.rank = p1.rank + 1) := by
  cases p <;> simp [Pending.step, Pending.rank]

theorem Sys.run_concat (s : Sys) (a b : List SysEvent) :
    s.run (a ++ b) = (s.run a).bind (fun s1 => s1.run b) := by
  induction a generalizing s with
  | nil => rfl
  | cons e rest ih =>
    simp only [List.cons_append, Sys.run]
    cases s.step e with
    | none => rfl
    | some s1 => exact ih s1

/-- The actions a turn has left, run with no other thread in between, are a
run of the interleaved server. -/
theorem Sys.run_resume (clk : Clock) (sock : SOCKET) (fuel : Nat) :
    ∀ (p : Pending) (s : Sys) (se : Session), p.rank ≤ fuel →
      threadOf s.threads sock = some { session := se, pending := some p } →
      s.run (List.replicate p.rank (SysEvent.resume clk sock)) =
        some { st := (Pending.finish clk se fuel s.st (some p)).1,
               threads := setThread s.threads sock { session := se, pending := none } } := by
  induction fuel with
  | zero =>
    intro p s se hr _
    cases p <;> simp [Pending.rank] at hr
  | succ n ih =>
    intro p s se hr ht
    have hsock : se.clientSock = sock := threadOf_sock _ _ _ ht
    rcases Pending.step_rank clk se s.st p with ⟨h1, h2⟩ | ⟨p1, h1, h2⟩
    · rw [h2]
      simp only [List.replicate, Sys.run, Sys.step, ht, h1, Option.some_bind, Pending.finish]
    · rw [h2, List.replicate_succ]
      simp only [Sys.run, Sys.step, ht, h1, Option.some_bind, Pending.finish]
      have ht1 := threadOf_setThread s.threads sock _
        ({ session := se, pending := some p1 } : Thread) ht hsock
      rw [ih p1 _ se (by omega) ht1]
      rw [setThread_setThread s.threads sock { session := se, pending := some p1 } _ hsock]

namespace handleClient

theorem whole_pending (r : Except Fault (State × Session × List Send))
    (x : State × Session × List Send × Option Pending) (h : whole r = Except.ok x) :
    x.2.2.2 = none := by
  cases r with
  | error e => cases h
  | ok y =>
    simp only [whole, Except.map, Except.ok.injEq] at h
    subst h; rfl

/-- A turn that is left unfinished by its first action keeps the locals of
the thread. -/
theorem start_pending (clk : Clock) (st : State) (se : Session) (msg : Str)
    (st1 : State) (se1 : Session) (out : List Send) (p : Pending)
    (h : start clk st se msg = Except.ok (st1, se1, out, some p)) : se1 = se := by
  simp only [start] at h
  split at h
  · have := whole_pending _ _ h; cases this
  split at h
  · have := whole_pending _ _ h; cases this
  split at h
  · simp only [undoStart] at h
    split at h
    · simp only [pure, Except.pure, Except.ok.injEq, Prod.mk.injEq] at h
      exact h.2.1.symm
    · simp only [pure, Except.pure, Except.ok.injEq, Prod.mk.injEq] at h
      cases h.2.2.2
  split at h
  · have := whole_pending _ _ h; cases this
  split at h
  · simp only [replyStart, bind, Except.bind] at h
    split at h
    · cases h
    · split at h
      · cases h
      · split at h
        · cases h
        · split at h
          · simp only [pure, Except.pure, Except.ok.injEq, Prod.mk.injEq] at h
            exact h.2.1.symm
          · simp only [pure, Except.pure, Except.ok.injEq, Prod.mk.injEq] at h
            cases h.2.2.2
  split at h
  · have := whole_pending _ _ h; cases this
  split at h
  · simp only [redoStart] at h
    split at h
    · simp only [pure, Except.pure, Except.ok.injEq, Prod.mk.injEq] at h
      exact h.2.1.symm
    · simp only [pure, Except.pure, Except.ok.injEq, Prod.mk.injEq] at h
      cases h.2.2.2
  split at h
  · have := whole_pending _ _ h; cases this
  · simp only [chatStart, pure, Except.pure, Except.ok.injEq, Prod.mk.injEq] at h
    exact h.2.1.symm

end handleClient

theorem Pending.rank_le (p : Pending) : p.rank ≤ 5 := by
  cases p <;> simp [Pending.rank]

theorem Config.step_toSys (c : Config) (e : Event) (c1 : Config) (h : c.step e = some c1) :
    c.toSys.run (c.sysEvents e) = some c1.toSys := by
  cases e with
  | accept clk sock payload =>
    simp only [Config.step] at h
    simp only [Config.sysEvents, Sys.run, Sys.step, Config.toSys, threadOf_map]
    cases hs : sessionOf c.sessions sock with
    | some se => rw [hs] at h; cases h
    | none =>
      rw [hs] at h
      simp only [Option.map_none']
      by_cases hp : payload = []
      · simp only [hp, if_true, Option.some.injEq] at h ⊢
        subst h; rfl
      · simp only [hp, if_false, Option.some.injEq] at h ⊢
        subst h; rfl
  | recv clk sock payload =>
    simp only [Config.step] at h
    simp only [Config.sysEvents]
    cases hs : sessionOf c.sessions sock with
    | none => rw [hs] at h; cases h
    | some se =>
      rw [hs] at h
      simp only
      have hth : threadOf (List.map (fun se => ({ session := se, pending := none } : Thread))
          c.sessions) sock = some { session := se, pending := none } := by
        simp only [threadOf_map, hs, Option.map_some']
      by_cases hp : payload = []
      · simp only [hp, if_true, Option.some.injEq] at h ⊢
        subst h
        simp only [Sys.run, Sys.step, hth, if_true, Option.some_bind, Config.toSys,
          List.filter_map]
        rfl
      · simp only [hp, if_false] at h ⊢
        rw [handleClient.command_eq_uninterrupted, handleClient.uninterrupted] at h
        cases hst : handleClient.start clk c.st se (recvString payload) with
        | error err => rw [hst] at h; cases h
        | ok r =>
          rw [hst] at h
          simp only [Except.map, Option.some.injEq] at h
          subst h
          obtain ⟨st1, se1, out, pend⟩ := r
          cases pend with
          | none =>
            simp only [Sys.run, Sys.step, Config.toSys, hth, hp, if_false, hst, Option.some_bind,
              Pending.finish, setThread, List.map_map]
            congr 2
            apply List.map_congr_left
            intro x _
            simp only [Function.comp]
            split <;> rfl
          | some p =>
            have hse : se1 = se := handleClient.start_pending _ _ _ _ _ _ _ _ hst
            subst hse
            have hsock : se1.clientSock = sock := by
              have := List.find?_some hs
              simpa using this
            simp only [Sys.run, Sys.step, Config.toSys, hth, hp, if_false, hst, Option.some_bind]
            have ht1 := threadOf_setThread _ sock _
              ({ session := se1, pending := some p } : Thread) hth hsock
            rw [Sys.run_resume clk sock 5 p _ se1 p.rank_le ht1]
            simp only [setThread_setThread _ sock { session := se1, pending := some p } _ hsock,
              setThread, List.map_map]
            congr 2
            apply List.map_congr_left
            intro x _
            simp only [Function.comp]
            split <;> rfl
  | worker clk =>
    simp only [Config.step, Option.some.injEq] at h
    subst h
    rfl

/-- Every run of the server whose turns run one at a time is a run of the
interleaved server. -/
theorem Config.run_toSys (evs : List Event) :
    ∀ (c c1 : Config), c.run evs = some c1 → ∃ sevs, c.toSys.run sevs = some c1.toSys := by
  induction evs with
  | nil =>
    intro c c1 h
    simp only [Config.run, Option.some.injEq] at h
    subst h
    exact ⟨[], rfl⟩
  | cons e rest ih =>
    intro c c1 h
    simp only [Config.run] at h
    cases hs : c.step e with
    | none => rw [hs] at h; cases h
    | some c2 =>
      rw [hs] at h
      obtain ⟨sevs, hsevs⟩ := ih c2 c1 h
      refine ⟨c.sysEvents e ++ sevs, ?_⟩
      rw [Sys.run_concat, Config.step_toSys c e c2 hs]
      exact hsevs

theorem Reachable.sysReachable (c : Config) (h : Reachable c) : Sys.Reachable c.toSys := by
  obtain ⟨evs, hrun⟩ := h
  exact Config.run_toSys evs Config.init c hrun

/-! ## The ledger invariant in the interleaved server -/

namespace handleClient

theorem whole_ok (r : Except Fault (State × Session × List Send))
    (x : State × Session × List Send × Option Pending) (h : whole r = Except.ok x) :
    ∃ y, r = Except.ok y ∧ x.1 = y.1 := by
  cases r with
  | error e => cases h
  | ok y =>
    simp only [whole, Except.map, Except.ok.injEq] at h
    subst h; exact ⟨y, rfl, rfl⟩

/-- The first action of a turn leaves the ledger and the counter alone. -/
theorem start_frame (clk : Clock) (st : State) (se : Session) (msg : Str)
    (x : State × Session × List Send × Option Pending)
    (h : start clk st se msg = Except.ok x) :
    x.1.roomHistory = st.roomHistory ∧ x.1.messageCounter = st.messageCounter := by
  simp only [start] at h
  split at h
  · obtain ⟨y, hy, e⟩ := whole_ok _ _ h
    rw [e]
    exact ⟨(join_frame clk st se msg y hy).1.1, (join_frame clk st se msg y hy).1.2.2.2⟩
  split at h
  · obtain ⟨y, hy, e⟩ := whole_ok _ _ h
    rw [e, (pm_frame clk st se msg y hy).1]
    exact ⟨rfl, rfl⟩
  split at h
  · simp only [undoStart] at h
    split at h
    · simp only [pure, Except.pure, Except.ok.injEq] at h
      subst h; exact ⟨rfl, rfl⟩
    · simp only [pure, Except.pure, Except.ok.injEq] at h
      subst h; exact ⟨rfl, rfl⟩
  split at h
  · obtain ⟨y, hy, e⟩ := whole_ok _ _ h
    simp only [help, pure, Except.pure, Except.ok.injEq] at hy
    subst hy; rw [e]; exact ⟨rfl, rfl⟩
  split at h
  · simp only [replyStart, bind, Except.bind] at h
    split at h
    · cases h
    · split at h
      · cases h
      · split at h
        · cases h
        · split at h
          · simp only [pure, Except.pure, Except.ok.injEq] at h
            subst h; exact ⟨rfl, rfl⟩
          · simp only [pure, Except.pure, Except.ok.injEq] at h
            subst h; exact ⟨rfl, rfl⟩
  split at h
  · obtain ⟨y, hy, e⟩ := whole_ok _ _ h
    rw [e, (search_frame clk st se msg y hy).1]
    exact ⟨rfl, rfl⟩
  split at h
  · simp only [redoStart] at h
    split at h
    · simp only [pure, Except.pure, Except.ok.injEq] at h
      subst h; exact ⟨rfl, rfl⟩
    · simp only [pure, Except.pure, Except.ok.injEq] at h
      subst h; exact ⟨rfl, rfl⟩
  split at h
  · obtain ⟨y, hy, e⟩ := whole_ok _ _ h
    simp only [history, pure, Except.pure, Except.ok.injEq] at hy
    subst hy; rw [e]; exact ⟨rfl, rfl⟩
  · simp only [chatStart, pure, Except.pure, Except.ok.injEq] at h
    subst h; exact ⟨rfl, rfl⟩

end handleClient

theorem Pending.step_keeps_ledger (clk : Clock) (se : Session) (st : State) (p : Pending)
    (h : st.LedgerInv) : (p.step clk se st).1.LedgerInv := by
  obtain ⟨hwf, hmax⟩ := h
  have hC : 1 ≤ st.roomHistory.maxSize := by rw [hmax]; decide
  cases p with
  | load text => exact ⟨hwf, hmax⟩
  | store m => exact ⟨hwf, hmax⟩
  | ledgerAdd m =>
    exact ⟨(History.addMessage_nodes _ _ hwf hC).2, by
      simp only [Pending.step, History.addMessage_maxSize, hmax]⟩
  | undoAdd m => exact ⟨hwf, hmax⟩
  | queuePush m => exact ⟨hwf, hmax⟩
  | undoRemove m =>
    exact ⟨History.removeMessage_WF _ _ hwf, by
      simp only [Pending.step, History.removeMessage_maxSize, hmax]⟩
  | redoAdd m =>
    exact ⟨(History.addMessage_nodes _ _ hwf hC).2, by
      simp only [Pending.step, History.addMessage_maxSize, hmax]⟩
  | redoPush m => exact ⟨hwf, hmax⟩

theorem Sys.step_ledgerInv (s : Sys) (e : SysEvent) (s1 : Sys) (h : s.st.LedgerInv)
    (hs : s.step e = some s1) : s1.st.LedgerInv := by
  cases e with
  | accept clk sock payload =>
    simp only [Sys.step] at hs
    split at hs
    · cases hs
    · split at hs
      · cases hs; exact h
      · cases hs; exact h
  | recv clk sock payload =>
    simp only [Sys.step] at hs
    split at hs
    · cases hs
    · split at hs
      · cases hs
      · split at hs
        · cases hs; exact h
        · split at hs
          · cases hs
          · rename_i r hr
            cases hs
            have := handleClient.start_frame _ _ _ _ r hr
            simpa only [State.LedgerInv, this.1] using h
  | resume clk sock =>
    simp only [Sys.step] at hs
    split at hs
    · cases hs
    · split at hs
      · cases hs
      · cases hs
        exact Pending.step_keeps_ledger _ _ _ _ h
  | worker clk =>
    simp only [Sys.step, Option.some.injEq] at hs
    subst hs
    obtain ⟨h1, _⟩ := broadcastWorker_ledger clk s.st
    simpa only [State.LedgerInv, h1] using h

/-- In every state of the interleaved server the ledger satisfies its class
invariant and has capacity `MAX_MESSAGE_HISTORY`. -/
theorem Sys.Reachable.sysLedgerInv (s : Sys) (hs : Sys.Reachable s) : s.st.LedgerInv := by
  obtain ⟨evs, hrun⟩ := hs
  have key : ∀ (evs : List SysEvent) (s0 s1 : Sys), s0.st.LedgerInv →
      s0.run evs = some s1 → s1.st.LedgerInv := by
    intro evs
    induction evs with
    | nil =>
      intro s0 s1 h0 hr
      simp only [Sys.run, Option.some.injEq] at hr
      subst hr; exact h0
    | cons e rest ih =>
      intro s0 s1 h0 hr
      simp only [Sys.run] at hr
      cases hst : s0.step e with
      | none => rw [hst] at hr; cases hr
      | some s2 =>
        rw [hst] at hr
        exact ih s2 s1 (Sys.step_ledgerInv s0 e s2 h0 hst) hr
  exact key evs Sys.init s ⟨⟨rfl, by decide⟩, rfl⟩ hrun

theorem Reachable.ledgerInv (c : Config) (hc : Reachable c) : c.st.LedgerInv :=
  Sys.Reachable.sysLedgerInv c.toSys (Reachable.sysReachable c hc)

/-! ## The ledger and the stacks when the turns run one at a time -/

namespace UndoRedo

theorem addMessage_ordered (u : UndoRedo) (counter : Int) (sender text : Str) (ts : Nat)
    (h : u.Ordered counter) :
    (u.addMessage { id := counter, sender := sender, text := text, timestamp := ts }).Ordered
      (counter + 1) := by
  obtain ⟨h1, h2⟩ := h
  have hund : ∀ m ∈ u.undoStack, m.id < counter := fun m hm =>
    h2 m (by simp [timeline, hm])
  have hsub : (u.undoStack.reverse.map Message.id).Pairwise (· < ·) := by
    simp only [timeline, List.map_append, List.pairwise_append] at h1
    exact h1.1
  constructor
  · simp only [timeline, addMessage, popAll_eq, List.append_nil, List.reverse_cons,
      List.map_append, List.map_cons, List.map_nil, List.pairwise_append, List.pairwise_cons,
      List.mem_singleton]
    refine ⟨hsub, ⟨fun _ h => (by cases h), List.Pairwise.nil⟩, ?_⟩
    intro a ha b hb
    subst hb
    obtain ⟨x, hx, rfl⟩ := List.mem_map.mp ha
    exact hund x (List.mem_reverse.mp hx)
  · intro m hm
    simp only [timeline, addMessage, popAll_eq, List.append_nil, List.reverse_cons,
      List.mem_append, List.mem_reverse, List.mem_singleton] at hm
    rcases hm with hm | hm
    · have := hund m hm; omega
    · subst hm; simp

end UndoRedo

theorem postMessage_stackInv (clk : Clock) (st : State) (sender text : Str) (k : Nat)
    (h : st.StackInv k) (hk : k < 2147483648) :
    (postMessage clk st sender text).StackInv (k + 1) := by
  obtain ⟨hwf, hC, hord, hsuf, hcnt, _⟩ := h
  have hid : st.messageCounter = (k : Int) := by
    rw [hcnt]; exact wrapInt_of_range _ (by omega) (by omega)
  refine ⟨(History.addMessage_nodes _ _ hwf hC).2, ?_, ?_, ?_, ?_, by omega⟩
  · simp only [postMessage, History.addMessage_maxSize]; exact hC
  · have := UndoRedo.addMessage_ordered _ _ sender text clk.time hord
    simp only [postMessage, hid]
    push_cast
    exact this
  · simp only [postMessage, UndoRedo.addMessage, List.reverse_cons]
    exact History.addMessage_suffix _ _ _ hwf hC hsuf
  · simp only [postMessage, hid]
    push_cast
    rfl

theorem undo_stackInv (st : State) (m : Message) (u : UndoRedo) (k : Nat) (h : st.StackInv k)
    (hu : st.undoRedo.undo = some (m, u)) :
    State.StackInv { st with undoRedo := u, roomHistory := st.roomHistory.removeMessage m.id }
      k ∧
    (st.roomHistory.nodes ≠ [] →
      st.roomHistory.nodes = (st.roomHistory.removeMessage m.id).nodes ++ [m]) := by
  obtain ⟨hwf, hC, hord, hsuf, hcnt, hk⟩ := h
  obtain ⟨e1, e2, e3⟩ := UndoRedo.undo_timeline _ _ _ hu
  rw [e1, List.reverse_cons] at hsuf
  have hids : (st.roomHistory.nodes.map Message.id).Pairwise (· < ·) := by
    have h1 : (st.undoRedo.undoStack.reverse.map Message.id).Pairwise (· < ·) := by
      have := hord.1
      simp only [UndoRedo.timeline, List.map_append, List.pairwise_append] at this
      exact this.1
    rw [e1, List.reverse_cons] at h1
    exact h1.sublist (hsuf.sublist.map _)
  have hnodes : (st.roomHistory.removeMessage m.id).nodes <:+ u.undoStack.reverse ∧
      (st.roomHistory.nodes ≠ [] →
        st.roomHistory.nodes = (st.roomHistory.removeMessage m.id).nodes ++ [m]) := by
    rw [History.removeMessage_nodes]
    rcases List.suffix_concat_iff.mp hsuf with hnil | ⟨t, ht, hts⟩
    · rw [hnil]
      exact ⟨by simp [History.unlinkFirst], fun hne => absurd rfl hne⟩
    · rw [ht] at hids ⊢
      have hlt : ∀ x ∈ t, x.id ≠ m.id := by
        intro x hx
        simp only [List.map_append, List.map_cons, List.map_nil, List.pairwise_append,
          List.mem_singleton] at hids
        exact ne_of_lt (hids.2.2 x.id (List.mem_map_of_mem _ hx) m.id rfl)
      rw [History.unlinkFirst_append_last m.id t m hlt rfl]
      exact ⟨hts, fun _ => rfl⟩
  refine ⟨⟨History.removeMessage_WF _ _ hwf, ?_, ?_, hnodes.1, hcnt, hk⟩, hnodes.2⟩
  · simp only [History.removeMessage_maxSize]; exact hC
  · show u.Ordered k
    simp only [UndoRedo.Ordered, e3]
    exact hord

theorem redo_stackInv (st : State) (m : Message) (u : UndoRedo) (k : Nat) (h : st.StackInv k)
    (hu : st.undoRedo.redo = some (m, u)) :
    State.StackInv { st with undoRedo := u, roomHistory := st.roomHistory.addMessage m,
                             messageQueue := st.messageQueue.push m } k := by
  obtain ⟨hwf, hC, hord, hsuf, hcnt, hk⟩ := h
  obtain ⟨e1, e2, e3⟩ := UndoRedo.redo_timeline _ _ _ hu
  refine ⟨(History.addMessage_nodes _ _ hwf hC).2, ?_, ?_, ?_, hcnt, hk⟩
  · simp only [History.addMessage_maxSize]; exact hC
  · show u.Ordered k
    simp only [UndoRedo.Ordered, e3]
    exact hord
  · show (st.roomHistory.addMessage m).nodes <:+ u.undoStack.reverse
    rw [e2, List.reverse_cons]
    exact History.addMessage_suffix _ _ _ hwf hC hsuf

theorem sameLedger_stackInv (st st1 : State) (k : Nat) (h : st.StackInv k)
    (hs : st.SameLedger st1) : st1.StackInv k := by
  obtain ⟨h1, h2, _, h4⟩ := hs
  simpa only [State.StackInv, h1, h2, h4] using h

/-- A turn run alone keeps the invariant; the count goes up by one exactly
when the turn stored a new value in the counter. -/
theorem command_stackInv (clk : Clock) (st : State) (se : Session) (msg : Str)
    (r : State × Session × List Send) (k : Nat) (h : st.StackInv k)
    (hr : handleClient.command clk st se msg = Except.ok r)
    (hb : k + (if r.1.messageCounter = st.messageCounter then 0 else 1) ≤ 2147483648) :
    r.1.StackInv (k + (if r.1.messageCounter = st.messageCounter then 0 else 1)) ∧
    r.1.roomHistory.maxSize = st.roomHistory.maxSize := by
  rcases handleClient.command_effect clk st se msg r hr with
    hs | ⟨text, hp⟩ | ⟨m, u, hu, he⟩ | ⟨m, u, hu, he⟩
  · rw [if_pos hs.2.2.2]
    exact ⟨sameLedger_stackInv _ _ k h hs, by rw [hs.1]⟩
  · have hne : ¬ r.1.messageCounter = st.messageCounter := by
      rw [hp]; exact wrapInt_succ_ne _
    rw [if_neg hne] at hb ⊢
    rw [hp]
    exact ⟨postMessage_stackInv _ _ _ _ k h (by omega),
      by simp only [postMessage, History.addMessage_maxSize]⟩
  · have hc : r.1.messageCounter = st.messageCounter := by rw [he]
    rw [if_pos hc, he]
    exact ⟨(undo_stackInv st m u k h hu).1, by simp only [History.removeMessage_maxSize]⟩
  · have hc : r.1.messageCounter = st.messageCounter := by rw [he]
    rw [if_pos hc, he]
    exact ⟨redo_stackInv st m u k h hu, by simp only [History.addMessage_maxSize]⟩

theorem step_stackInv (c : Config) (e : Event) (c1 : Config) (k : Nat) (h : c.st.StackInv k)
    (hs : c.step e = some c1)
    (hb : k + (if c1.st.messageCounter = c.st.messageCounter then 0 else 1) ≤ 2147483648) :
    c1.st.StackInv (k + (if c1.st.messageCounter = c.st.messageCounter then 0 else 1)) ∧
    c1.st.roomHistory.maxSize = c.st.roomHistory.maxSize := by
  cases e with
  | accept clk sock payload =>
    simp only [Config.step] at hs
    split at hs
    · cases hs
    · split at hs
      · cases hs; exact ⟨by simpa using h, rfl⟩
      · cases hs; exact ⟨by simpa [handleClient.register, State.StackInv] using h, rfl⟩
  | recv clk sock payload =>
    simp only [Config.step] at hs
    split at hs
    · cases hs
    · split at hs
      · cases hs; exact ⟨by simpa [handleClient.disconnect, State.StackInv] using h, rfl⟩
      · split at hs
        · cases hs
        · rename_i r hr
          cases hs
          exact command_stackInv _ _ _ _ r k h hr hb
  | worker clk =>
    simp only [Config.step, Option.some.injEq] at hs
    subst hs
    obtain ⟨h1, h2, h3, _, _⟩ := broadcastWorker_ledger clk c.st
    refine ⟨?_, by rw [h1]⟩
    simp only [h3, if_true, Nat.add_zero]
    simpa only [State.StackInv, h1, h2, h3] using h

theorem initWith_stackInv (C : Int) (hC : 1 ≤ C) : (State.initWith C).StackInv 0 := by
  refine ⟨⟨rfl, ?_⟩, hC, ⟨?_, ?_⟩, ?_, ?_, by omega⟩
  · show (0 : Int) ≤ C
    omega
  · simp [State.initWith, State.init, UndoRedo.timeline]
  · intro m hm; simp [State.initWith, State.init, UndoRedo.timeline] at hm
  · simp [State.initWith, State.init, History.new]
  · simp only [State.initWith, State.init]
    rw [wrapInt_eq]; rfl

/-- Along a run of turns run one at a time that creates at most `2 ^ 31`
messages in all, the invariant holds with the number of messages created. -/
theorem Config.run_stackInv (evs : List Event) :
    ∀ (c c1 : Config) (k : Nat), c.st.StackInv k → k + c.created evs ≤ 2147483648 →
      c.run evs = some c1 →
      c1.st.StackInv (k + c.created evs) ∧
      c1.st.roomHistory.maxSize = c.st.roomHistory.maxSize := by
  induction evs with
  | nil =>
    intro c c1 k h _ hrun
    simp only [Config.run, Option.some.injEq] at hrun
    subst hrun
    exact ⟨h, rfl⟩
  | cons e rest ih =>
    intro c c1 k h hb hrun
    simp only [Config.run] at hrun
    cases hs : c.step e with
    | none => rw [hs] at hrun; cases hrun
    | some c2 =>
      rw [hs] at hrun
      simp only [Config.created, hs] at hb ⊢
      obtain ⟨h2, hm2⟩ := step_stackInv c e c2 k h hs (by omega)
      obtain ⟨h3, hm3⟩ := ih c2 c1 _ h2 (by omega) hrun
      rw [Nat.add_assoc] at h3
      exact ⟨h3, by rw [hm3, hm2]⟩

/-! ## The wrap scenario -/

theorem Config.run_append (c : Config) (a b : List Event) :
    c.run (a ++ b) = (c.run a).bind (fun c1 => c1.run b) := by
  induction a generalizing c with
  | nil => rfl
  | cons e rest ih =>
    simp only [List.cons_append, Config.run]
    cases c.step e with
    | none => rfl
    | some c1 => exact ih c1

theorem pumped_round (j : Nat) (h : j + 2 ≤ 2147483647) :
    (pumped j).run pumpRound = some (pumped (j + 1)) := by
  have hw : wrapInt (Int.ofNat j + 1 + 1) = Int.ofNat (j + 1) + 1 := by
    rw [wrapInt_of_range _ (by simp; omega) (by simp; omega)]
    simp
  have e1 : (pumped j).step (Event.recv noon 1 "a".toList) =
      some { st := postMessage noon (pumped j).st "X".toList "a".toList,
             sessions := [sessionX] } := by
    rfl
  have e2 : Config.step { st := postMessage noon (pumped j).st "X".toList "a".toList,
                          sessions := [sessionX] } (Event.worker noon) =
      some { st := { postMessage noon (pumped j).st "X".toList "a".toList with
                     messageQueue := { messages := [], shutdown := false } },
             sessions := [sessionX] } := by
    rfl
  have e3 : Config.step
      { st := { postMessage noon (pumped j).st "X".toList "a".toList with
                messageQueue := { messages := [], shutdown := false } },
        sessions := [sessionX] } (Event.recv noon 1 "/undo".toList) =
      some (pumped (j + 1)) := by
    have hcmd : handleClient.command noon
        { postMessage noon (pumped j).st "X".toList "a".toList with
          messageQueue := { messages := [], shutdown := false } } sessionX
        (recvString "/undo".toList) =
        Except.ok ((pumped (j + 1)).st, sessionX,
          [(1, stamped (noon.str 0) "Last message undone.\n".toList)]) := by
      have hr : recvString "/undo".toList = "/undo".toList := by decide
      rw [hr, handleClient.command_undo]
      simp only [handleClient.undo, postMessage, pumped, UndoRedo.undo, UndoRedo.addMessage,
        UndoRedo.popAll, History.addMessage, History.removeMessage, History.unlinkFirst,
        MessageQueue.push, hw]
      simp
      rfl
    have hs : sessionOf [sessionX] 1 = some sessionX := by decide
    have hp : ¬ "/undo".toList = [] := by decide
    simp only [Config.step, hs, hp, if_false, hcmd]
    rfl
  simp only [pumpRound, Config.run, e1, e2, e3, Option.some_bind]

theorem pumped_run (n : Nat) :
    ∀ j : Nat, j + n + 1 ≤ 2147483647 → (pumped j).run (pumpEvents n) = some (pumped (j + n)) := by
  induction n with
  | zero => intro j _; rfl
  | succ n ih =>
    intro j h
    rw [pumpEvents, Config.run_append, pumped_round j (by omega), Option.some_bind,
      ih (j + 1) (by omega)]
    congr 2
    omega

/-- The wrap scenario is a run of the server whose turns run one at a time:
after `2 ^ 31` messages the counter has gone from `INT_MAX` to `INT_MIN`. -/
theorem wrapEvents_run : Config.init.run wrapEvents = some wrapConfig := by
  have h0 : Config.init.run ([Event.accept noon 1 "X".toList] ++ pumpRound) = some (pumped 0) := by
    decide
  have h1 := pumped_run 2147483646 0 (by norm_num)
  rw [Nat.zero_add] at h1
  have h2 : (pumped 2147483646).run
      [Event.recv noon 1 "a".toList, Event.recv noon 1 "b".toList] = some wrapConfig := by
    decide
  rw [wrapEvents, Config.run_append, Config.run_append, h0, Option.some_bind, h1,
    Option.some_bind, h2]

/-! ## The sender as the worker knows it -/

/-- What the worker does with a message for which it resolves a room `R` (a
non-empty name): every member of `R` registered under a name other than the
message's sender is sent exactly the full line `[time][sender]: text\n`; every
member of `R` registered under the sender's name is sent exactly the echo
`[time] \n`; nothing is sent to a connection that is not a member of `R` or
that is not registered.  The connection that sent the message plays no part. -/
theorem dispatch_by_registered_name (clk : Clock) (clients : List (SOCKET × Str))
    (rooms : List (Str × List SOCKET)) (msg : Message)
    (hres : targetRoomOf clients rooms msg ≠ [])
    (hset : (membersOf rooms (targetRoomOf clients rooms msg)).Nodup) :
    (∀ c ∈ membersOf rooms (targetRoomOf clients rooms msg), ∀ name,
      mapFind clients c = some name → name ≠ msg.sender →
      (dispatch clk clients rooms msg).filter (fun s => decide (s.1 = c)) =
        [(c, "[".toList ++ clk.str 0 ++ "][".toList ++ msg.sender ++ "]: ".toList ++
              msg.text ++ "\n".toList)]) ∧
    (∀ c ∈ membersOf rooms (targetRoomOf clients rooms msg),
      mapFind clients c = some msg.sender →
      (dispatch clk clients rooms msg).filter (fun s => decide (s.1 = c)) =
        [(c, "[".toList ++ clk.str 1 ++ "] ".toList ++ "\n".toList)]) ∧
    (∀ c, c ∉ membersOf rooms (targetRoomOf clients rooms msg) →
      (dispatch clk clients rooms msg).filter (fun s => decide (s.1 = c)) = []) ∧
    (∀ c, mapFind clients c = none →
      (dispatch clk clients rooms msg).filter (fun s => decide (s.1 = c)) = []) := by
  rw [dispatch_of_resolved clk clients rooms msg hres]
  refine ⟨?_, ?_, ?_, ?_⟩
  · intro c hc name hname hne
    rw [fanOut_filter _ _ _ _ _ hset c, if_pos hc, hname]
    simp [hne, Message.toString, formatMessageWithTime]
  · intro c hc hname
    rw [fanOut_filter _ _ _ _ _ hset c, if_pos hc, hname]
    simp
  · intro c hc
    rw [fanOut_filter _ _ _ _ _ hset c, if_neg hc]
  · intro c hc
    rw [fanOut_filter _ _ _ _ _ hset c, hc]
    split <;> rfl

/-- C7 fails on the code.  In the two-room namesake scenario socket 2,
registered as `bob`, is in room `zoo` with `al` (socket 3) and sends `hi`;
socket 1, also registered as `bob`, is in `chatroom` with `cy` (socket 4).
The worker looks for a room with a member registered as `bob`, finds
`chatroom` first and fans out there: socket 1 is sent the echo and `cy` the
full line, while the sender's room `zoo` is sent nothing, neither the echo to
socket 2 nor the line to `al`.  With both `bob` in one room (the namesake
scenario, socket 1 sends `hi`), socket 2 is in the sender's room and is not
the sender, yet it is sent the echo and not the full line. -/
theorem C7_sender_told_by_name :
    (Config.init.run twoRoomEvents = some scenarioTwoRooms ∧
      scenarioTwoRooms.st.messageQueue.pop =
        some (messageBob, { messages := [], shutdown := false }) ∧
      sessionOf scenarioTwoRooms.sessions 2 =
        some { clientSock := 2, username := "bob".toList, currentRoom := "zoo".toList } ∧
      membersOf scenarioTwoRooms.st.rooms "zoo".toList = [2, 3] ∧
      membersOf scenarioTwoRooms.st.rooms "chatroom".toList = [1, 4] ∧
      targetRoomOf scenarioTwoRooms.st.clients scenarioTwoRooms.st.rooms messageBob =
        "chatroom".toList ∧
      (broadcastWorker noon scenarioTwoRooms.st).2 =
        [(1, "[12:00:00] \n".toList), (4, "[12:00:00][bob]: hi\n".toList)] ∧
      (broadcastWorker noon scenarioTwoRooms.st).2.filter (fun s => decide (s.1 = 2)) = [] ∧
      (broadcastWorker noon scenarioTwoRooms.st).2.filter (fun s => decide (s.1 = 3)) = []) ∧
    (Config.init.run namesakeEvents = some scenarioNamesake ∧
      scenarioNamesake.st.messageQueue.pop =
        some (messageBob, { messages := [], shutdown := false }) ∧
      targetRoomOf scenarioNamesake.st.clients scenarioNamesake.st.rooms messageBob =
        "chatroom".toList ∧
      membersOf scenarioNamesake.st.rooms "chatroom".toList = [1, 2] ∧
      (broadcastWorker noon scenarioNamesake.st).2 =
        [(1, "[12:00:00] \n".toList), (2, "[12:00:00] \n".toList)] ∧
      (broadcastWorker noon scenarioNamesake.st).2.filter (fun s => decide (s.1 = 2)) ≠
        [(2, "[12:00:00][bob]: hi\n".toList)]) := by
  refine ⟨⟨by decide, by decide, by decide, by decide, by decide, by decide, by decide,
    by decide, by decide⟩, by decide, by decide, by decide, by decide, by decide, by decide⟩

/-! ## Ids issued by the counter -/

/-- When the id the counter holds is on no node of the ledger, a send
followed by `/undo`, each turn run alone, removes the message sent: `/undo`
succeeds, pops the message, and no entry of the listing, hence no result of a
search, has its id afterwards. -/
theorem undo_after_send (clk1 clk2 : Clock) (st : State) (x y : Session) (msg : Str)
    (hwf : st.roomHistory.WF) (hC : 1 ≤ st.roomHistory.maxSize)
    (hfresh : ∀ a ∈ st.roomHistory.nodes, a.id ≠ st.messageCounter)
    (hchat : handleClient.isChat msg = true) :
    ∃ m st1 st2,
      m = { id := st.messageCounter, sender := x.username, text := msg,
            timestamp := clk1.time } ∧
      handleClient.command clk1 st x msg = Except.ok (st1, x, []) ∧
      st1.undoRedo.undo = some (m, st2.undoRedo) ∧
      handleClient.command clk2 st1 y "/undo".toList =
        Except.ok (st2, y, [(y.clientSock, stamped (clk2.str 0) "Last message undone.\n".toList)]) ∧
      (∀ m1 ∈ st2.roomHistory.getMessages, m1.id ≠ m.id) ∧
      (∀ m1 ∈ st2.roomHistory.searchMessages msg, m1.id ≠ m.id) := by
  obtain ⟨m, hm⟩ : ∃ m : Message, m = ⟨st.messageCounter, x.username, msg, clk1.time⟩ :=
    ⟨_, rfl⟩
  have hid : m.id = st.messageCounter := by rw [hm]
  have hpost : postMessage clk1 st x.username msg =
      { st with messageCounter := wrapInt (st.messageCounter + 1)
                roomHistory := st.roomHistory.addMessage m
                undoRedo := st.undoRedo.addMessage m
                messageQueue := st.messageQueue.push m } := by
    rw [hm]; rfl
  obtain ⟨hnodes, _⟩ := History.addMessage_nodes st.roomHistory m hwf hC
  have hl : ∃ l, (st.roomHistory.addMessage m).nodes = l ++ [m] ∧ ∀ a ∈ l, a.id ≠ m.id := by
    rw [hnodes]
    split
    · exact ⟨_, rfl, fun a ha => by rw [hid]; exact hfresh a ha⟩
    · exact ⟨_, rfl, fun a ha => by rw [hid]; exact hfresh a (List.mem_of_mem_tail ha)⟩
  obtain ⟨l, hl1, hl2⟩ := hl
  have hrem : ((st.roomHistory.addMessage m).removeMessage m.id).nodes = l := by
    rw [History.removeMessage_nodes, hl1, History.unlinkFirst_append_last m.id l m hl2 rfl]
  refine ⟨m, postMessage clk1 st x.username msg,
    { postMessage clk1 st x.username msg with
        undoRedo := { undoStack := st.undoRedo.undoStack,
                      redoStack := [m] }
        roomHistory := (st.roomHistory.addMessage m).removeMessage m.id },
    hm, ?_, ?_, ?_, ?_, ?_⟩
  · rw [handleClient.command_chat _ _ _ _ hchat]; rfl
  · rw [hpost]
    simp [UndoRedo.undo, UndoRedo.addMessage, UndoRedo.popAll_eq]
  · rw [handleClient.command_undo, hpost]
    simp only [handleClient.undo, UndoRedo.undo, UndoRedo.addMessage, UndoRedo.popAll_eq]
    rfl
  · intro m1 hm1
    rw [History.getMessages_eq] at hm1
    simp only [hpost] at hm1
    rw [hrem] at hm1
    exact hl2 m1 hm1
  · intro m1 hm1
    rw [History.searchMessages_eq] at hm1
    have hm2 := (List.mem_filter.mp hm1).1
    simp only [hpost] at hm2
    rw [hrem] at hm2
    exact hl2 m1 hm2

/-- C5 fails on the code.  In the late store the thread of `A` loads the
counter (0), `B` sends `b1` and `b2` (ids 0 and 1), and only then `A` stores
its incremented value: the counter goes back to 1 while the ledger holds `b2`
with id 1.  All threads wait in `recv`.  Now `X` sends `x`, which is assigned
id 1, and the next command is `/undo` from `Y`: it succeeds and pops the
message of `X`, but `removeMessage(1)` unlinks `b2`, the first node with id 1,
and the message of `X` stays in the listing and is still found by a search. -/
theorem C5_undo_unlinks_older_message :
    Sys.init.run staleEvents = some staleSys ∧
    (∀ t ∈ staleSys.threads, t.pending = none) ∧
    staleSys.st.messageCounter = 1 ∧
    staleSys.st.roomHistory.getMessages = [staleB1, staleB2, staleA] ∧
    staleB2.id = 1 ∧
    handleClient.isChat "x".toList = true ∧
    handleClient.command noon staleSys.st sessionX3 "x".toList =
      Except.ok (postMessage noon staleSys.st "X".toList "x".toList, sessionX3, []) ∧
    (postMessage noon staleSys.st "X".toList "x".toList).roomHistory.getMessages =
      [staleB1, staleB2, staleA, staleX] ∧
    staleX.id = 1 ∧
    (postMessage noon staleSys.st "X".toList "x".toList).undoRedo.undo =
      some (staleX, staleUndone.undoRedo) ∧
    handleClient.command noon (postMessage noon staleSys.st "X".toList "x".toList) sessionY4
        "/undo".toList =
      Except.ok (staleUndone, sessionY4, [(4, "[12:00:00] Last message undone.\n".toList)]) ∧
    staleUndone.roomHistory.getMessages = [staleB1, staleA, staleX] ∧
    staleUndone.roomHistory.searchMessages "x".toList = [staleX] ∧
    staleSys.run
        [SysEvent.recv noon 3 "x".toList, SysEvent.resume noon 3, SysEvent.resume noon 3,
         SysEvent.resume noon 3, SysEvent.resume noon 3,
         SysEvent.recv noon 4 "/undo".toList, SysEvent.resume noon 4] =
      some { st := staleUndone, threads := staleThreads } := by
  refine ⟨by decide, by decide, by decide, by decide, by decide, by decide, by decide,
    by decide, by decide, by decide, by decide, by decide, by decide, by decide⟩

/-- C11 fails on the code.  In the racing sends the threads of `A` and `B`
both load the counter (0) before either stores the incremented value: the two
messages created are stored, in the ledger, on the undo stack and in the
queue, with the same id 0, and the counter holds 1 after two messages.  The
same two lines with the turns run one at a time get the ids 0 and 1.  In the
wrap scenario, with the turns run one at a time, the message created when the
counter holds `INT_MAX` gets the id 2147483647 and the next one the id
-2147483648. -/
theorem C11_racing_sends_share_id :
    (Sys.init.run raceEvents = some raceSys ∧
      (∀ t ∈ raceSys.threads, t.pending = none) ∧
      raceSys.st.roomHistory.getMessages = [raceA, raceB] ∧
      raceSys.st.roomHistory.getMessages.map Message.id = [0, 0] ∧
      raceSys.st.undoRedo.undoStack.map Message.id = [0, 0] ∧
      raceSys.st.messageQueue.messages.map Message.id = [0, 0] ∧
      raceSys.st.messageCounter = 1 ∧
      ¬ (raceSys.st.roomHistory.getMessages.map Message.id).Nodup ∧
      ¬ (raceSys.st.roomHistory.getMessages.map Message.id).Pairwise (· < ·)) ∧
    (Config.init.run raceEventsInTurn).map
        (fun c => c.st.roomHistory.getMessages.map Message.id) = some [0, 1] ∧
    (Config.init.run wrapEvents = some wrapConfig ∧
      wrapConfig.st.roomHistory.getMessages = [wrapA, wrapB] ∧
      wrapA.id = INT_MAX ∧ wrapB.id = wrapInt (INT_MAX + 1) ∧
      wrapConfig.st.roomHistory.getMessages.map Message.id = [2147483647, -2147483648] ∧
      ¬ (wrapConfig.st.roomHistory.getMessages.map Message.id).Pairwise (· < ·)) := by
  refine ⟨⟨by decide, by decide, by decide, by decide, by decide, by decide, by decide,
    by decide, by decide⟩, by decide, wrapEvents_run, by decide, by decide, by decide,
    by decide, by decide⟩

/-- C12 fails on the code.  After the racing sends (two `recordSend` with the
id taken from the counter, which both threads loaded as 0) the undo stack
holds the messages of `B` and of `A`, two messages with the id 0: an id occurs
twice within one stack.  A following `undo` moves the message of `B`, as it
is, onto the redo stack, and the id 0 is on both stacks. -/
theorem C12_racing_sends_on_stack :
    Sys.init.run raceEvents = some raceSys ∧
    raceSys.st.undoRedo.undoStack = [raceB, raceA] ∧
    raceSys.st.undoRedo.redoStack = [] ∧
    raceB ≠ raceA ∧ raceB.id = 0 ∧ raceA.id = 0 ∧
    ¬ (raceSys.st.undoRedo.undoStack.map Message.id).Nodup ∧
    raceSys.st.undoRedo.undo =
      some (raceB, { undoStack := [raceA], redoStack := [raceB] }) ∧
    (raceSys.run [SysEvent.recv noon 1 "/undo".toList, SysEvent.resume noon 1]).map
        (fun s => s.st.undoRedo) =
      some { undoStack := [raceA], redoStack := [raceB] } ∧
    ¬ (∀ a ∈ [raceA], ∀ b ∈ [raceB], a.id ≠ b.id) := by
  refine ⟨by decide, by decide, by decide, by decide, by decide, by decide, by decide,
    by decide, by decide, by decide⟩

/-! ## The ledger as a suffix of the undo stack -/

/-- C13 as stated fails.  In the overlapping sends the thread of `A` has added
its message `a` (id 0) to the ledger when `B` sends `b` (id 1), a whole turn;
then `A` pushes `a` on the undo stack.  All threads wait in `recv`, the
listing is `a, b` and the undo stack from the bottom is `b, a`: the listing is
no suffix of it, the next `/undo` pops `a`, which is not the last entry
of the listing, and `/undo` followed by `/redo` turns the listing into
`b, a`.  In the wrap scenario, with the turns run one at a time, the listing
holds the ids 2147483647 and -2147483648 in this order. -/
theorem C13_counterexample :
    (Sys.init.run overlapEvents = some overlapSys ∧
      (∀ t ∈ overlapSys.threads, t.pending = none) ∧
      overlapSys.st.roomHistory.getMessages = [raceA, overlapB] ∧
      overlapSys.st.undoRedo.undoStack.reverse = [overlapB, raceA] ∧
      ¬ (overlapSys.st.roomHistory.getMessages <:+ overlapSys.st.undoRedo.undoStack.reverse) ∧
      overlapSys.st.roomHistory.getMessages.getLast? = some overlapB ∧
      overlapSys.st.undoRedo.undo =
        some (raceA, { undoStack := [overlapB], redoStack := [raceA] }) ∧
      (stateAfter overlapSys.st
          (handleClient.command noon overlapSys.st sessionA "/undo".toList)).roomHistory.getMessages
        = [overlapB] ∧
      (stateAfter overlapSys.st (handleClient.command noon
          (stateAfter overlapSys.st
            (handleClient.command noon overlapSys.st sessionA "/undo".toList))
          sessionA "/redo".toList)).roomHistory.getMessages = [overlapB, raceA]) ∧
    (Config.init.run wrapEvents = some wrapConfig ∧
      wrapConfig.st.roomHistory.getMessages.map Message.id = [2147483647, -2147483648] ∧
      ¬ (wrapConfig.st.roomHistory.getMessages.map Message.id).Pairwise (· < ·)) := by
  refine ⟨⟨by decide, by decide, by decide, by decide, by decide, by decide, by decide,
    by decide, by decide⟩, wrapEvents_run, by decide, by decide⟩

/-- C13 (amended): in every configuration reached from the start with ledger
capacity `C ≥ 1` by turns run one at a time that have created at most `2 ^ 31`
messages, the listing `getMessages()` is a suffix of the undo stack read from
bottom to top and has at most `C` entries; its ids increase strictly, so none
occurs twice; and when the listing is not empty, the next `/undo` pops its
last entry, and `/undo` followed by `/redo` gives back the same listing (the
same ledger and the same stacks). -/
theorem C13_ledger_is_suffix_of_undo_stack (C : Int) (hC : 1 ≤ C) (evs : List Event)
    (c : Config) (hrun : (Config.initWith C).run evs = some c)
    (hbound : (Config.initWith C).created evs ≤ 2 ^ 31) :
    c.st.roomHistory.getMessages <:+ c.st.undoRedo.undoStack.reverse ∧
    (c.st.roomHistory.getMessages.length : Int) ≤ C ∧
    (c.st.roomHistory.getMessages.map Message.id).Pairwise (· < ·) ∧
    (c.st.roomHistory.getMessages.map Message.id).Nodup ∧
    (c.st.roomHistory.getMessages ≠ [] →
      ∀ (clk1 clk2 : Clock) (x y : Session),
        ∃ m u1 st1 st2,
          c.st.roomHistory.getMessages.getLast? = some m ∧
          c.st.undoRedo.undo = some (m, u1) ∧
          handleClient.command clk1 c.st x "/undo".toList =
            Except.ok (st1, x,
              [(x.clientSock, stamped (clk1.str 0) "Last message undone.\n".toList)]) ∧
          st1.undoRedo = u1 ∧
          handleClient.command clk2 st1 y "/redo".toList =
            Except.ok (st2, y,
              [(y.clientSock, stamped (clk2.str 0) "Message redone.\n".toList)]) ∧
          st2.roomHistory.getMessages = c.st.roomHistory.getMessages ∧
          st2.roomHistory = c.st.roomHistory ∧
          st2.undoRedo = c.st.undoRedo) := by
  have hb : 0 + (Config.initWith C).created evs ≤ 2147483648 := by
    have : (2 : Nat) ^ 31 = 2147483648 := by norm_num
    omega
  obtain ⟨hinv, hmax0⟩ := Config.run_stackInv evs (Config.initWith C) c 0
    (initWith_stackInv C hC) hb hrun
  have hmax : c.st.roomHistory.maxSize = C := hmax0
  obtain ⟨hwf, hC1, hord, hsuf, hcnt, hk⟩ := hinv
  have hids : (c.st.roomHistory.nodes.map Message.id).Pairwise (· < ·) := by
    have h1 : (c.st.undoRedo.undoStack.reverse.map Message.id).Pairwise (· < ·) := by
      have := hord.1
      simp only [UndoRedo.timeline, List.map_append, List.pairwise_append] at this
      exact this.1
    exact h1.sublist (hsuf.sublist.map _)
  simp only [History.getMessages_eq]
  refine ⟨hsuf, ?_, hids, hids.imp (fun hab => ne_of_lt hab), ?_⟩
  · have := hwf.1
    have := hwf.2
    omega
  · intro hne clk1 clk2 x y
    cases hstack : c.st.undoRedo.undoStack with
    | nil =>
      rw [hstack] at hsuf
      simp only [List.reverse_nil, List.suffix_nil] at hsuf
      exact absurd hsuf hne
    | cons m rest =>
      have hundo : c.st.undoRedo.undo =
          some (m, { undoStack := rest, redoStack := m :: c.st.undoRedo.redoStack }) := by
        simp only [UndoRedo.undo, hstack]
      obtain ⟨hinv1, hnodes⟩ := undo_stackInv c.st m _ _ ⟨hwf, hC1, hord, hsuf, hcnt, hk⟩ hundo
      have hnodes1 := hnodes hne
      have hu : ({ undoStack := m :: rest, redoStack := c.st.undoRedo.redoStack } : UndoRedo)
          = c.st.undoRedo := by
        rw [← hstack]
      -- the ledger after `/undo` has room for one more node
      have hwf1 : (c.st.roomHistory.removeMessage m.id).WF := hinv1.1
      have hC2 : 1 ≤ (c.st.roomHistory.removeMessage m.id).maxSize := hinv1.2.1
      have hlen : (c.st.roomHistory.removeMessage m.id).nodes.length + 1 =
          c.st.roomHistory.nodes.length := by
        conv_rhs => rw [hnodes1]
        simp
      have hroom : (c.st.roomHistory.removeMessage m.id).nodes.length <
          (c.st.roomHistory.removeMessage m.id).maxSize.toNat := by
        rw [History.removeMessage_maxSize]
        have := hwf.1
        have := hwf.2
        omega
      obtain ⟨hadd, hwf2⟩ := History.addMessage_nodes _ m hwf1 hC2
      rw [if_pos hroom, ← hnodes1] at hadd
      have hback : (c.st.roomHistory.removeMessage m.id).addMessage m = c.st.roomHistory := by
        have hsize : ((c.st.roomHistory.removeMessage m.id).addMessage m).size =
            c.st.roomHistory.size := by
          rw [hwf2.1, hadd, hwf.1]
        have hmx : ((c.st.roomHistory.removeMessage m.id).addMessage m).maxSize =
            c.st.roomHistory.maxSize := by
          rw [History.addMessage_maxSize, History.removeMessage_maxSize]
        cases hA : (c.st.roomHistory.removeMessage m.id).addMessage m with
        | mk n s mx =>
          cases hB : c.st.roomHistory with
          | mk n' s' mx' =>
            rw [hA, hB] at hadd hsize hmx
            simp only at hadd hsize hmx
            rw [hadd, hsize, hmx]
      refine ⟨m, { undoStack := rest, redoStack := m :: c.st.undoRedo.redoStack },
        { c.st with undoRedo := { undoStack := rest, redoStack := m :: c.st.undoRedo.redoStack },
                    roomHistory := c.st.roomHistory.removeMessage m.id },
        { c.st with undoRedo := c.st.undoRedo,
                    roomHistory := (c.st.roomHistory.removeMessage m.id).addMessage m,
                    messageQueue := c.st.messageQueue.push m },
        ?_, hundo, ?_, rfl, ?_, ?_, hback, rfl⟩
      · rw [hnodes1]; simp
      · rw [handleClient.command_undo]
        simp only [handleClient.undo, hundo]
        rfl
      · rw [handleClient.command_redo]
        simp only [handleClient.redo, UndoRedo.redo, hu]
        rfl
      · show ((c.st.roomHistory.removeMessage m.id).addMessage m).nodes = c.st.roomHistory.nodes
        exact hadd

/-- C13 (amended) at the small-ledger scenario: capacity 2, three messages
sent in three turns, the listing is `b, c` and the undo stack from the bottom
is `a, b, c`. -/
theorem C13_ledger_is_suffix_of_undo_stack_witness :
    ((1 : Int) ≤ 2 ∧ (Config.initWith 2).run smallLedgerEvents = some scenarioSmallLedger ∧
      (Config.initWith 2).created smallLedgerEvents ≤ 2 ^ 31 ∧
      scenarioSmallLedger.st.roomHistory.getMessages ≠ []) ∧
    ((Config.initWith 2).created smallLedgerEvents = 3 ∧
      scenarioSmallLedger.st.roomHistory.getMessages.map Message.text =
        ["b".toList, "c".toList] ∧
      scenarioSmallLedger.st.undoRedo.undoStack.reverse.map Message.text =
        ["a".toList, "b".toList, "c".toList]) ∧
    scenarioSmallLedger.st.roomHistory.getMessages <:+
      scenarioSmallLedger.st.undoRedo.undoStack.reverse ∧
    (scenarioSmallLedger.st.roomHistory.getMessages.length : Int) ≤ 2 ∧
    (scenarioSmallLedger.st.roomHistory.getMessages.map Message.id).Pairwise (· < ·) ∧
    (∃ m u1 st1 st2,
      scenarioSmallLedger.st.roomHistory.getMessages.getLast? = some m ∧
      scenarioSmallLedger.st.undoRedo.undo = some (m, u1) ∧
      handleClient.command noon scenarioSmallLedger.st sessionX "/undo".toList =
        Except.ok (st1, sessionX,
          [(sessionX.clientSock, stamped (noon.str 0) "Last message undone.\n".toList)]) ∧
      st1.undoRedo = u1 ∧
      handleClient.command noon st1 sessionY "/redo".toList =
        Except.ok (st2, sessionY,
          [(sessionY.clientSock, stamped (noon.str 0) "Message redone.\n".toList)]) ∧
      st2.roomHistory.getMessages = scenarioSmallLedger.st.roomHistory.getMessages ∧
      st2.roomHistory = scenarioSmallLedger.st.roomHistory ∧
      st2.undoRedo = scenarioSmallLedger.st.undoRedo) :=
  ⟨⟨by decide, by decide, by decide, by decide⟩, ⟨by decide, by decide, by decide⟩,
   (C13_ledger_is_suffix_of_undo_stack 2 (by decide) smallLedgerEvents scenarioSmallLedger
      (by decide) (by decide)).1,
   (C13_ledger_is_suffix_of_undo_stack 2 (by decide) smallLedgerEvents scenarioSmallLedger
      (by decide) (by decide)).2.1,
   (C13_ledger_is_suffix_of_undo_stack 2 (by decide) smallLedgerEvents scenarioSmallLedger
      (by decide) (by decide)).2.2.1,
   (C13_ledger_is_suffix_of_undo_stack 2 (by decide) smallLedgerEvents scenarioSmallLedger
      (by decide) (by decide)).2.2.2.2 (by decide) noon noon sessionX sessionY⟩

end ChatServer
